import Mathlib

/-!
# muxueTools: credential pool, selection strategies and dispatch client

A shallow embedding of `internal/types/key.go`, `internal/types/errors.go`,
`internal/keypool/strategy.go`, `internal/keypool/pool.go`, the stop-sequence codec of
`internal/types/openai.go`, the request and response conversions of
`internal/gemini/converter.go`, the request validation of `internal/api/openai_handler.go`,
and the dispatch paths and the streaming producer of `internal/gemini/client.go`, followed by
theorems about them.

Conventions of the embedding

* `time.Time` is an integer count of nanoseconds (`Time`); a method that reads the clock
  takes the reading as its argument `now`. `Pool.GetKey` reads the clock several times (in
  the sweep, in every availability test of the selection, and in the classification of a
  failed selection) and takes each reading separately; a report method takes one reading.
* The `int64` arithmetic of the statistics counters and of `time.Duration` is reduced to the
  range of `int64` explicitly (`wrapInt64`), and the round-robin counter (`uint64`) modulo
  `2 ^ 64`; `Time.Add` is exact. The consecutive-failure counter and its threshold, whose
  values are bounded by the number of calls made, are unbounded integers (`Int`).
* A `*types.Key` held in `Pool.keys` is identified by its position in that list; a nil
  pointer is `none`.
* `map[string]int` is a total function with the zero value for absent entries, which is
  what reading a Go map yields.
* Go strings are Lean strings; where the source indexes bytes the model indexes characters,
  which is the same on ASCII text (API keys, role names and URL suffixes are ASCII).
* `float64` weights of the weighted strategy are exact rationals, and a `*rand.Rand` is the
  tape of raw values it will produce.
* The collaborators of the dispatch client (pool, request conversion, JSON codec, HTTP
  transport) answer as scripted by an `Upstream` value, and the calls the client makes on the
  pool are recorded in order.
* A message keeps its content as raw JSON text; what `encoding/json` makes of it, as a
  string or as a list of parts, is given by a `ContentDecoder` passed to the conversions.
  What it does with a stop value is given by a `JSONCodec` in the same way.
* A `KeyStorage` backend is the log of the calls it received, together with which calls it
  answers with an error.
* Values read from the environment by a conversion (`GenerateResponseID`,
  `GetCreatedTimestamp`) are arguments of its embedding.
* The streaming producer is the list of what it does that others observe (events delivered,
  pool calls, closing the channel and the body), for a body given as its lines; whether a
  `select` finds the context done is given per `select`, in the order they are executed.
-/

namespace MuxueTools

/-! ## internal/types/key.go -/

/-- An instant (`time.Time`), in nanoseconds. -/
abbrev Time := Int

/-- The number of nanoseconds of `time.Second`. -/
def Second : Int := 1000000000

/-- The type `KeyStatus`, a Go string type. -/
abbrev KeyStatus := String

def KeyStatusActive : KeyStatus := "active"
def KeyStatusRateLimited : KeyStatus := "rate_limited"
def KeyStatusDisabled : KeyStatus := "disabled"

/-- The struct `KeyStats`. `ModelUsage` is a finite map kept as an association list. -/
structure KeyStats where
  RequestCount : Int := 0
  SuccessCount : Int := 0
  ErrorCount : Int := 0
  PromptTokens : Int := 0
  CompletionTokens : Int := 0
  LastUsedAt : Option Time := none
  ModelUsage : List (String × Int) := []
  deriving DecidableEq, Repr

/-- The struct `Key`. -/
structure Key where
  ID : String := ""
  APIKey : String := ""
  MaskedKey : String := ""
  Name : String := ""
  Status : KeyStatus := ""
  Enabled : Bool := false
  Tags : List String := []
  Provider : String := ""
  DefaultModel : String := ""
  Stats : KeyStats := {}
  CooldownUntil : Option Time := none
  CreatedAt : Time := 0
  UpdatedAt : Time := 0
  deriving DecidableEq, Repr

/-- The struct `KeyConfig`. -/
structure KeyConfig where
  Key : String := ""
  Name : String := ""
  Enabled : Bool := false
  Tags : List String := []
  deriving DecidableEq, Repr

/-- `MaskAPIKey`: the first six and last three characters around `...`, or one `*` per
character for keys shorter than twelve. The source counts and slices bytes, which are the
characters of an ASCII key. -/
def MaskAPIKey (apiKey : String) : String :=
  if apiKey.length < 12 then
    String.mk (List.replicate apiKey.length '*')
  else
    String.mk (apiKey.toList.take 6) ++ "..." ++ String.mk (apiKey.toList.drop (apiKey.length - 3))

/-- `Key.IsAvailable`, with the clock reading `now`. -/
def Key.IsAvailable (k : Key) (now : Time) : Bool :=
  if !k.Enabled || k.Status == KeyStatusDisabled then
    false
  else if k.Status == KeyStatusRateLimited then
    match k.CooldownUntil with
    | some cooldownUntil => if now < cooldownUntil then false else true
    | none => true
  else
    true

/-- The value an `int64` holds when the exact result of an operation is `n`: the integer
congruent to `n` modulo `2 ^ 64` in the range from `-2 ^ 63` to `2 ^ 63 - 1`
(`2 ^ 63 = 9223372036854775808`, `2 ^ 64 = 18446744073709551616`). -/
def wrapInt64 (n : Int) : Int :=
  (n + 9223372036854775808) % 18446744073709551616 - 9223372036854775808

/-- `Key.SetRateLimited`, with the clock reading `now`. The product
`time.Duration(cooldownSeconds) * time.Second` is an `int64` product. -/
def Key.SetRateLimited (k : Key) (now : Time) (cooldownSeconds : Int) : Key :=
  { k with
    Status := KeyStatusRateLimited
    CooldownUntil := some (now + wrapInt64 (cooldownSeconds * Second)) }

/-- `Key.ResetCooldown`: the updated key and the returned flag. -/
def Key.ResetCooldown (k : Key) (now : Time) : Key × Bool :=
  if k.Status != KeyStatusRateLimited then
    (k, false)
  else
    match k.CooldownUntil with
    | none => ({ k with Status := KeyStatusActive, CooldownUntil := none }, true)
    | some cooldownUntil =>
      if cooldownUntil < now then
        ({ k with Status := KeyStatusActive, CooldownUntil := none }, true)
      else
        (k, false)

/-- The statement `m[model]++` on a `map[string]int64`. -/
def incrModelUsage (m : List (String × Int)) (model : String) : List (String × Int) :=
  match m with
  | [] => [(model, 1)]
  | (name, n) :: rest =>
    if name = model then (name, wrapInt64 (n + 1)) :: rest
    else (name, n) :: incrModelUsage rest model

/-- `Key.IncrementStats`, with the clock reading `now`. The counters are `int64`: `++` and
`+=` are `int64` operations. -/
def Key.IncrementStats (k : Key) (now : Time) (success : Bool)
    (promptTokens completionTokens : Int) (model : String) : Key :=
  let s := k.Stats
  let s := { s with RequestCount := wrapInt64 (s.RequestCount + 1) }
  let s := if success then { s with SuccessCount := wrapInt64 (s.SuccessCount + 1) }
           else { s with ErrorCount := wrapInt64 (s.ErrorCount + 1) }
  let s := { s with PromptTokens := wrapInt64 (s.PromptTokens + promptTokens) }
  let s := { s with CompletionTokens := wrapInt64 (s.CompletionTokens + completionTokens) }
  let s := { s with LastUsedAt := some now }
  let s := if model ≠ "" then { s with ModelUsage := incrModelUsage s.ModelUsage model } else s
  { k with Stats := s, UpdatedAt := now }

/-! ## internal/types/errors.go -/

/-- The fields of an `AppError` other than its cause (`ErrType` is the field `Type`, a
reserved word here). -/
structure AppErrorData where
  Code : Int := 0
  Message : String := ""
  ErrType : String := ""
  HTTPStatus : Int := 0
  Param : String := ""
  RetryAfter : Int := 0
  deriving DecidableEq, Repr

/-- A Go `error` value: nil, a leaf error carrying only a message, an error that wraps
another one (its `Unwrap` returns `inner`), or a `*types.AppError` with its cause. -/
inductive GoError where
  | nil
  | plain (msg : String)
  | wrap (msg : String) (inner : GoError)
  | app (e : AppErrorData) (cause : GoError)
  deriving DecidableEq, Repr

def ErrCodeInvalidRequest : Int := 40001
def ErrCodeAuthentication : Int := 40101
def ErrCodePermission : Int := 40301
def ErrCodeNotFound : Int := 40401
def ErrCodeRateLimit : Int := 42901
def ErrCodeInternal : Int := 50001
def ErrCodeUpstream : Int := 50201
def ErrCodeServiceUnavailable : Int := 50301

def ErrTypeInvalidRequest : String := "invalid_request_error"
def ErrTypeAuthentication : String := "authentication_error"
def ErrTypePermission : String := "permission_error"
def ErrTypeNotFound : String := "not_found_error"
def ErrTypeRateLimit : String := "rate_limit_error"
def ErrTypeServer : String := "server_error"
def ErrTypeUpstream : String := "upstream_error"
def ErrTypeServiceUnavailable : String := "service_unavailable"

def NewInvalidRequestError (message : String) : AppErrorData :=
  { Code := ErrCodeInvalidRequest
    Message := if message = "" then "Invalid request format" else message
    ErrType := ErrTypeInvalidRequest
    HTTPStatus := 400 }

def NewAuthenticationError (message : String) : AppErrorData :=
  { Code := ErrCodeAuthentication
    Message := if message = "" then "Invalid or missing API key" else message
    ErrType := ErrTypeAuthentication
    HTTPStatus := 401 }

def NewPermissionError (message : String) : AppErrorData :=
  { Code := ErrCodePermission
    Message := if message = "" then "Access denied" else message
    ErrType := ErrTypePermission
    HTTPStatus := 403 }

def NewNotFoundError (resource : String) : AppErrorData :=
  { Code := ErrCodeNotFound
    Message := "Resource not found: " ++ resource
    ErrType := ErrTypeNotFound
    HTTPStatus := 404 }

def NewRateLimitError (retryAfter : Int) : AppErrorData :=
  { Code := ErrCodeRateLimit
    Message := "All API keys are currently rate limited"
    ErrType := ErrTypeRateLimit
    HTTPStatus := 429
    RetryAfter := retryAfter }

def NewInternalError (message : String) : AppErrorData :=
  { Code := ErrCodeInternal
    Message := if message = "" then "Internal server error" else message
    ErrType := ErrTypeServer
    HTTPStatus := 500 }

def NewUpstreamError (message : String) : AppErrorData :=
  { Code := ErrCodeUpstream
    Message := if message = "" then "Upstream API error" else message
    ErrType := ErrTypeUpstream
    HTTPStatus := 502 }

def NewServiceUnavailableError (message : String) : AppErrorData :=
  { Code := ErrCodeServiceUnavailable
    Message := if message = "" then "Service temporarily unavailable" else message
    ErrType := ErrTypeServiceUnavailable
    HTTPStatus := 503 }

/-- `AppError.WithMessage`. -/
def AppErrorData.WithMessage (e : AppErrorData) (message : String) : AppErrorData :=
  { e with Message := message }

def ErrCodeInvalidMessages : Int := 40003

def NewInvalidMessagesError (message : String) : AppErrorData :=
  { Code := ErrCodeInvalidMessages
    Message := if message = "" then "Invalid messages format" else message
    ErrType := ErrTypeInvalidRequest
    HTTPStatus := 400
    Param := "messages" }

/-- The sentinel `ErrEmptyMessages`. -/
def ErrEmptyMessages : GoError :=
  .app (NewInvalidMessagesError "Messages array cannot be empty") .nil

/-- `AppError.WithParam`. -/
def AppErrorData.WithParam (e : AppErrorData) (param : String) : AppErrorData :=
  { e with Param := param }

/-- The sentinel `ErrMissingModel`. -/
def ErrMissingModel : GoError :=
  .app ((NewInvalidRequestError "Model field is required").WithParam "model") .nil

/-- The sentinel `ErrNoAvailableKeys`. -/
def ErrNoAvailableKeys : GoError :=
  .app (NewServiceUnavailableError "No available API keys in the pool") .nil

/-- The sentinel `ErrAllKeysRateLimited`. -/
def ErrAllKeysRateLimited : GoError :=
  .app (NewRateLimitError 60) .nil

/-- The method `Error()` of an error value (`AppError.Error` for the typed case). -/
def GoError.Error : GoError → String
  | .nil => "<nil>"
  | .plain msg => msg
  | .wrap msg _ => msg
  | .app e .nil => "[" ++ toString e.Code ++ "] " ++ e.Message
  | .app e cause => "[" ++ toString e.Code ++ "] " ++ e.Message ++ ": " ++ cause.Error

/-- The call `errors.As(err, &appErr)` for `appErr` of type `*types.AppError`: the first
typed error on the unwrap chain. -/
def GoError.asAppError : GoError → Option AppErrorData
  | .nil => none
  | .plain _ => none
  | .wrap _ inner => inner.asAppError
  | .app e _ => some e

/-! ## internal/keypool/strategy.go -/

/-- `filterAvailable`: the non-nil keys that are available at `now`, in slice order. -/
def filterAvailable (now : Time) (keys : List (Option Key)) : List Key :=
  match keys with
  | [] => []
  | none :: rest => filterAvailable now rest
  | some key :: rest =>
    if key.IsAvailable now then key :: filterAvailable now rest else filterAvailable now rest

/-- The struct `RoundRobinStrategy`: the `uint64` counter. -/
structure RoundRobinStrategy where
  index : Nat := 0
  deriving DecidableEq, Repr

/-- `RoundRobinStrategy.Select`: the selected key and the strategy after the call.
`atomic.AddUint64(&s.index, 1) - 1` is computed in `uint64` arithmetic. -/
def RoundRobinStrategy.Select (s : RoundRobinStrategy) (now : Time) (keys : List (Option Key)) :
    Option Key × RoundRobinStrategy :=
  let availableKeys := filterAvailable now keys
  if availableKeys.length = 0 then
    (none, s)
  else
    let added := (s.index + 1) % 2 ^ 64
    let idx := (added + 2 ^ 64 - 1) % 2 ^ 64
    (availableKeys[idx % availableKeys.length]?, { index := added })

/-- A `*rand.Rand`: the tape of raw outputs the generator will produce. -/
abbrev Rng := List Nat

/-- `rng.Intn(n)`: the next raw output reduced into `[0, n)`, and the advanced generator. -/
def Rng.Intn (rng : Rng) (n : Nat) : Nat × Rng :=
  match rng with
  | [] => (0, [])
  | r :: rest => (r % n, rest)

/-- `rng.Float64()`: the next raw output as a multiple of `2 ^ (-53)` in `[0, 1)`, and the
advanced generator. -/
def Rng.Float64 (rng : Rng) : ℚ × Rng :=
  match rng with
  | [] => (0, [])
  | r :: rest => (((r % 2 ^ 53 : Nat) : ℚ) / 2 ^ 53, rest)

/-- The struct `RandomStrategy`. -/
structure RandomStrategy where
  rng : Rng := []
  deriving DecidableEq, Repr

/-- `RandomStrategy.Select`. -/
def RandomStrategy.Select (s : RandomStrategy) (now : Time) (keys : List (Option Key)) :
    Option Key × RandomStrategy :=
  let availableKeys := filterAvailable now keys
  if availableKeys.length = 0 then
    (none, s)
  else
    let (idx, rng) := Rng.Intn s.rng availableKeys.length
    (availableKeys[idx]?, { rng := rng })

/-- The loop of `LeastUsedStrategy.Select` over `availableKeys[1:]`. -/
def leastUsedLoop (minKey : Key) (minCount : Int) (rest : List Key) : Key :=
  match rest with
  | [] => minKey
  | key :: rest =>
    if key.Stats.RequestCount < minCount then
      leastUsedLoop key key.Stats.RequestCount rest
    else
      leastUsedLoop minKey minCount rest

/-- `LeastUsedStrategy.Select`. -/
def LeastUsedStrategy.Select (now : Time) (keys : List (Option Key)) : Option Key :=
  match filterAvailable now keys with
  | [] => none
  | minKey :: rest => some (leastUsedLoop minKey minKey.Stats.RequestCount rest)

/-- `calculateWeight`. -/
def calculateWeight (key : Key) : ℚ :=
  if key.Stats.RequestCount = 0 then
    1 / 2
  else
    let successRate : ℚ := (key.Stats.SuccessCount : ℚ) / (key.Stats.RequestCount : ℚ)
    let weight := max (1 / 10) successRate
    min weight 1

/-- The selection loop of `WeightedStrategy.Select`: the first key whose cumulative weight
reaches `randomValue`, if any. -/
def weightedLoop (randomValue cumulative : ℚ) (availableKeys : List Key) : Option Key :=
  match availableKeys with
  | [] => none
  | key :: rest =>
    let cumulative := cumulative + calculateWeight key
    if randomValue ≤ cumulative then some key else weightedLoop randomValue cumulative rest

/-- The struct `WeightedStrategy`. -/
structure WeightedStrategy where
  rng : Rng := []
  deriving DecidableEq, Repr

/-- `WeightedStrategy.Select`. -/
def WeightedStrategy.Select (s : WeightedStrategy) (now : Time) (keys : List (Option Key)) :
    Option Key × WeightedStrategy :=
  let availableKeys := filterAvailable now keys
  if availableKeys.length = 0 then
    (none, s)
  else
    let totalWeight := (availableKeys.map calculateWeight).sum
    let (f, rng) := Rng.Float64 s.rng
    let randomValue := f * totalWeight
    match weightedLoop randomValue 0 availableKeys with
    | some key => (some key, { rng := rng })
    | none => (availableKeys[availableKeys.length - 1]?, { rng := rng })

/-- The interface `Strategy`, with its four implementations. -/
inductive Strategy where
  | RoundRobin (s : RoundRobinStrategy)
  | Random (s : RandomStrategy)
  | LeastUsed
  | Weighted (s : WeightedStrategy)
  deriving DecidableEq, Repr

/-- The method `Select` of a strategy: the selected key and the strategy after the call. -/
def Strategy.Select (s : Strategy) (now : Time) (keys : List (Option Key)) :
    Option Key × Strategy :=
  match s with
  | .RoundRobin rr => ((rr.Select now keys).1, .RoundRobin (rr.Select now keys).2)
  | .Random r => ((r.Select now keys).1, .Random (r.Select now keys).2)
  | .LeastUsed => (LeastUsedStrategy.Select now keys, .LeastUsed)
  | .Weighted w => ((w.Select now keys).1, .Weighted (w.Select now keys).2)

/-- `NewRoundRobinStrategy`. -/
def NewRoundRobinStrategy : RoundRobinStrategy := { index := 0 }

/-- `filterAvailable` with one clock reading for each call of `key.IsAvailable()`: the test of
the element at position `i` of the slice reads `clock i`. The argument `i` is the position
of the first element of `keys`. -/
def filterAvailableAt (clock : Nat → Time) (i : Nat) (keys : List (Option Key)) : List Key :=
  match keys with
  | [] => []
  | none :: rest => filterAvailableAt clock (i + 1) rest
  | some key :: rest =>
    if key.IsAvailable (clock i) then key :: filterAvailableAt clock (i + 1) rest
    else filterAvailableAt clock (i + 1) rest

/-- The statements of `RoundRobinStrategy.Select` after
`availableKeys := filterAvailable(keys)`. -/
def RoundRobinStrategy.selectFrom (s : RoundRobinStrategy) (availableKeys : List Key) :
    Option Key × RoundRobinStrategy :=
  if availableKeys.length = 0 then
    (none, s)
  else
    let added := (s.index + 1) % 2 ^ 64
    let idx := (added + 2 ^ 64 - 1) % 2 ^ 64
    (availableKeys[idx % availableKeys.length]?, { index := added })

/-- The statements of `RandomStrategy.Select` after `availableKeys := filterAvailable(keys)`. -/
def RandomStrategy.selectFrom (s : RandomStrategy) (availableKeys : List Key) :
    Option Key × RandomStrategy :=
  if availableKeys.length = 0 then
    (none, s)
  else
    let (idx, rng) := Rng.Intn s.rng availableKeys.length
    (availableKeys[idx]?, { rng := rng })

/-- The statements of `LeastUsedStrategy.Select` after
`availableKeys := filterAvailable(keys)`. -/
def LeastUsedStrategy.selectFrom (availableKeys : List Key) : Option Key :=
  match availableKeys with
  | [] => none
  | minKey :: rest => some (leastUsedLoop minKey minKey.Stats.RequestCount rest)

/-- The statements of `WeightedStrategy.Select` after
`availableKeys := filterAvailable(keys)`. -/
def WeightedStrategy.selectFrom (s : WeightedStrategy) (availableKeys : List Key) :
    Option Key × WeightedStrategy :=
  if availableKeys.length = 0 then
    (none, s)
  else
    let totalWeight := (availableKeys.map calculateWeight).sum
    let (f, rng) := Rng.Float64 s.rng
    let randomValue := f * totalWeight
    match weightedLoop randomValue 0 availableKeys with
    | some key => (some key, { rng := rng })
    | none => (availableKeys[availableKeys.length - 1]?, { rng := rng })

/-- The method `Select` of a strategy with one clock reading for each availability test
(`clock i` for the element at position `i` of the slice): the selected key and the strategy
after the call. -/
def Strategy.SelectAt (s : Strategy) (clock : Nat → Time) (keys : List (Option Key)) :
    Option Key × Strategy :=
  let availableKeys := filterAvailableAt clock 0 keys
  match s with
  | .RoundRobin rr =>
    ((rr.selectFrom availableKeys).1, .RoundRobin (rr.selectFrom availableKeys).2)
  | .Random r => ((r.selectFrom availableKeys).1, .Random (r.selectFrom availableKeys).2)
  | .LeastUsed => (LeastUsedStrategy.selectFrom availableKeys, .LeastUsed)
  | .Weighted w => ((w.selectFrom availableKeys).1, .Weighted (w.selectFrom availableKeys).2)

/-! ## internal/keypool/pool.go -/

/-- The byte compared by `equalFoldSubstring` after its ASCII case folding. -/
def foldASCII (c : Char) : Nat :=
  if 'A'.toNat ≤ c.toNat ∧ c.toNat ≤ 'Z'.toNat then c.toNat + 32 else c.toNat

/-- `equalFoldSubstring`: the loop over the positions of `s1`. Both arguments have the same
length at every call site; a missing `s2[i]` is an index out of range in the source. -/
def equalFoldSubstring (s1 s2 : List Char) : Bool :=
  match s1, s2 with
  | [], _ => true
  | _ :: _, [] => false
  | c1 :: r1, c2 :: r2 => if foldASCII c1 ≠ foldASCII c2 then false else equalFoldSubstring r1 r2

/-- `searchSubstring`: the windows `s[i:i+len(substr)]` for `0 <= i <= len(s)-len(substr)`. -/
def searchSubstring (s substr : List Char) : Bool :=
  (List.range (s.length + 1 - substr.length)).any fun i =>
    equalFoldSubstring ((s.drop i).take substr.length) substr

/-- `contains`. -/
def contains (s substr : String) : Bool :=
  decide (s.length ≥ substr.length) && searchSubstring s.toList substr.toList

/-- `isRateLimitError`. -/
def isRateLimitError (err : GoError) : Bool :=
  if err = .nil then
    false
  else
    match err.asAppError with
    | some appErr => appErr.Code == ErrCodeRateLimit || appErr.HTTPStatus == 429
    | none =>
      let errStr := err.Error
      contains errStr "429" ||
        contains errStr "rate limit" ||
        contains errStr "quota exceeded" ||
        contains errStr "too many requests"

/-- A call received by a `KeyStorage` backend. -/
inductive StorageCall where
  | CreateKey (key : Key)
  | UpdateKey (key : Key)
  | DeleteKey (id : String)
  deriving DecidableEq, Repr

/-- A `KeyStorage` backend as the pool sees it: the calls it has received, oldest first,
which calls it answers with an error, and the error a failing call returns. -/
structure KeyStorage where
  calls : List StorageCall := []
  failing : StorageCall → Bool := fun _ => false
  failure : GoError := .plain "storage failure"

/-- `storage.UpdateKey(key)`: the backend after the call and whether it returned an error. -/
def KeyStorage.UpdateKey (st : KeyStorage) (key : Key) : KeyStorage × Bool :=
  ({ st with calls := st.calls ++ [.UpdateKey key] }, st.failing (.UpdateKey key))

/-- `storage.CreateKey(key)`: the backend after the call and whether it returned an error. -/
def KeyStorage.CreateKey (st : KeyStorage) (key : Key) : KeyStorage × Bool :=
  ({ st with calls := st.calls ++ [.CreateKey key] }, st.failing (.CreateKey key))

/-- The struct `Pool`. -/
structure Pool where
  keys : List Key := []
  strategy : Strategy := .RoundRobin NewRoundRobinStrategy
  storage : Option KeyStorage := none
  cooldownSeconds : Int := 60
  maxConsecutiveFailures : Int := 5
  consecutiveFailures : String → Int := fun _ => 0

/-- The functional options `WithStrategy`, `WithCooldownSeconds`,
`WithMaxConsecutiveFailures` and `WithStorage`. -/
inductive PoolOption where
  | WithStrategy (strategy : Strategy)
  | WithCooldownSeconds (seconds : Int)
  | WithMaxConsecutiveFailures (count : Int)
  | WithStorage (storage : Option KeyStorage)

/-- Applying one option to the pool under construction. -/
def PoolOption.apply (opt : PoolOption) (p : Pool) : Pool :=
  match opt with
  | .WithStrategy strategy => { p with strategy := strategy }
  | .WithCooldownSeconds seconds => { p with cooldownSeconds := seconds }
  | .WithMaxConsecutiveFailures count => { p with maxConsecutiveFailures := count }
  | .WithStorage storage => { p with storage := storage }

/-- The key `NewPool` builds from one configuration entry; `id` is the fresh UUID. -/
def newKeyFromConfig (id : String) (now : Time) (cfg : KeyConfig) : Key :=
  { ID := id
    APIKey := cfg.Key
    MaskedKey := MaskAPIKey cfg.Key
    Name := cfg.Name
    Status := if !cfg.Enabled then KeyStatusDisabled else KeyStatusActive
    Enabled := cfg.Enabled
    Tags := cfg.Tags
    Stats := {}
    CreatedAt := now
    UpdatedAt := now }

/-- The loop of `NewPool` over the configuration entries, from the `i`-th generated
identifier on. -/
def newPoolKeys (uuid : Nat → String) (now : Time) (i : Nat) (configs : List KeyConfig) :
    List Key :=
  match configs with
  | [] => []
  | cfg :: rest => newKeyFromConfig (uuid i) now cfg :: newPoolKeys uuid now (i + 1) rest

/-- `NewPool`; `uuid i` is the identifier generated for the `i`-th entry. -/
def NewPool (uuid : Nat → String) (now : Time) (configs : List KeyConfig)
    (opts : List PoolOption) : Pool :=
  let pool : Pool :=
    { keys := []
      strategy := .RoundRobin NewRoundRobinStrategy
      cooldownSeconds := 60
      maxConsecutiveFailures := 5
      consecutiveFailures := fun _ => 0 }
  let pool := opts.foldl (fun p opt => opt.apply p) pool
  { pool with keys := pool.keys ++ newPoolKeys uuid now 0 configs }

/-- The body of the loop of `Pool.resetExpiredCooldowns` for one key. -/
def resetExpiredCooldown (now : Time) (key : Key) : Key :=
  if key.Status == KeyStatusRateLimited then
    match key.CooldownUntil with
    | none => { key with Status := KeyStatusActive, CooldownUntil := none }
    | some cooldownUntil =>
      if cooldownUntil < now then { key with Status := KeyStatusActive, CooldownUntil := none }
      else key
  else key

/-- `Pool.resetExpiredCooldowns`, with the clock reading `now`. -/
def Pool.resetExpiredCooldowns (p : Pool) (now : Time) : Pool :=
  { p with keys := p.keys.map (resetExpiredCooldown now) }

/-- The loop of `Pool.allKeysRateLimited`: the values of `hasEnabledKey` and
`allRateLimited` when it ends. -/
def allKeysRateLimitedLoop (now : Time) (keys : List Key) (hasEnabledKey allRateLimited : Bool) :
    Bool × Bool :=
  match keys with
  | [] => (hasEnabledKey, allRateLimited)
  | key :: rest =>
    if !key.Enabled || key.Status == KeyStatusDisabled then
      allKeysRateLimitedLoop now rest hasEnabledKey allRateLimited
    else if key.Status == KeyStatusActive then
      (true, false)
    else if key.Status == KeyStatusRateLimited &&
        (match key.CooldownUntil with
         | none => true
         | some cooldownUntil => decide (cooldownUntil < now)) then
      (true, false)
    else
      allKeysRateLimitedLoop now rest true allRateLimited

/-- `Pool.allKeysRateLimited`, with the clock reading `now`. -/
def Pool.allKeysRateLimited (p : Pool) (now : Time) : Bool :=
  let r := allKeysRateLimitedLoop now p.keys false true
  r.1 && r.2

/-- `Pool.GetKey`: the returned pair (a key, or an error) and the pool after the call. The
clock is read by `resetExpiredCooldowns` (`nowSweep`), by each availability test of the
selection (`nowSelect i` for the key at position `i`), and by `allKeysRateLimited`
(`nowClassify`). -/
def Pool.GetKey (p : Pool) (nowSweep : Time) (nowSelect : Nat → Time) (nowClassify : Time) :
    Except GoError Key × Pool :=
  if p.keys.length = 0 then
    (.error ErrNoAvailableKeys, p)
  else
    let p := p.resetExpiredCooldowns nowSweep
    let sel := p.strategy.SelectAt nowSelect (p.keys.map some)
    let p := { p with strategy := sel.2 }
    match sel.1 with
    | none =>
      if p.allKeysRateLimited nowClassify then (.error ErrAllKeysRateLimited, p)
      else (.error ErrNoAvailableKeys, p)
    | some key => (.ok key, p)

/-- The best-effort `p.storage.UpdateKey(key)` of the report methods: the returned error is
discarded. -/
def syncToStorage (storage : Option KeyStorage) (key : Key) : Option KeyStorage :=
  match storage with
  | none => none
  | some st => some (st.UpdateKey key).1

/-- `Pool.ReportSuccess`, with the clock reading `now`. The argument `key` is the pointer:
`none` for nil, `some i` for the `i`-th key of the pool (the pointers `GetKey` hands out
point into `Pool.keys`; a position past the end stands for no key). -/
def Pool.ReportSuccess (p : Pool) (now : Time) (key : Option Nat)
    (promptTokens completionTokens : Int) (model : String) : Pool :=
  match key with
  | none => p
  | some i =>
    match p.keys[i]? with
    | none => p
    | some k =>
      let k := k.IncrementStats now true promptTokens completionTokens model
      { p with
        keys := p.keys.set i k
        consecutiveFailures := Function.update p.consecutiveFailures k.ID 0
        storage := syncToStorage p.storage k }

/-- `Pool.ReportFailure`, with the clock reading `now`. The argument `key` is the pointer:
`none` for nil, `some i` for the `i`-th key of the pool (a position past the end stands for
no key). The rate-limit branch returns before the storage write. -/
def Pool.ReportFailure (p : Pool) (now : Time) (key : Option Nat) (err : GoError)
    (model : String) : Pool :=
  match key with
  | none => p
  | some i =>
    match p.keys[i]? with
    | none => p
    | some k =>
      let k := k.IncrementStats now false 0 0 model
      if isRateLimitError err then
        let k := k.SetRateLimited now p.cooldownSeconds
        { p with
          keys := p.keys.set i k
          consecutiveFailures := Function.update p.consecutiveFailures k.ID 0 }
      else
        let failures := Function.update p.consecutiveFailures k.ID (p.consecutiveFailures k.ID + 1)
        if failures k.ID ≥ p.maxConsecutiveFailures then
          let k := k.SetRateLimited now p.cooldownSeconds
          { p with
            keys := p.keys.set i k
            consecutiveFailures := Function.update failures k.ID 0
            storage := syncToStorage p.storage k }
        else
          { p with
            keys := p.keys.set i k
            consecutiveFailures := failures
            storage := syncToStorage p.storage k }

/-- `Pool.GetStats`: a copy of every key without the fields `APIKey`, `Provider` and
`DefaultModel`, which the copy leaves at their zero values. -/
def Pool.GetStats (p : Pool) : List Key :=
  p.keys.map fun key =>
    { ID := key.ID
      MaskedKey := key.MaskedKey
      Name := key.Name
      Status := key.Status
      Enabled := key.Enabled
      Tags := key.Tags
      Stats := key.Stats
      CooldownUntil := key.CooldownUntil
      CreatedAt := key.CreatedAt
      UpdatedAt := key.UpdatedAt }

/-- The statements of `Pool.AddKey` that complete the key before it is stored: a missing ID
is the fresh UUID `uuid`, a missing masked key is computed, a zero creation time is the clock
reading, and the update time is the clock reading. -/
def completeKey (now : Time) (uuid : String) (key : Key) : Key :=
  let key := if key.ID = "" then { key with ID := uuid } else key
  let key := if key.MaskedKey = "" then { key with MaskedKey := MaskAPIKey key.APIKey } else key
  let key := if key.CreatedAt = 0 then { key with CreatedAt := now } else key
  { key with UpdatedAt := now }

/-- `Pool.AddKey`, with the clock reading `now` and the value `uuid` of
`uuid.New().String()`: the returned error (`.ok ()` for nil) and the pool after the call. The
argument `key` is the pointer, `none` for nil. -/
def Pool.AddKey (p : Pool) (now : Time) (uuid : String) (key : Option Key) :
    Except GoError Unit × Pool :=
  match key with
  | none => (.error (.plain "key cannot be nil"), p)
  | some key =>
    if p.keys.any (fun k => k.APIKey == key.APIKey) then
      (.error (.plain "key already exists"), p)
    else
      let key := completeKey now uuid key
      match p.storage with
      | none => (.ok (), { p with keys := p.keys ++ [key] })
      | some st =>
        if (st.CreateKey key).2 then
          (.error st.failure, { p with storage := some (st.CreateKey key).1 })
        else
          (.ok (), { p with keys := p.keys ++ [key], storage := some (st.CreateKey key).1 })

/-! ## Predicates of the specification -/

/-- A credential the pool counts as enabled: the `Enabled` flag is set and the status is not
Disabled (the test `!key.Enabled || key.Status == KeyStatusDisabled` of the source). -/
def Key.countsAsEnabled (k : Key) : Prop :=
  k.Enabled = true ∧ k.Status ≠ KeyStatusDisabled

/-- A live cooldown at `now`: status RateLimited with a deadline strictly later than `now`. -/
def Key.liveCooldown (k : Key) (now : Time) : Prop :=
  k.Status = KeyStatusRateLimited ∧ ∃ deadline, k.CooldownUntil = some deadline ∧ now < deadline

/-- An available credential, in the words of the specification: enabled, status not
Disabled, and not RateLimited with a deadline still in the future. -/
def Key.availableAt (k : Key) (now : Time) : Prop :=
  k.Enabled = true ∧ k.Status ≠ KeyStatusDisabled ∧ ¬ k.liveCooldown now

/-- The integer `n` is a value of `int64`. -/
def inInt64 (n : Int) : Prop :=
  -9223372036854775808 ≤ n ∧ n ≤ 9223372036854775807

/-- The text `s` contains `substr` when letters are compared without regard to ASCII case:
some window of `s` equals `substr` after both are lower-cased (`Char.toLower` changes the
ASCII capitals only). -/
def containsFold (s substr : String) : Prop :=
  ∃ pre w post, s.toList = pre ++ w ++ post ∧
    w.map Char.toLower = substr.toList.map Char.toLower

/-! ## internal/types/openai.go and internal/types/gemini.go -/

/-- The struct `Message`; `Content` is the raw JSON text. -/
structure Message where
  Role : String := ""
  Content : String := ""
  deriving DecidableEq, Repr

/-- The struct `ChatCompletionRequest`; an absent optional field is `none`. -/
structure ChatCompletionRequest where
  Model : String := ""
  Messages : List Message := []
  Temperature : Option ℚ := none
  TopP : Option ℚ := none
  MaxTokens : Option Int := none
  Stream : Bool := false
  Stop : List String := []
  PresencePenalty : Option ℚ := none
  FrequencyPenalty : Option ℚ := none
  N : Option Int := none
  User : String := ""
  deriving DecidableEq, Repr

/-- The type `StopSequence`, a slice of strings. -/
abbrev StopSequence := List String

/-- What `encoding/json` does with strings and string slices: the value `json.Unmarshal`
stores in a `string` and in a `[]string` that start at their zero values, or its error, and
what `json.Marshal` returns for a `string` and for a `[]string`. -/
structure JSONCodec where
  unmarshalString : String → Except GoError String
  unmarshalStrings : String → Except GoError (List String)
  marshalString : String → Except GoError String
  marshalStrings : List String → Except GoError String

/-- `StopSequence.UnmarshalJSON`: the value stored in the receiver, or the error. -/
def StopSequence.UnmarshalJSON (codec : JSONCodec) (data : String) :
    Except GoError StopSequence :=
  match codec.unmarshalString data with
  | .ok single => .ok [single]
  | .error _ =>
    match codec.unmarshalStrings data with
    | .error err => .error err
    | .ok arr => .ok arr

/-- `StopSequence.MarshalJSON`; `len(s) == 1` is the case of a one-element list. -/
def StopSequence.MarshalJSON (codec : JSONCodec) (s : StopSequence) : Except GoError String :=
  match s with
  | [single] => codec.marshalString single
  | _ => codec.marshalStrings s

/-- The struct `ImageURL`. -/
structure ImageURL where
  URL : String := ""
  Detail : String := ""
  deriving DecidableEq, Repr

/-- The struct `ContentPart` (`PartType` is the field `Type`, a reserved word here). -/
structure ContentPart where
  PartType : String := ""
  Text : String := ""
  ImageURL : Option ImageURL := none
  deriving DecidableEq, Repr

/-- What `encoding/json` makes of a raw message content: the result of
`json.Unmarshal(content, &s)` for a string `s` and of `json.Unmarshal(content, &parts)` for a
`[]ContentPart`, each `none` when the call returns an error. -/
structure ContentDecoder where
  asString : String → Option String
  asParts : String → Option (List ContentPart)

/-- `Message.GetContentAsString`. -/
def Message.GetContentAsString (dec : ContentDecoder) (m : Message) : String × Bool :=
  match dec.asString m.Content with
  | some s => (s, true)
  | none => ("", false)

/-- `Message.GetContentAsParts`. -/
def Message.GetContentAsParts (dec : ContentDecoder) (m : Message) : List ContentPart × Bool :=
  match dec.asParts m.Content with
  | some parts => (parts, true)
  | none => ([], false)

/-- The struct `Delta`. -/
structure Delta where
  Role : String := ""
  Content : String := ""
  deriving DecidableEq, Repr

/-- The struct `ChunkChoice`. -/
structure ChunkChoice where
  Index : Int := 0
  Delta : Delta := {}
  FinishReason : String := ""
  deriving DecidableEq, Repr

/-- The struct `ChatCompletionChunk`. -/
structure ChatCompletionChunk where
  ID : String := ""
  Object : String := ""
  Created : Int := 0
  Model : String := ""
  Choices : List ChunkChoice := []
  deriving DecidableEq, Repr

/-- The struct `ResponseMessage`. -/
structure ResponseMessage where
  Role : String := ""
  Content : String := ""
  deriving DecidableEq, Repr

/-- The struct `Choice`. -/
structure Choice where
  Index : Int := 0
  Message : ResponseMessage := {}
  FinishReason : String := ""
  deriving DecidableEq, Repr

/-- The struct `Usage`. -/
structure Usage where
  PromptTokens : Int := 0
  CompletionTokens : Int := 0
  TotalTokens : Int := 0
  deriving DecidableEq, Repr

/-- The struct `ChatCompletionResponse`. -/
structure ChatCompletionResponse where
  ID : String := ""
  Object : String := ""
  Created : Int := 0
  Model : String := ""
  Choices : List Choice := []
  Usage : Usage := {}
  deriving DecidableEq, Repr

/-- The struct `GeminiInlineData`. -/
structure GeminiInlineData where
  MimeType : String := ""
  Data : String := ""
  deriving DecidableEq, Repr

/-- The struct `GeminiFileData`. -/
structure GeminiFileData where
  MimeType : String := ""
  FileURI : String := ""
  deriving DecidableEq, Repr

/-- The struct `GeminiPart`. -/
structure GeminiPart where
  Text : String := ""
  InlineData : Option GeminiInlineData := none
  FileData : Option GeminiFileData := none
  deriving DecidableEq, Repr

/-- The struct `GeminiContent`. -/
structure GeminiContent where
  Parts : List GeminiPart := []
  Role : String := ""
  deriving DecidableEq, Repr

/-- Modelled from the spec: the struct `ThinkingConfig`, which `ApplyModelSettings` builds but
`internal/types/gemini.go` does not declare; it carries the thinking level of the overlay. -/
structure ThinkingConfig where
  ThinkingLevel : Option String := none
  deriving DecidableEq, Repr

/-- The struct `GeminiGenerationConfig`. The fields `ThinkingConfig` and `MediaResolution`
are the two provider-specific fields `ApplyModelSettings` writes (`thinkingConfig?` and
`mediaResolution?` of the upstream request body). -/
structure GeminiGenerationConfig where
  Temperature : Option ℚ := none
  TopP : Option ℚ := none
  TopK : Option Int := none
  MaxOutputTokens : Option Int := none
  StopSequences : List String := []
  CandidateCount : Option Int := none
  ThinkingConfig : Option ThinkingConfig := none
  MediaResolution : Option String := none
  deriving DecidableEq, Repr

/-- The struct `GeminiSafetySetting`. -/
structure GeminiSafetySetting where
  Category : String := ""
  Threshold : String := ""
  deriving DecidableEq, Repr

/-- The struct `GeminiRequest`. -/
structure GeminiRequest where
  Contents : List GeminiContent := []
  SystemInstruction : Option GeminiContent := none
  GenerationConfig : Option GeminiGenerationConfig := none
  SafetySettings : List GeminiSafetySetting := []
  deriving DecidableEq, Repr

/-- The struct `GeminiSafetyRating`. -/
structure GeminiSafetyRating where
  Category : String := ""
  Probability : String := ""
  Blocked : Bool := false
  deriving DecidableEq, Repr

/-- The struct `GeminiCandidate`. -/
structure GeminiCandidate where
  Content : Option GeminiContent := none
  FinishReason : String := ""
  SafetyRatings : List GeminiSafetyRating := []
  Index : Int := 0
  deriving DecidableEq, Repr

/-- The struct `GeminiUsageMetadata`. -/
structure GeminiUsageMetadata where
  PromptTokenCount : Int := 0
  CandidatesTokenCount : Int := 0
  TotalTokenCount : Int := 0
  deriving DecidableEq, Repr

/-- The struct `GeminiPromptFeedback`. -/
structure GeminiPromptFeedback where
  BlockReason : String := ""
  SafetyRatings : List GeminiSafetyRating := []
  deriving DecidableEq, Repr

/-- The struct `GeminiResponse`. -/
structure GeminiResponse where
  Candidates : List GeminiCandidate := []
  UsageMetadata : Option GeminiUsageMetadata := none
  PromptFeedback : Option GeminiPromptFeedback := none
  deriving DecidableEq, Repr

/-- The struct `GeminiErrorDetail`. -/
structure GeminiErrorDetail where
  Code : Int := 0
  Message : String := ""
  Status : String := ""
  deriving DecidableEq, Repr

/-- The struct `GeminiErrorResponse`. -/
structure GeminiErrorResponse where
  Error : GeminiErrorDetail := {}
  deriving DecidableEq, Repr

/-- The struct `ModelSettingsConfig` (`internal/types/config.go`). -/
structure ModelSettingsConfig where
  SystemPrompt : String := ""
  Temperature : Option ℚ := none
  MaxOutputTokens : Option Int := none
  TopP : Option ℚ := none
  TopK : Option Int := none
  ThinkingLevel : Option String := none
  MediaResolution : Option String := none
  StreamOutput : Option Bool := none
  deriving DecidableEq, Repr

def GeminiFinishReasonStop : String := "STOP"
def GeminiFinishReasonMaxTokens : String := "MAX_TOKENS"
def GeminiFinishReasonSafety : String := "SAFETY"
def GeminiFinishReasonRecitation : String := "RECITATION"

/-- The loop of `GeminiCandidate.GetTextContent` over the parts. -/
def firstText (parts : List GeminiPart) : String :=
  match parts with
  | [] => ""
  | part :: rest => if part.Text ≠ "" then part.Text else firstText rest

/-- `GeminiCandidate.GetTextContent`. -/
def GeminiCandidate.GetTextContent (c : GeminiCandidate) : String :=
  match c.Content with
  | none => ""
  | some content => firstText content.Parts

/-- `GeminiUsageMetadata.ToOpenAIUsage`. -/
def GeminiUsageMetadata.ToOpenAIUsage (u : GeminiUsageMetadata) : Usage :=
  { PromptTokens := u.PromptTokenCount
    CompletionTokens := u.CandidatesTokenCount
    TotalTokens := u.TotalTokenCount }

/-! ## internal/gemini/converter.go (response side) -/

/-- `MapFinishReason`. -/
def MapFinishReason (geminiReason : String) : String :=
  if geminiReason = GeminiFinishReasonStop then "stop"
  else if geminiReason = GeminiFinishReasonMaxTokens then "length"
  else if geminiReason = GeminiFinishReasonSafety ∨ geminiReason = GeminiFinishReasonRecitation then
    "content_filter"
  else "stop"

/-- `convertCandidate`. -/
def convertCandidate (candidate : GeminiCandidate) : Choice :=
  let content := match candidate.Content with
    | none => ""
    | some _ => candidate.GetTextContent
  { Index := candidate.Index
    Message := { Role := "assistant", Content := content }
    FinishReason := MapFinishReason candidate.FinishReason }

/-- `ConvertGeminiResponse`; `id` is the value of `GenerateResponseID()` and `created` that
of `GetCreatedTimestamp()`. -/
def ConvertGeminiResponse (id : String) (created : Int) (resp : GeminiResponse)
    (model : String) : Except GoError ChatCompletionResponse :=
  if resp.Candidates.length = 0 then
    .error (.app (NewUpstreamError "No candidates in Gemini response") .nil)
  else
    let choices := resp.Candidates.map convertCandidate
    let usage := match resp.UsageMetadata with
      | none => ({} : Usage)
      | some u => u.ToOpenAIUsage
    .ok { ID := id
          Object := "chat.completion"
          Created := created
          Model := model
          Choices := choices
          Usage := usage }

/-! ## Go's `strings` package -/

/-- `strings.HasPrefix`. -/
def stringsHasPrefix (s pre : String) : Bool :=
  pre.toList.isPrefixOf s.toList

/-- `strings.HasSuffix`. -/
def stringsHasSuffix (s suffix : String) : Bool :=
  suffix.toList.isSuffixOf s.toList

/-- `strings.TrimPrefix`. -/
def stringsTrimPrefix (s pre : String) : String :=
  if stringsHasPrefix s pre then String.mk (s.toList.drop pre.length) else s

/-- `strings.TrimSuffix`. -/
def stringsTrimSuffix (s suffix : String) : String :=
  if stringsHasSuffix s suffix then String.mk (s.toList.take (s.length - suffix.length)) else s

/-- The search of `strings.Index` from position `i` on: the position of the first
occurrence of `substr`, or -1. -/
def indexFrom (s substr : List Char) (i : Nat) : Int :=
  if substr.isPrefixOf s then i
  else
    match s with
    | [] => -1
    | _ :: rest => indexFrom rest substr (i + 1)

/-- `strings.Index`. -/
def stringsIndex (s substr : String) : Int :=
  indexFrom s.toList substr.toList 0

/-- `unicode.ToLower` as far as ASCII can tell: the ASCII capitals and the two other runes
whose lower case is an ASCII letter (U+0130 and U+212A) are mapped; every other rune is
mapped by Go to a rune outside ASCII and is left as it is here. -/
def toLowerRune (c : Char) : Char :=
  if 'A'.toNat ≤ c.toNat ∧ c.toNat ≤ 'Z'.toNat then Char.ofNat (c.toNat + 32)
  else if c.toNat = 0x130 then 'i'
  else if c.toNat = 0x212A then 'k'
  else c

/-- `strings.ToLower`. -/
def stringsToLower (s : String) : String :=
  String.mk (s.toList.map toLowerRune)

/-! ## internal/gemini/converter.go (request side) -/

/-- `parseBase64DataURI`. -/
def parseBase64DataURI (dataURI : String) : Except GoError GeminiPart :=
  let rest := stringsTrimPrefix dataURI "data:"
  let commaIdx := stringsIndex rest ","
  if commaIdx = -1 then
    .error (.app (NewInvalidMessagesError "Invalid data URI format") .nil)
  else
    let mediaInfo := String.mk (rest.toList.take commaIdx.toNat)
    let data := String.mk (rest.toList.drop (commaIdx.toNat + 1))
    let mimeType := stringsTrimSuffix mediaInfo ";base64"
    let mimeType := if mimeType = "" then "application/octet-stream" else mimeType
    .ok { InlineData := some { MimeType := mimeType, Data := data } }

/-- `inferMimeTypeFromURL`. -/
def inferMimeTypeFromURL (url : String) : String :=
  let lower := stringsToLower url
  if stringsHasSuffix lower ".jpg" || stringsHasSuffix lower ".jpeg" then "image/jpeg"
  else if stringsHasSuffix lower ".png" then "image/png"
  else if stringsHasSuffix lower ".gif" then "image/gif"
  else if stringsHasSuffix lower ".webp" then "image/webp"
  else "image/jpeg"

/-- `convertImageURL`. -/
def convertImageURL (img : ImageURL) : Except GoError GeminiPart :=
  let url := img.URL
  if stringsHasPrefix url "data:" then
    parseBase64DataURI url
  else
    let mimeType := inferMimeTypeFromURL url
    .ok { FileData := some { MimeType := mimeType, FileURI := url } }

/-- `convertContentPart`. -/
def convertContentPart (cp : ContentPart) : Except GoError GeminiPart :=
  if cp.PartType = "text" then
    .ok { Text := cp.Text }
  else if cp.PartType = "image_url" then
    match cp.ImageURL with
    | none => .error (.app (NewInvalidMessagesError "image_url type requires image_url field") .nil)
    | some img => convertImageURL img
  else
    .error (.app (NewInvalidMessagesError ("Unsupported content type: " ++ cp.PartType)) .nil)

/-- The loop of `convertMessageToParts` over the content parts: it stops at the first part
that fails. -/
def convertContentParts (contentParts : List ContentPart) : Except GoError (List GeminiPart) :=
  match contentParts with
  | [] => .ok []
  | cp :: rest =>
    match convertContentPart cp with
    | .error err => .error err
    | .ok part =>
      match convertContentParts rest with
      | .error err => .error err
      | .ok parts => .ok (part :: parts)

/-- `convertMessageToParts`. -/
def convertMessageToParts (dec : ContentDecoder) (msg : Message) :
    Except GoError (List GeminiPart) :=
  if (msg.GetContentAsString dec).2 then
    .ok [{ Text := (msg.GetContentAsString dec).1 }]
  else if !(msg.GetContentAsParts dec).2 then
    .error (.app (NewInvalidMessagesError "Failed to parse message content") .nil)
  else
    convertContentParts (msg.GetContentAsParts dec).1

/-- The loop of `ConvertMessages`, with the contents and the system instruction gathered so
far. -/
def convertMessagesLoop (dec : ContentDecoder) (messages : List Message)
    (contents : List GeminiContent) (systemInstruction : Option GeminiContent) :
    Except GoError (List GeminiContent × Option GeminiContent) :=
  match messages with
  | [] => .ok (contents, systemInstruction)
  | msg :: rest =>
    match convertMessageToParts dec msg with
    | .error err => .error err
    | .ok parts =>
      if msg.Role = "system" then
        convertMessagesLoop dec rest contents (some { Parts := parts })
      else
        let role := if msg.Role = "assistant" then "model" else msg.Role
        convertMessagesLoop dec rest (contents ++ [{ Parts := parts, Role := role }])
          systemInstruction

/-- `ConvertMessages`: the contents and the system instruction, or the error. -/
def ConvertMessages (dec : ContentDecoder) (messages : List Message) :
    Except GoError (List GeminiContent × Option GeminiContent) :=
  if messages.length = 0 then
    .error ErrEmptyMessages
  else
    convertMessagesLoop dec messages [] none

/-- `convertGenerationConfig`. -/
def convertGenerationConfig (req : ChatCompletionRequest) : Option GeminiGenerationConfig :=
  let cfg : GeminiGenerationConfig := {}
  let hasConfig := false
  let (cfg, hasConfig) := match req.Temperature with
    | some t => ({ cfg with Temperature := some t }, true)
    | none => (cfg, hasConfig)
  let (cfg, hasConfig) := match req.TopP with
    | some t => ({ cfg with TopP := some t }, true)
    | none => (cfg, hasConfig)
  let (cfg, hasConfig) := match req.MaxTokens with
    | some t => ({ cfg with MaxOutputTokens := some t }, true)
    | none => (cfg, hasConfig)
  let (cfg, hasConfig) :=
    if req.Stop.length > 0 then ({ cfg with StopSequences := req.Stop }, true)
    else (cfg, hasConfig)
  let (cfg, hasConfig) := match req.N with
    | some n => ({ cfg with CandidateCount := some n }, true)
    | none => (cfg, hasConfig)
  if !hasConfig then none else some cfg

/-- `ConvertOpenAIRequest`. -/
def ConvertOpenAIRequest (dec : ContentDecoder) (req : ChatCompletionRequest) :
    Except GoError GeminiRequest :=
  if req.Messages.length = 0 then
    .error ErrEmptyMessages
  else
    match ConvertMessages dec req.Messages with
    | .error err => .error err
    | .ok (contents, systemInstruction) =>
      .ok { Contents := contents
            SystemInstruction := systemInstruction
            GenerationConfig := convertGenerationConfig req }

/-- The statement of `ApplyModelSettings` that applies the system prompt. -/
def applySystemPrompt (settings : ModelSettingsConfig) (req : GeminiRequest) : GeminiRequest :=
  if req.SystemInstruction = none ∧ settings.SystemPrompt ≠ "" then
    { req with SystemInstruction := some { Parts := [{ Text := settings.SystemPrompt }] } }
  else req

/-- The statement of `ApplyModelSettings` that applies the temperature. -/
def applyTemperature (settings : ModelSettingsConfig) (cfg : GeminiGenerationConfig) :
    GeminiGenerationConfig :=
  if cfg.Temperature = none ∧ settings.Temperature ≠ none then
    { cfg with Temperature := settings.Temperature }
  else cfg

/-- The statement of `ApplyModelSettings` that applies topP. -/
def applyTopP (settings : ModelSettingsConfig) (cfg : GeminiGenerationConfig) :
    GeminiGenerationConfig :=
  if cfg.TopP = none ∧ settings.TopP ≠ none then { cfg with TopP := settings.TopP } else cfg

/-- The statement of `ApplyModelSettings` that applies topK. -/
def applyTopK (settings : ModelSettingsConfig) (cfg : GeminiGenerationConfig) :
    GeminiGenerationConfig :=
  if cfg.TopK = none ∧ settings.TopK ≠ none then { cfg with TopK := settings.TopK } else cfg

/-- The statement of `ApplyModelSettings` that applies maxOutputTokens. -/
def applyMaxOutputTokens (settings : ModelSettingsConfig) (cfg : GeminiGenerationConfig) :
    GeminiGenerationConfig :=
  if cfg.MaxOutputTokens = none ∧ settings.MaxOutputTokens ≠ none then
    { cfg with MaxOutputTokens := settings.MaxOutputTokens }
  else cfg

/-- The statement of `ApplyModelSettings` that applies the thinking level. -/
def applyThinkingLevel (settings : ModelSettingsConfig) (cfg : GeminiGenerationConfig) :
    GeminiGenerationConfig :=
  match settings.ThinkingLevel with
  | some level =>
    if level ≠ "" then { cfg with ThinkingConfig := some { ThinkingLevel := some level } }
    else cfg
  | none => cfg

/-- The statement of `ApplyModelSettings` that applies the media resolution. -/
def applyMediaResolution (settings : ModelSettingsConfig) (cfg : GeminiGenerationConfig) :
    GeminiGenerationConfig :=
  match settings.MediaResolution with
  | some resolution =>
    if resolution ≠ "" then { cfg with MediaResolution := some resolution } else cfg
  | none => cfg

/-- `ApplyModelSettings`: the request after the call; `settings` is `none` for a nil
pointer. The statements run in the order of the source: system prompt, initialisation of the
generation config, temperature, topP, topK, maxOutputTokens, thinking level, media
resolution. -/
def ApplyModelSettings (req : GeminiRequest) (settings : Option ModelSettingsConfig) :
    GeminiRequest :=
  match settings with
  | none => req
  | some settings =>
    let req := applySystemPrompt settings req
    let cfg : GeminiGenerationConfig := match req.GenerationConfig with
      | none => {}
      | some cfg => cfg
    let cfg := applyTemperature settings cfg
    let cfg := applyTopP settings cfg
    let cfg := applyTopK settings cfg
    let cfg := applyMaxOutputTokens settings cfg
    let cfg := applyThinkingLevel settings cfg
    let cfg := applyMediaResolution settings cfg
    { req with GenerationConfig := some cfg }

/-- The choice `ConvertGeminiStreamChunk` builds for one candidate. -/
def convertStreamCandidate (candidate : GeminiCandidate) : ChunkChoice :=
  let content := match candidate.Content with
    | none => ""
    | some _ => candidate.GetTextContent
  let finishReason :=
    if candidate.FinishReason ≠ "" then MapFinishReason candidate.FinishReason else ""
  { Index := candidate.Index
    Delta := { Content := content }
    FinishReason := finishReason }

/-- `ConvertGeminiStreamChunk`; `id` is the value of `GenerateResponseID()` and `created`
that of `GetCreatedTimestamp()`. -/
def ConvertGeminiStreamChunk (id : String) (created : Int) (chunk : GeminiResponse)
    (model : String) (index : Int) : Except GoError ChatCompletionChunk :=
  if chunk.Candidates.length = 0 then
    .ok { ID := id
          Object := "chat.completion.chunk"
          Created := created
          Model := model
          Choices := [{ Index := index, Delta := {} }] }
  else
    .ok { ID := id
          Object := "chat.completion.chunk"
          Created := created
          Model := model
          Choices := chunk.Candidates.map convertStreamCandidate }

/-! ## internal/api/openai_handler.go -/

/-- The loop of `validateChatRequest` over the messages, from index `i` on. -/
def validateMessagesLoop (i : Nat) (messages : List Message) : GoError :=
  match messages with
  | [] => .nil
  | msg :: rest =>
    if msg.Role = "" then
      .app (NewInvalidMessagesError ("Message at index " ++ toString i ++ " is missing role"))
        .nil
    else if msg.Role ≠ "system" ∧ msg.Role ≠ "user" ∧ msg.Role ≠ "assistant" then
      .app (NewInvalidMessagesError ("Invalid role: " ++ msg.Role)) .nil
    else
      validateMessagesLoop (i + 1) rest

/-- `OpenAIHandler.validateChatRequest`: the returned `*types.AppError`, `.nil` for nil. -/
def OpenAIHandler.validateChatRequest (req : ChatCompletionRequest) : GoError :=
  if req.Model = "" then
    ErrMissingModel
  else if req.Messages.length = 0 then
    .app (NewInvalidMessagesError "Messages array cannot be empty") .nil
  else
    validateMessagesLoop 0 req.Messages

/-! ## internal/gemini/client.go -/

/-- A call the client makes on its `KeyPoolInterface`. -/
inductive PoolEvent where
  | GetKey
  | ReleaseKey (key : Key)
  | ReportSuccess (key : Key) (promptTokens completionTokens : Int) (model : String)
  | ReportFailure (key : Key) (err : GoError) (model : String)
  deriving DecidableEq, Repr

/-- How the line reads of a response body end: `io.EOF`, or another read error. -/
inductive ReadEnd where
  | EOF
  | failed (err : GoError)
  deriving DecidableEq, Repr

/-- An `*http.Response` as the client reads it: the status code, what `io.ReadAll` returns
for the body (bytes and error), and what `json.Unmarshal` makes of the body as an error
envelope (`none` when it fails) and as a `GeminiResponse`. For the streaming producer, which
reads the body line by line: the lines `ReadBytes` returns with a nil error, in order, how
the reads end, and what `json.Unmarshal` makes of a line's payload as a `GeminiResponse`. -/
structure HTTPResponse where
  StatusCode : Int := 200
  body : String := ""
  readErr : GoError := .nil
  errorEnvelope : Option GeminiErrorResponse := none
  geminiResponse : Except GoError GeminiResponse := .ok {}
  lines : List String := []
  readEnd : ReadEnd := .EOF
  decodeChunk : String → Except GoError GeminiResponse := fun _ => .ok {}

/-- What the collaborators of one dispatch answer: the pool's `GetKey`, the request
conversion `ConvertOpenAIRequest(req)`, `json.Marshal`, `http.NewRequestWithContext`, the
HTTP client's `Do`, and the identifier and timestamp generated for the response. -/
structure Upstream where
  getKey : Except GoError Key
  convertRequest : Except GoError GeminiRequest := .ok {}
  marshalErr : GoError := .nil
  newRequestErr : GoError := .nil
  response : Except GoError HTTPResponse := .ok {}
  responseID : String := ""
  created : Int := 0

/-- `strings.Contains`. -/
def stringsContains (s substr : String) : Bool :=
  decide (substr.toList <:+: s.toList)

/-- `AppError.WithCause` applied to a fresh typed error. -/
def withCause (e : AppErrorData) (cause : GoError) : GoError := .app e cause

/-- `Client.wrapHTTPError`. -/
def Client.wrapHTTPError (err : GoError) : GoError :=
  let errStr := err.Error
  if stringsContains errStr "context canceled" || stringsContains errStr "context deadline exceeded" then
    withCause (NewInternalError "Request cancelled or timed out") err
  else if stringsContains errStr "connection refused" || stringsContains errStr "no such host" then
    withCause (NewServiceUnavailableError "Failed to connect to Gemini API") err
  else
    withCause (NewUpstreamError "HTTP request failed") err

/-- `Client.mapGeminiError`. -/
def Client.mapGeminiError (statusCode : Int) (geminiErr : GeminiErrorResponse) : AppErrorData :=
  if statusCode = 429 then (NewRateLimitError 60).WithMessage geminiErr.Error.Message
  else if statusCode = 401 then NewAuthenticationError geminiErr.Error.Message
  else if statusCode = 403 then NewPermissionError geminiErr.Error.Message
  else if statusCode = 400 then NewInvalidRequestError geminiErr.Error.Message
  else if statusCode = 404 then NewNotFoundError geminiErr.Error.Message
  else NewUpstreamError geminiErr.Error.Message

/-- `Client.mapStatusCodeToError`. -/
def Client.mapStatusCodeToError (statusCode : Int) (body : String) : AppErrorData :=
  if statusCode = 429 then NewRateLimitError 60
  else if statusCode = 401 then NewAuthenticationError ""
  else if statusCode = 403 then NewPermissionError ""
  else if statusCode = 400 then NewInvalidRequestError body
  else if statusCode = 404 then NewNotFoundError "model"
  else if statusCode = 503 then NewServiceUnavailableError ""
  else NewUpstreamError ("Upstream API returned status " ++ toString statusCode)

/-- `Client.parseErrorResponse`. -/
def Client.parseErrorResponse (resp : HTTPResponse) : AppErrorData :=
  match resp.errorEnvelope with
  | some geminiErr =>
    if geminiErr.Error.Code ≠ 0 then Client.mapGeminiError resp.StatusCode geminiErr
    else Client.mapStatusCodeToError resp.StatusCode resp.body
  | none => Client.mapStatusCodeToError resp.StatusCode resp.body

/-- `Client.doRequest`. -/
def Client.doRequest (u : Upstream) : Except GoError GeminiResponse :=
  if u.marshalErr ≠ .nil then
    .error (withCause (NewInternalError "Failed to marshal request") u.marshalErr)
  else if u.newRequestErr ≠ .nil then
    .error (withCause (NewInternalError "Failed to create request") u.newRequestErr)
  else
    match u.response with
    | .error err => .error (Client.wrapHTTPError err)
    | .ok resp =>
      if resp.StatusCode ≠ 200 then
        .error (.app (Client.parseErrorResponse resp) .nil)
      else if resp.readErr ≠ .nil then
        .error (withCause (NewUpstreamError "Failed to read response") resp.readErr)
      else
        match resp.geminiResponse with
        | .error err => .error (withCause (NewUpstreamError "Failed to parse response") err)
        | .ok geminiResp => .ok geminiResp

/-- The body of `Client.ChatCompletion` after the key is acquired and its release deferred:
the returned pair and the calls made on the pool. -/
def Client.chatCompletionBody (u : Upstream) (req : ChatCompletionRequest) (key : Key) :
    Except GoError ChatCompletionResponse × List PoolEvent :=
  match u.convertRequest with
  | .error err => (.error err, [])
  | .ok _ =>
    match Client.doRequest u with
    | .error err => (.error err, [.ReportFailure key err req.Model])
    | .ok geminiResp =>
      match ConvertGeminiResponse u.responseID u.created geminiResp req.Model with
      | .error err => (.error err, [.ReportFailure key err req.Model])
      | .ok openAIResp =>
        let promptTokens := match geminiResp.UsageMetadata with
          | some m => m.PromptTokenCount
          | none => 0
        let completionTokens := match geminiResp.UsageMetadata with
          | some m => m.CandidatesTokenCount
          | none => 0
        (.ok openAIResp, [.ReportSuccess key promptTokens completionTokens req.Model])

/-- `Client.ChatCompletion`: the returned pair and the calls made on the pool, in order. The
deferred `ReleaseKey` runs when the function returns. -/
def Client.ChatCompletion (u : Upstream) (req : Option ChatCompletionRequest) :
    Except GoError ChatCompletionResponse × List PoolEvent :=
  match req with
  | none => (.error (.app (NewInvalidRequestError "Request cannot be nil") .nil), [])
  | some req =>
    match u.getKey with
    | .error err => (.error err, [.GetKey])
    | .ok key =>
      let r := Client.chatCompletionBody u req key
      (r.1, [.GetKey] ++ r.2 ++ [.ReleaseKey key])

/-- The goroutine `streamResponse(ctx, resp, key, req.Model, eventChan)` started by a
successful `ChatCompletionStream`. -/
structure StreamStart where
  resp : HTTPResponse
  key : Key
  originalModel : String

/-- `Client.ChatCompletionStream` up to the start of the producer: the returned pair and the
calls made on the pool, in order. -/
def Client.ChatCompletionStream (u : Upstream) (req : Option ChatCompletionRequest) :
    Except GoError StreamStart × List PoolEvent :=
  match req with
  | none => (.error (.app (NewInvalidRequestError "Request cannot be nil") .nil), [])
  | some req =>
    match u.getKey with
    | .error err => (.error err, [.GetKey])
    | .ok key =>
      match u.convertRequest with
      | .error err => (.error err, [.GetKey, .ReleaseKey key])
      | .ok _ =>
        if u.marshalErr ≠ .nil then
          (.error (withCause (NewInternalError "Failed to marshal request") u.marshalErr),
            [.GetKey, .ReleaseKey key])
        else if u.newRequestErr ≠ .nil then
          (.error (withCause (NewInternalError "Failed to create request") u.newRequestErr),
            [.GetKey, .ReleaseKey key])
        else
          match u.response with
          | .error err =>
            (.error (Client.wrapHTTPError err),
              [.GetKey, .ReportFailure key err req.Model, .ReleaseKey key])
          | .ok resp =>
            if resp.StatusCode ≠ 200 then
              let appErr : GoError := .app (Client.parseErrorResponse resp) .nil
              (.error appErr, [.GetKey, .ReportFailure key appErr req.Model, .ReleaseKey key])
            else
              (.ok { resp := resp, key := key, originalModel := req.Model }, [.GetKey])

/-! ## internal/gemini/client.go (streaming producer) -/

/-- The struct `StreamEvent`. -/
structure StreamEvent where
  Chunk : Option ChatCompletionChunk := none
  Err : GoError := .nil
  Done : Bool := false
  deriving DecidableEq, Repr

/-- What the producer does that others observe: an event delivered on the channel, a call on
the pool, closing the channel, closing the response body. -/
inductive ProducerStep where
  | Send (event : StreamEvent)
  | Pool (call : PoolEvent)
  | CloseChannel
  | CloseBody
  deriving DecidableEq, Repr

/-- What surrounds one producer: whether the `i`-th `select` it executes finds the context
done (and takes that branch), the context's error, and the identifier and timestamp
generated for the `i`-th chunk. The consumer receives every event offered to it. -/
structure StreamEnv where
  ctxDone : Nat → Bool := fun _ => false
  ctxErr : GoError := .plain "context canceled"
  responseID : Nat → String := fun _ => ""
  created : Nat → Int := fun _ => 0

/-- `unicode.IsSpace`. -/
def isSpaceRune (c : Char) : Bool :=
  c.toNat = 0x09 || c.toNat = 0x0A || c.toNat = 0x0B || c.toNat = 0x0C || c.toNat = 0x0D ||
    c.toNat = 0x20 || c.toNat = 0x85 || c.toNat = 0xA0 || c.toNat = 0x1680 ||
    (0x2000 ≤ c.toNat && c.toNat ≤ 0x200A) || c.toNat = 0x2028 || c.toNat = 0x2029 ||
    c.toNat = 0x202F || c.toNat = 0x205F || c.toNat = 0x3000

/-- `bytes.TrimSpace`. -/
def bytesTrimSpace (line : String) : String :=
  String.mk ((line.toList.dropWhile isSpaceRune).reverse.dropWhile isSpaceRune).reverse

/-- The test `len(geminiResp.Candidates) > 0 && geminiResp.Candidates[0].FinishReason != ""`
by which the producer recognises the final chunk. -/
def isFinalChunk (geminiResp : GeminiResponse) : Bool :=
  match geminiResp.Candidates with
  | [] => false
  | candidate :: _ => candidate.FinishReason != ""

/-- The loop of `Client.streamResponse` over the remaining lines of the body; `sel` counts
the `select` statements executed so far. -/
def streamLoop (env : StreamEnv) (resp : HTTPResponse) (key : Key) (originalModel : String)
    (lines : List String) (sel : Nat) (chunkIndex : Nat)
    (totalPromptTokens totalCompletionTokens : Int) : List ProducerStep :=
  if env.ctxDone sel then
    [.Send { Err := env.ctxErr }, .Pool (.ReportFailure key env.ctxErr originalModel)]
  else
    match lines with
    | [] =>
      match resp.readEnd with
      | .EOF =>
        [.Pool (.ReportSuccess key totalPromptTokens totalCompletionTokens originalModel)]
      | .failed err =>
        [.Send { Err := withCause (NewUpstreamError "Stream read error") err },
          .Pool (.ReportFailure key err originalModel)]
    | line :: rest =>
      let line := bytesTrimSpace line
      if line.length = 0 then
        streamLoop env resp key originalModel rest (sel + 1) chunkIndex
          totalPromptTokens totalCompletionTokens
      else if !stringsHasPrefix line "data: " then
        streamLoop env resp key originalModel rest (sel + 1) chunkIndex
          totalPromptTokens totalCompletionTokens
      else
        let jsonData := String.mk (line.toList.drop 6)
        match resp.decodeChunk jsonData with
        | .error err =>
          [.Send { Err := withCause (NewUpstreamError "Failed to parse stream chunk") err },
            .Pool (.ReportFailure key err originalModel)]
        | .ok geminiResp =>
          let totalPromptTokens := match geminiResp.UsageMetadata with
            | some m => m.PromptTokenCount
            | none => totalPromptTokens
          let totalCompletionTokens := match geminiResp.UsageMetadata with
            | some m => m.CandidatesTokenCount
            | none => totalCompletionTokens
          match ConvertGeminiStreamChunk (env.responseID chunkIndex) (env.created chunkIndex)
              geminiResp originalModel chunkIndex with
          | .error err =>
            [.Send { Err := err }, .Pool (.ReportFailure key err originalModel)]
          | .ok openAIChunk =>
            if env.ctxDone (sel + 1) then
              [.Pool (.ReportFailure key env.ctxErr originalModel)]
            else
              .Send { Chunk := some openAIChunk } ::
                (if isFinalChunk geminiResp then
                  (if env.ctxDone (sel + 2) then [] else [.Send { Done := true }]) ++
                    [.Pool (.ReportSuccess key totalPromptTokens totalCompletionTokens
                      originalModel)]
                else
                  streamLoop env resp key originalModel rest (sel + 2) (chunkIndex + 1)
                    totalPromptTokens totalCompletionTokens)

/-- `Client.streamResponse`: what the producer does, in order. The deferred calls run when
the loop returns, last deferred first: `close(eventChan)`, `ReleaseKey`, `resp.Body.Close`. -/
def Client.streamResponse (env : StreamEnv) (resp : HTTPResponse) (key : Key)
    (originalModel : String) : List ProducerStep :=
  streamLoop env resp key originalModel resp.lines 0 0 0 0 ++
    [.CloseChannel, .Pool (.ReleaseKey key), .CloseBody]

/-- The payload of a body line, if it is a data line: the line with surrounding white space
removed starts with `data: `, and the payload is what follows. -/
def dataPayload (line : String) : Option String :=
  let line := bytesTrimSpace line
  if line.length = 0 then none
  else if !stringsHasPrefix line "data: " then none
  else some (String.mk (line.toList.drop 6))

/-- The prompt and completion token counts the producer holds after the given chunks,
starting from the given counts: those of the last chunk that carries usage metadata. -/
def usageAfter (chunks : List GeminiResponse) (prompt completion : Int) : Int × Int :=
  match chunks with
  | [] => (prompt, completion)
  | chunk :: rest =>
    match chunk.UsageMetadata with
    | some m => usageAfter rest m.PromptTokenCount m.CandidatesTokenCount
    | none => usageAfter rest prompt completion

/-- The translations of the given chunks, the first of them being the chunk number `start`
of the stream. -/
def translatedChunks (env : StreamEnv) (model : String) (start : Nat)
    (chunks : List GeminiResponse) : List (Except GoError ChatCompletionChunk) :=
  match chunks with
  | [] => []
  | chunk :: rest =>
    ConvertGeminiStreamChunk (env.responseID start) (env.created start) chunk model start ::
      translatedChunks env model (start + 1) rest

/-! ## Fields of an upstream request -/

/-- The temperature an upstream request sets, if any. -/
def GeminiRequest.temperature (r : GeminiRequest) : Option ℚ :=
  r.GenerationConfig.bind (·.Temperature)

/-- The topP an upstream request sets, if any. -/
def GeminiRequest.topP (r : GeminiRequest) : Option ℚ :=
  r.GenerationConfig.bind (·.TopP)

/-- The topK an upstream request sets, if any. -/
def GeminiRequest.topK (r : GeminiRequest) : Option Int :=
  r.GenerationConfig.bind (·.TopK)

/-- The maxOutputTokens an upstream request sets, if any. -/
def GeminiRequest.maxOutputTokens (r : GeminiRequest) : Option Int :=
  r.GenerationConfig.bind (·.MaxOutputTokens)

/-! ## Sequences of report calls -/

/-- One report call on the pool: the arguments of `ReportSuccess` or of `ReportFailure`,
with the clock reading of the call. -/
inductive ReportCall where
  | success (now : Time) (key : Option Nat) (promptTokens completionTokens : Int)
      (model : String)
  | failure (now : Time) (key : Option Nat) (err : GoError) (model : String)

/-- The pool after one report call. -/
def Pool.report (p : Pool) (call : ReportCall) : Pool :=
  match call with
  | .success now key promptTokens completionTokens model =>
    p.ReportSuccess now key promptTokens completionTokens model
  | .failure now key err model => p.ReportFailure now key err model

/-- The pool after a sequence of report calls, in order. -/
def Pool.reports (p : Pool) (calls : List ReportCall) : Pool :=
  calls.foldl Pool.report p

/-- The pool after consecutive `ReportFailure` calls on the key at position `i`, one per
entry of `calls` (clock reading, error, model name), in order. -/
def Pool.reportFailures (p : Pool) (i : Nat) (calls : List (Time × GoError × String)) : Pool :=
  calls.foldl (fun q c => q.ReportFailure c.1 (some i) c.2.1 c.2.2) p

/-- The statistics equation of a credential: requests = successes + errors, the sum being
the `int64` sum the program computes. -/
def Key.statsBalanced (k : Key) : Prop :=
  k.Stats.RequestCount = wrapInt64 (k.Stats.SuccessCount + k.Stats.ErrorCount)

/-! ## Consecutive round-robin selections -/

/-- Consecutive `RoundRobinStrategy.Select` calls on the same slice, one per clock reading of
`times`: the keys returned, in call order, and the strategy after the last call. -/
def RoundRobinStrategy.selectN (s : RoundRobinStrategy) (keys : List (Option Key))
    (times : List Time) : List (Option Key) × RoundRobinStrategy :=
  match times with
  | [] => ([], s)
  | now :: rest =>
    let r := s.Select now keys
    let rs := RoundRobinStrategy.selectN r.2 keys rest
    (r.1 :: rs.1, rs.2)

/-! ## Concrete inputs -/

/-- A credential in cooldown until the instant 100. -/
def coolingKey : Key :=
  { ID := "k1", APIKey := "AIzaSyKey1", MaskedKey := "**********", Name := "Key 1",
    Status := KeyStatusRateLimited, Enabled := true, CooldownUntil := some 100 }

/-- Three enabled, active credentials. -/
def keyA : Key := { ID := "a", APIKey := "AIzaSyKeyA", Name := "Key A", Status := KeyStatusActive, Enabled := true }

def keyB : Key := { ID := "b", APIKey := "AIzaSyKeyB", Name := "Key B", Status := KeyStatusActive, Enabled := true }

def keyC : Key := { ID := "c", APIKey := "AIzaSyKeyC", Name := "Key C", Status := KeyStatusActive, Enabled := true }

/-- A dispatch whose upstream call is answered with HTTP 429 and an error envelope. -/
def rateLimitedUpstream : Upstream :=
  { getKey := .ok keyA
    response := .ok
      { StatusCode := 429
        body := "rate limited"
        errorEnvelope := some { Error := { Code := 429, Message := "Rate limited", Status := "RESOURCE_EXHAUSTED" } } } }

/-- A chat request for the model `gpt-4`. -/
def helloRequest : ChatCompletionRequest :=
  { Model := "gpt-4", Messages := [{ Role := "user", Content := "\"Hello\"" }] }

/-- A pool holding `keyA`, with failure threshold 3 and cooldown 30 seconds. -/
def singlePool : Pool := { keys := [keyA], maxConsecutiveFailures := 3, cooldownSeconds := 30 }

/-- Three consecutive upstream failures that are not rate-limit signals. -/
def threeFailures : List (Time × GoError × String) :=
  [(10, .plain "some error", ""), (20, .plain "some error", ""), (30, .plain "some error", "")]

/-- A credential that has already served five requests. -/
def usedKey : Key :=
  { ID := "u", APIKey := "AIzaSyKeyU", Name := "Key U", Status := KeyStatusActive, Enabled := true,
    Stats := { RequestCount := 5, SuccessCount := 5 } }

/-- An upstream answer with HTTP 503 and a well-formed error envelope. -/
def overloadedResponse : HTTPResponse :=
  { StatusCode := 503
    body := "overloaded"
    errorEnvelope := some
      { Error := { Code := 503, Message := "The model is overloaded.", Status := "UNAVAILABLE" } } }

/-- An upstream response with one candidate whose reported total exceeds the sum of the
prompt and candidate token counts. -/
def thinkingResponse : GeminiResponse :=
  { Candidates := [{ Content := some { Parts := [{ Text := "Hi!" }], Role := "model" },
                     FinishReason := "STOP", Index := 0 }]
    UsageMetadata := some { PromptTokenCount := 1, CandidatesTokenCount := 1, TotalTokenCount := 5 } }

/-- The translation of `thinkingResponse` for the requested model `gpt-4`. -/
def thinkingTranslation : ChatCompletionResponse :=
  { ID := "chatcmpl-0", Object := "chat.completion", Created := 0, Model := "gpt-4"
    Choices := [{ Index := 0, Message := { Role := "assistant", Content := "Hi!" },
                  FinishReason := "stop" }]
    Usage := { PromptTokens := 1, CompletionTokens := 1, TotalTokens := 5 } }

/-- A content decoder that agrees with `encoding/json` on the contents used below: a text
in double quotes without escapes decodes to that text as a string, and nothing decodes to a
list of parts. -/
def quotedDecoder : ContentDecoder :=
  { asString := fun raw =>
      match raw.toList with
      | [] => none
      | c :: rest =>
        if c = Char.ofNat 34 ∧ rest.getLast? = some (Char.ofNat 34) ∧
            rest.dropLast.all (fun x => x != Char.ofNat 34 && x != Char.ofNat 92 && 32 ≤ x.toNat) then
          some (String.mk rest.dropLast)
        else none
    asParts := fun _ => none }

/-- The parts of a message whose content is a JSON string without escapes: one text part
holding the content between the quotes. -/
def quotedParts (m : Message) : List GeminiPart :=
  [{ Text := String.mk (m.Content.toList.drop 1).dropLast }]

/-- A user message. -/
def userHi : Message := { Role := "user", Content := "\"Hi\"" }

/-- A system message. -/
def systemBrief : Message := { Role := "system", Content := "\"Be brief.\"" }

/-- An assistant message. -/
def assistantHello : Message := { Role := "assistant", Content := "\"Hello\"" }

/-- A request without messages. -/
def emptyRequest : ChatCompletionRequest := { Model := "gpt-4", Messages := [] }

/-- A stream chunk with one candidate carrying the given text, finish reason and usage
metadata. -/
def textChunk (text finishReason : String) (usage : Option GeminiUsageMetadata) :
    GeminiResponse :=
  { Candidates := [{ Content := some { Parts := [{ Text := text }], Role := "model" },
                     FinishReason := finishReason, Index := 0 }]
    UsageMetadata := usage }

/-- The first chunk of `helloStream`. -/
def helChunk : GeminiResponse := textChunk "Hel" "" none

/-- The second chunk of `helloStream`. -/
def loChunk : GeminiResponse := textChunk "lo" "" none

/-- The third chunk of `helloStream`, with a finish reason and usage metadata. -/
def bangChunk : GeminiResponse :=
  textChunk "!" "STOP"
    (some { PromptTokenCount := 5, CandidatesTokenCount := 3, TotalTokenCount := 8 })

/-- A stream body of three data lines, separated by blank lines and a comment line; the
payloads `1`, `2`, `3` stand for the JSON texts of the three chunks. -/
def helloStream : HTTPResponse :=
  { StatusCode := 200
    lines := ["data: 1\n", "\n", "data: 2\n", "\n", ": keep-alive\n", "data: 3\n", "\n"]
    readEnd := .EOF
    decodeChunk := fun payload =>
      if payload = "1" then .ok helChunk
      else if payload = "2" then .ok loChunk
      else if payload = "3" then .ok bangChunk
      else .error (.plain "invalid character") }

/-- A stream chunk with two candidates, of which only the second carries a finish reason. -/
def secondFinishedChunk : GeminiResponse :=
  { Candidates := [{ Content := some { Parts := [{ Text := "a" }], Role := "model" },
                     Index := 0 },
                   { Content := some { Parts := [{ Text := "b" }], Role := "model" },
                     FinishReason := "STOP", Index := 1 }] }

/-- A stream chunk with two candidates, of which the first carries a finish reason. -/
def firstFinishedChunk : GeminiResponse :=
  { Candidates := [{ Content := some { Parts := [{ Text := "c" }], Role := "model" },
                     FinishReason := "STOP", Index := 0 },
                   { Index := 1 }] }

/-- A stream body of two data lines; the payloads `1` and `2` stand for the JSON texts of
`secondFinishedChunk` and `firstFinishedChunk`. -/
def twoCandidateStream : HTTPResponse :=
  { StatusCode := 200
    lines := ["data: 1\n", "data: 2\n"]
    readEnd := .EOF
    decodeChunk := fun payload =>
      if payload = "1" then .ok secondFinishedChunk
      else if payload = "2" then .ok firstFinishedChunk
      else .error (.plain "invalid character") }

/-- The output chunk with the given delta content and finish reason, for the model `gpt-4`. -/
def helloChunk (content finishReason : String) : ChatCompletionChunk :=
  { ID := "", Object := "chat.completion.chunk", Created := 0, Model := "gpt-4"
    Choices := [{ Index := 0, Delta := { Content := content }, FinishReason := finishReason }] }

/-- A JSON codec that agrees with `encoding/json` on the texts used below: `null` leaves a
string at its zero value, a text in double quotes without escapes decodes to that text, and a
string without characters that need escaping is encoded by putting it in double quotes. -/
def quotedCodec : JSONCodec :=
  { unmarshalString := fun data =>
      if data = "null" then .ok ""
      else
        match quotedDecoder.asString data with
        | some s => .ok s
        | none => .error (.plain "json: cannot unmarshal into Go value of type string")
    unmarshalStrings := fun _ =>
      .error (.plain "json: cannot unmarshal into Go value of type []string")
    marshalString := fun x => .ok (String.mk (Char.ofNat 34 :: x.toList ++ [Char.ofNat 34]))
    marshalStrings := fun _ => .ok "[]" }

/-- A system message whose content is a JSON number, which is neither a string nor a list of
parts. -/
def systemNumber : Message := { Role := "system", Content := "42" }

/-- A second system message. -/
def systemPolite : Message := { Role := "system", Content := "\"Be polite.\"" }

/-- A pool holding `keyA`, with a storage backend that has received no call. -/
def storedPool : Pool := { keys := [keyA], storage := some {} }

/-- A message with the role `tool`. -/
def toolMessage : Message := { Role := "tool", Content := "\"42\"" }

/-- A request with the model `gpt-4` and one message with the role `tool`. -/
def toolRequest : ChatCompletionRequest := { Model := "gpt-4", Messages := [toolMessage] }

/-- A dispatch whose upstream call is answered with HTTP 200 and a body without candidates. -/
def emptyCandidatesUpstream : Upstream :=
  { getKey := .ok keyA
    convertRequest := ConvertOpenAIRequest quotedDecoder helloRequest
    response := .ok { StatusCode := 200, body := "{}", geminiResponse := .ok { Candidates := [] } } }

/-- A credential that has consumed one prompt token. -/
def tokenKey : Key :=
  { ID := "t", APIKey := "AIzaSyKeyT", Name := "Key T", Status := KeyStatusActive,
    Enabled := true, Stats := { PromptTokens := 1 } }

/-- A pool holding `tokenKey`. -/
def tokenPool : Pool := { keys := [tokenKey] }

/-- A pool holding `keyA` whose cooldown setting is 9223372037 seconds, one second more than
the seconds a `time.Duration` can hold. -/
def longCooldownPool : Pool := { keys := [keyA], cooldownSeconds := 9223372037 }

/-- A pool whose only credential is `coolingKey`, with the default configuration. -/
def coolingPool : Pool := { keys := [coolingKey] }

/-! ## Lemmas on availability and the strategies -/

theorem Key.IsAvailable_iff (k : Key) (now : Time) :
    k.IsAvailable now = true ↔ k.availableAt now := by
  unfold Key.IsAvailable Key.availableAt Key.liveCooldown
  by_cases he : k.Enabled = true
  · by_cases hd : k.Status = KeyStatusDisabled
    · simp [he, hd]
    · by_cases hr : k.Status = KeyStatusRateLimited
      · cases hc : k.CooldownUntil with
        | none => simp [he, hd, hr]
        | some d =>
          by_cases hlt : now < d
          · simp [he, hd, hr, hlt]
          · simp [he, hd, hr, hlt]
      · simp [he, hd, hr]
  · simp [he]

theorem mem_filterAvailable (now : Time) (keys : List (Option Key)) (k : Key) :
    k ∈ filterAvailable now keys ↔ some k ∈ keys ∧ k.IsAvailable now = true := by
  induction keys with
  | nil => simp [filterAvailable]
  | cons a rest ih =>
    cases a with
    | none => simp [filterAvailable, ih]
    | some key =>
      by_cases h : key.IsAvailable now = true
      · simp only [filterAvailable, h, if_true, List.mem_cons, ih, Option.some.injEq]
        constructor
        · rintro (rfl | ⟨h1, h2⟩)
          · exact ⟨Or.inl rfl, h⟩
          · exact ⟨Or.inr h1, h2⟩
        · rintro ⟨rfl | h1, h2⟩
          · exact Or.inl rfl
          · exact Or.inr ⟨h1, h2⟩
      · have hf : key.IsAvailable now = false := by simpa using h
        simp only [filterAvailable, hf, Bool.false_eq_true, if_false, List.mem_cons, ih,
          Option.some.injEq]
        constructor
        · rintro ⟨h1, h2⟩
          exact ⟨Or.inr h1, h2⟩
        · rintro ⟨rfl | h1, h2⟩
          · exact absurd h2 h
          · exact ⟨h1, h2⟩

theorem filterAvailable_eq_nil_iff (now : Time) (keys : List (Option Key)) :
    filterAvailable now keys = [] ↔ ∀ k, some k ∈ keys → k.IsAvailable now = false := by
  rw [List.eq_nil_iff_forall_not_mem]
  constructor
  · intro h k hk
    by_contra hav
    exact h k ((mem_filterAvailable now keys k).2 ⟨hk, by simpa using hav⟩)
  · intro h k hk
    have := (mem_filterAvailable now keys k).1 hk
    rw [h k this.1] at this
    exact absurd this.2 (by simp)

theorem leastUsedLoop_mem (minKey : Key) (minCount : Int) (rest : List Key) :
    leastUsedLoop minKey minCount rest ∈ minKey :: rest := by
  induction rest generalizing minKey minCount with
  | nil => simp [leastUsedLoop]
  | cons key rest ih =>
    unfold leastUsedLoop
    split
    · have := ih key key.Stats.RequestCount
      simp only [List.mem_cons] at this ⊢
      rcases this with h | h
      · exact Or.inr (Or.inl h)
      · exact Or.inr (Or.inr h)
    · have := ih minKey minCount
      simp only [List.mem_cons] at this ⊢
      rcases this with h | h
      · exact Or.inl h
      · exact Or.inr (Or.inr h)

theorem weightedLoop_mem (randomValue cumulative : ℚ) (availableKeys : List Key) (k : Key)
    (h : weightedLoop randomValue cumulative availableKeys = some k) : k ∈ availableKeys := by
  induction availableKeys generalizing cumulative with
  | nil => simp [weightedLoop] at h
  | cons key rest ih =>
    unfold weightedLoop at h
    simp only at h
    split at h
    · simp only [Option.some.injEq] at h
      simp [h]
    · exact List.mem_cons_of_mem _ (ih _ h)

theorem getElem?_mod_length {α : Type} (l : List α) (i : Nat) (h : l.length ≠ 0) :
    ∃ a, l[i % l.length]? = some a ∧ a ∈ l := by
  have hlt : i % l.length < l.length := Nat.mod_lt _ (Nat.pos_of_ne_zero h)
  exact ⟨l[i % l.length], List.getElem?_eq_getElem hlt, List.getElem_mem hlt⟩

theorem Rng.Intn_lt (rng : Rng) (n : Nat) (h : n ≠ 0) : (Rng.Intn rng n).1 < n := by
  cases rng with
  | nil => simpa [Rng.Intn] using Nat.pos_of_ne_zero h
  | cons r rest => simpa [Rng.Intn] using Nat.mod_lt r (Nat.pos_of_ne_zero h)

/-- Every strategy returns nothing exactly when no key of the slice is available, and
otherwise one of the available keys. -/
theorem Strategy.Select_spec (s : Strategy) (now : Time) (keys : List (Option Key)) :
    ((s.Select now keys).1 = none ↔ filterAvailable now keys = []) ∧
    ∀ k, (s.Select now keys).1 = some k → k ∈ filterAvailable now keys := by
  cases s with
  | RoundRobin rr =>
    simp only [Strategy.Select, RoundRobinStrategy.Select]
    by_cases h : (filterAvailable now keys).length = 0
    · have h0 : filterAvailable now keys = [] := List.length_eq_zero.1 h
      simp [h0]
    · have hne : filterAvailable now keys ≠ [] := fun h0 => h (by simp [h0])
      obtain ⟨a, ha, hmem⟩ := getElem?_mod_length (filterAvailable now keys)
        (((rr.index + 1) % 2 ^ 64 + 2 ^ 64 - 1) % 2 ^ 64) h
      simp only [h, if_false, ha, hne, false_iff]
      refine ⟨by simp, ?_⟩
      intro k hk
      simp only [Option.some.injEq] at hk
      exact hk ▸ hmem
  | Random r =>
    simp only [Strategy.Select, RandomStrategy.Select]
    by_cases h : (filterAvailable now keys).length = 0
    · have h0 : filterAvailable now keys = [] := List.length_eq_zero.1 h
      simp [h0]
    · have hne : filterAvailable now keys ≠ [] := fun h0 => h (by simp [h0])
      have hlt := Rng.Intn_lt r.rng (filterAvailable now keys).length h
      simp only [h, if_false, hne, iff_false]
      rw [List.getElem?_eq_getElem hlt]
      refine ⟨by simp, ?_⟩
      intro k hk
      simp only [Option.some.injEq] at hk
      exact hk ▸ List.getElem_mem hlt
  | LeastUsed =>
    simp only [Strategy.Select, LeastUsedStrategy.Select]
    cases hf : filterAvailable now keys with
    | nil => simp
    | cons minKey rest =>
      refine ⟨by simp, ?_⟩
      intro k hk
      simp only [Option.some.injEq] at hk
      exact hk ▸ leastUsedLoop_mem _ _ _
  | Weighted w =>
    simp only [Strategy.Select, WeightedStrategy.Select]
    by_cases h : (filterAvailable now keys).length = 0
    · have h0 : filterAvailable now keys = [] := List.length_eq_zero.1 h
      simp [h0]
    · have hne : filterAvailable now keys ≠ [] := fun h0 => h (by simp [h0])
      have hlt : (filterAvailable now keys).length - 1 < (filterAvailable now keys).length :=
        Nat.sub_lt (Nat.pos_of_ne_zero h) Nat.one_pos
      simp only [h, if_false, hne, iff_false]
      cases hw : weightedLoop ((Rng.Float64 w.rng).1 *
          (List.map calculateWeight (filterAvailable now keys)).sum) 0
          (filterAvailable now keys) with
      | some key =>
        refine ⟨by simp, ?_⟩
        intro k hk
        simp only [Option.some.injEq] at hk
        exact hk ▸ weightedLoop_mem _ _ _ _ hw
      | none =>
        simp only
        rw [List.getElem?_eq_getElem hlt]
        refine ⟨by simp, ?_⟩
        intro k hk
        simp only [Option.some.injEq] at hk
        exact hk ▸ List.getElem_mem hlt

theorem filterAvailableAt_const (now : Time) (keys : List (Option Key)) :
    ∀ i : Nat, filterAvailableAt (fun _ => now) i keys = filterAvailable now keys := by
  induction keys with
  | nil =>
    intro i
    rfl
  | cons k rest ih =>
    intro i
    cases k with
    | none =>
      simp only [filterAvailableAt, filterAvailable]
      exact ih (i + 1)
    | some key =>
      simp only [filterAvailableAt, filterAvailable, ih (i + 1)]

/-- When every availability test reads the same instant, `Strategy.SelectAt` is
`Strategy.Select` at that instant. -/
theorem Strategy.SelectAt_const (s : Strategy) (now : Time) (keys : List (Option Key)) :
    s.SelectAt (fun _ => now) keys = s.Select now keys := by
  unfold Strategy.SelectAt
  simp only [filterAvailableAt_const]
  cases s <;> rfl

/-! ## Lemmas on the sweep and on `allKeysRateLimited` -/

theorem status_active_ne_disabled : KeyStatusActive ≠ KeyStatusDisabled := by decide

theorem status_active_ne_rateLimited : KeyStatusActive ≠ KeyStatusRateLimited := by decide

theorem status_rateLimited_ne_disabled : KeyStatusRateLimited ≠ KeyStatusDisabled := by decide

theorem resetExpiredCooldown_countsAsEnabled (now : Time) (k : Key) :
    (resetExpiredCooldown now k).countsAsEnabled ↔ k.countsAsEnabled := by
  unfold resetExpiredCooldown Key.countsAsEnabled
  by_cases hr : k.Status = KeyStatusRateLimited
  · have hd := status_rateLimited_ne_disabled
    have ha := status_active_ne_disabled
    cases hc : k.CooldownUntil with
    | none => simp [hr, hd, ha]
    | some d =>
      by_cases hlt : d < now
      · simp [hr, hlt, hd, ha]
      · simp [hr, hlt, hd]
  · simp [hr]

theorem resetExpiredCooldown_available (now : Time) (k : Key) :
    (resetExpiredCooldown now k).IsAvailable now = true ↔
      k.countsAsEnabled ∧ ¬ k.liveCooldown now := by
  rw [Key.IsAvailable_iff]
  unfold resetExpiredCooldown Key.availableAt Key.liveCooldown Key.countsAsEnabled
  by_cases hr : k.Status = KeyStatusRateLimited
  · have hd := status_rateLimited_ne_disabled
    have ha := status_active_ne_disabled
    have har := status_active_ne_rateLimited
    cases hc : k.CooldownUntil with
    | none => simp [hr, hd, ha, har]
    | some d =>
      by_cases hlt : d < now
      · have : ¬ now < d := lt_asymm hlt
        simp [hr, hlt, hd, ha, har, this]
      · simp [hr, hlt, hd, hc]
  · simp [hr, and_assoc]

theorem allKeysRateLimitedLoop_unavailable (now : Time) (keys : List Key)
    (hasEnabledKey allRateLimited : Bool)
    (h : ∀ k ∈ keys, k.IsAvailable now = false) :
    allKeysRateLimitedLoop now keys hasEnabledKey allRateLimited =
      (hasEnabledKey || keys.any (fun k => k.Enabled && k.Status != KeyStatusDisabled),
        allRateLimited) := by
  induction keys generalizing hasEnabledKey with
  | nil => simp [allKeysRateLimitedLoop]
  | cons key rest ih =>
    have hk : key.IsAvailable now = false := h key (List.mem_cons_self _ _)
    have hrest : ∀ k ∈ rest, k.IsAvailable now = false :=
      fun k hk => h k (List.mem_cons_of_mem _ hk)
    unfold allKeysRateLimitedLoop
    by_cases hen : (!key.Enabled || key.Status == KeyStatusDisabled) = true
    · rw [if_pos hen, ih _ hrest]
      have : (key.Enabled && key.Status != KeyStatusDisabled) = false := by
        rcases (Bool.or_eq_true_iff).1 hen with h1 | h1
        · simp at h1; simp [h1]
        · simp at h1; simp [h1]
      simp [this]
    · rw [if_neg hen]
      have hav : ¬ key.availableAt now := by
        rw [← Key.IsAvailable_iff]; simp [hk]
      simp only [Bool.or_eq_true, Bool.not_eq_true', beq_iff_eq, not_or, Bool.not_eq_false] at hen
      have hlive : key.liveCooldown now := by
        by_contra hl
        exact hav ⟨hen.1, hen.2, hl⟩
      obtain ⟨hst, d, hd, hlt⟩ := hlive
      have hna : ¬ key.Status = KeyStatusActive := by
        rw [hst]; exact fun e => status_active_ne_rateLimited e.symm
      have hnlt : ¬ d < now := lt_asymm hlt
      have hen2 : (key.Enabled && key.Status != KeyStatusDisabled) = true := by
        simp [hen.1, hen.2]
      have hra : ¬ KeyStatusRateLimited = KeyStatusActive :=
        fun e => status_active_ne_rateLimited e.symm
      simp only [beq_iff_eq, hst, hra, if_false, hd, hnlt, decide_False, Bool.and_false,
        Bool.false_eq_true]
      rw [ih _ hrest]
      rw [hst] at hen2
      simp [hen2, hst]

/-- For a credential whose status is Disabled only when its `Enabled` flag is off (what
`NewPool` and `LoadFromStorage` set up), being counted as enabled is having the flag set. -/
theorem Key.countsAsEnabled_iff_Enabled (k : Key)
    (h : k.Status = KeyStatusDisabled → k.Enabled = false) :
    k.countsAsEnabled ↔ k.Enabled = true := by
  unfold Key.countsAsEnabled
  constructor
  · exact fun hk => hk.1
  · intro he
    refine ⟨he, fun hd => ?_⟩
    rw [h hd] at he
    exact absurd he (by simp)

theorem newPoolKeys_status (uuid : Nat → String) (now : Time) (configs : List KeyConfig) :
    ∀ i, ∀ k ∈ newPoolKeys uuid now i configs, k.Status = KeyStatusDisabled → k.Enabled = false := by
  induction configs with
  | nil => intro i k hk; simp [newPoolKeys] at hk
  | cons cfg rest ih =>
    intro i k hk
    simp only [newPoolKeys, List.mem_cons] at hk
    rcases hk with rfl | hk
    · cases he : cfg.Enabled with
      | false => simp [newKeyFromConfig, he]
      | true =>
        intro hd
        simp only [newKeyFromConfig, he, Bool.not_true, Bool.false_eq_true, if_false] at hd
        exact absurd hd status_active_ne_disabled
    · exact ih (i + 1) k hk

theorem any_countsAsEnabled (keys : List Key) :
    keys.any (fun k => k.Enabled && k.Status != KeyStatusDisabled) = true ↔
      ∃ k ∈ keys, k.countsAsEnabled := by
  simp [List.any_eq_true, Key.countsAsEnabled]

theorem ErrNoAvailableKeys_ne_ErrAllKeysRateLimited : ErrNoAvailableKeys ≠ ErrAllKeysRateLimited := by
  decide

theorem sweep_no_available_iff (p : Pool) (now : Time) :
    filterAvailable now ((p.resetExpiredCooldowns now).keys.map some) = [] ↔
      ¬ ∃ k ∈ p.keys, k.countsAsEnabled ∧ ¬ k.liveCooldown now := by
  rw [filterAvailable_eq_nil_iff]
  simp only [Pool.resetExpiredCooldowns, List.mem_map, Option.some.injEq, exists_eq_right]
  constructor
  · rintro h ⟨k, hk, hen⟩
    have h1 := h _ ⟨k, hk, rfl⟩
    have h2 := (resetExpiredCooldown_available now k).2 hen
    rw [h1] at h2
    exact absurd h2 (by simp)
  · rintro h k' ⟨k, hk, rfl⟩
    by_contra hav
    have hav2 : (resetExpiredCooldown now k).IsAvailable now = true := by simpa using hav
    exact h ⟨k, hk, (resetExpiredCooldown_available now k).1 hav2⟩

theorem sweep_allKeysRateLimited (p : Pool) (now : Time) (s : Strategy)
    (h : filterAvailable now ((p.resetExpiredCooldowns now).keys.map some) = []) :
    Pool.allKeysRateLimited { p.resetExpiredCooldowns now with strategy := s } now = true ↔
      ∃ k ∈ p.keys, k.countsAsEnabled := by
  have hun : ∀ k ∈ (p.resetExpiredCooldowns now).keys, k.IsAvailable now = false := by
    intro k hk
    exact (filterAvailable_eq_nil_iff now _).1 h k (List.mem_map.2 ⟨k, hk, rfl⟩)
  unfold Pool.allKeysRateLimited
  simp only
  rw [allKeysRateLimitedLoop_unavailable now _ false true hun]
  simp only [Bool.false_or, Bool.and_true]
  rw [any_countsAsEnabled]
  simp only [Pool.resetExpiredCooldowns, List.mem_map]
  constructor
  · rintro ⟨k', ⟨k, hk, rfl⟩, hen⟩
    exact ⟨k, hk, (resetExpiredCooldown_countsAsEnabled now k).1 hen⟩
  · rintro ⟨k, hk, hen⟩
    exact ⟨_, ⟨k, hk, rfl⟩, (resetExpiredCooldown_countsAsEnabled now k).2 hen⟩

/-- What `Pool.GetKey` returns when all its clock readings are the instant `now`, by the
three cases of the pool state at `now`. -/
theorem Pool.GetKey_cases (p : Pool) (now : Time) :
    ((∃ k ∈ p.keys, k.countsAsEnabled ∧ ¬ k.liveCooldown now) ∧
        ∃ key, (p.GetKey now (fun _ => now) now).1 = .ok key) ∨
    ((¬ ∃ k ∈ p.keys, k.countsAsEnabled ∧ ¬ k.liveCooldown now) ∧
        (∃ k ∈ p.keys, k.countsAsEnabled) ∧ (p.GetKey now (fun _ => now) now).1 = .error ErrAllKeysRateLimited) ∨
    ((¬ ∃ k ∈ p.keys, k.countsAsEnabled) ∧ (p.GetKey now (fun _ => now) now).1 = .error ErrNoAvailableKeys) := by
  by_cases hlen : p.keys.length = 0
  · have hnil : p.keys = [] := List.length_eq_zero.1 hlen
    right; right
    simp [Pool.GetKey, hnil]
  · have hspec := Strategy.Select_spec p.strategy now ((p.resetExpiredCooldowns now).keys.map some)
    have hstrat : (p.resetExpiredCooldowns now).strategy = p.strategy := rfl
    unfold Pool.GetKey
    rw [if_neg hlen]
    simp only [Strategy.SelectAt_const]
    simp only [hstrat]
    cases hsel : (p.strategy.Select now ((p.resetExpiredCooldowns now).keys.map some)).1 with
    | some key =>
      left
      have hmem := hspec.2 key hsel
      have hne : ¬ filterAvailable now ((p.resetExpiredCooldowns now).keys.map some) = [] :=
        fun h0 => by rw [h0] at hmem; exact absurd hmem (List.not_mem_nil _)
      rw [sweep_no_available_iff] at hne
      exact ⟨not_not.1 hne, key, rfl⟩
    | none =>
      right
      have hnil := hspec.1.1 hsel
      have hnone := (sweep_no_available_iff p now).1 hnil
      have hall := sweep_allKeysRateLimited p now
        (p.strategy.Select now ((p.resetExpiredCooldowns now).keys.map some)).2 hnil
      by_cases hen : ∃ k ∈ p.keys, k.countsAsEnabled
      · left
        refine ⟨hnone, hen, ?_⟩
        simp only
        rw [if_pos (hall.2 hen)]
      · right
        refine ⟨hen, ?_⟩
        simp only
        rw [if_neg (fun h => hen (hall.1 h))]

theorem Pool.GetKey_keys (p : Pool) (now : Time) :
    (p.GetKey now (fun _ => now) now).2.keys = (p.resetExpiredCooldowns now).keys := by
  unfold Pool.GetKey
  simp only [Strategy.SelectAt_const]
  by_cases hlen : p.keys.length = 0
  · have hnil : p.keys = [] := List.length_eq_zero.1 hlen
    simp [hnil, Pool.resetExpiredCooldowns]
  · rw [if_neg hlen]
    split
    · split <;> rfl
    · rfl

theorem Pool.GetKey_ok (p : Pool) (now : Time) (key : Key)
    (h : (p.GetKey now (fun _ => now) now).1 = .ok key) :
    key ∈ (p.resetExpiredCooldowns now).keys ∧ key.IsAvailable now = true := by
  unfold Pool.GetKey at h
  simp only [Strategy.SelectAt_const] at h
  by_cases hlen : p.keys.length = 0
  · rw [if_pos hlen] at h
    simp at h
  · rw [if_neg hlen] at h
    have hspec := Strategy.Select_spec (p.resetExpiredCooldowns now).strategy now
      ((p.resetExpiredCooldowns now).keys.map some)
    cases hsel : ((p.resetExpiredCooldowns now).strategy.Select now
        ((p.resetExpiredCooldowns now).keys.map some)).1 with
    | none =>
      rw [hsel] at h
      simp only at h
      split at h <;> simp at h
    | some k =>
      rw [hsel] at h
      simp only [Except.ok.injEq] at h
      subst h
      have hmem := (mem_filterAvailable now _ k).1 (hspec.2 k hsel)
      refine ⟨?_, hmem.2⟩
      have := hmem.1
      simp only [List.mem_map, Option.some.injEq, exists_eq_right] at this
      exact this

/-- When all the clock readings of a `Pool.GetKey` call are the same instant, the call
returns `ErrNoAvailableKeys` exactly when no enabled credential exists (the empty pool
included), returns `ErrAllKeysRateLimited` exactly when at least one enabled credential exists
and every enabled one has a live cooldown, and returns a credential of the pool with no error
exactly in the remaining case. Enabled is the pool's own test (flag set, status not
Disabled); a cooldown is live while its deadline is strictly later than the instant. -/
theorem Pool.GetKey_error_classification (p : Pool) (now : Time) :
    ((p.GetKey now (fun _ => now) now).1 = .error ErrNoAvailableKeys ↔ ¬ ∃ k ∈ p.keys, k.countsAsEnabled) ∧
    ((p.GetKey now (fun _ => now) now).1 = .error ErrAllKeysRateLimited ↔
      (∃ k ∈ p.keys, k.countsAsEnabled) ∧
        ∀ k ∈ p.keys, k.countsAsEnabled → k.liveCooldown now) ∧
    ((∃ key, (p.GetKey now (fun _ => now) now).1 = .ok key ∧ key ∈ (p.GetKey now (fun _ => now) now).2.keys) ↔
      ∃ k ∈ p.keys, k.countsAsEnabled ∧ ¬ k.liveCooldown now) := by
  have hne := ErrNoAvailableKeys_ne_ErrAllKeysRateLimited
  rcases Pool.GetKey_cases p now with ⟨hA, key, hk⟩ | ⟨hA, hB, hk⟩ | ⟨hB, hk⟩
  · have hB : ∃ k ∈ p.keys, k.countsAsEnabled := by
      obtain ⟨k, hk1, hk2, _⟩ := hA
      exact ⟨k, hk1, hk2⟩
    refine ⟨?_, ?_, ?_⟩
    · rw [hk]
      simp [hB]
    · rw [hk]
      simp only [false_iff, not_and, reduceCtorEq]
      intro _ hall
      obtain ⟨k, hk1, hk2, hk3⟩ := hA
      exact hk3 (hall k hk1 hk2)
    · refine ⟨fun _ => hA, fun _ => ⟨key, hk, ?_⟩⟩
      rw [Pool.GetKey_keys]
      exact (Pool.GetKey_ok p now key hk).1
  · have hall : ∀ k ∈ p.keys, k.countsAsEnabled → k.liveCooldown now := by
      intro k hk1 hk2
      by_contra hl
      exact hA ⟨k, hk1, hk2, hl⟩
    refine ⟨?_, ?_, ?_⟩
    · rw [hk]
      simp only [Except.error.injEq]
      exact ⟨fun e => absurd e.symm hne, fun h => absurd hB h⟩
    · rw [hk]
      simp only [true_iff]
      exact ⟨hB, hall⟩
    · rw [hk]
      simp only [reduceCtorEq, false_and, exists_false, false_iff]
      exact hA
  · have hA : ¬ ∃ k ∈ p.keys, k.countsAsEnabled ∧ ¬ k.liveCooldown now := by
      rintro ⟨k, hk1, hk2, _⟩
      exact hB ⟨k, hk1, hk2⟩
    refine ⟨?_, ?_, ?_⟩
    · rw [hk]
      simp only [true_iff]
      exact hB
    · rw [hk]
      simp only [Except.error.injEq]
      exact ⟨fun e => absurd e hne, fun h => absurd h.1 hB⟩
    · rw [hk]
      simp only [reduceCtorEq, false_and, exists_false, false_iff]
      exact hA

/-- C1, at the failing input: a pool whose only credential is enabled and RateLimited with
cooldown deadline 100, and a `Pool.GetKey` call whose sweep reads the instant 90, whose
availability test reads the instant 95, and whose classification of the failed selection
reads the instant 105. The selection finds no available key, the classification finds the
cooldown expired, and the call returns `ErrNoAvailableKeys` although an enabled credential
exists. With every reading at 95 the call returns `ErrAllKeysRateLimited`, and with every
reading at 105 it returns the credential. -/
theorem Pool.GetKey_expired_between_readings :
    coolingKey ∈ coolingPool.keys ∧ coolingKey.countsAsEnabled ∧
    (coolingPool.GetKey 90 (fun _ => 95) 105).1 = .error ErrNoAvailableKeys ∧
    (coolingPool.GetKey 95 (fun _ => 95) 95).1 = .error ErrAllKeysRateLimited ∧
    (∃ key, (coolingPool.GetKey 105 (fun _ => 105) 105).1 = .ok key) := by
  refine ⟨by decide, ⟨rfl, by decide⟩, rfl, rfl, ⟨_, rfl⟩⟩

/-! ## Report calls -/

theorem Key.IncrementStats_ID (k : Key) (now : Time) (success : Bool) (pt ct : Int)
    (model : String) : (k.IncrementStats now success pt ct model).ID = k.ID := rfl

theorem Key.IncrementStats_Status (k : Key) (now : Time) (success : Bool) (pt ct : Int)
    (model : String) : (k.IncrementStats now success pt ct model).Status = k.Status := rfl

theorem Key.IncrementStats_CooldownUntil (k : Key) (now : Time) (success : Bool) (pt ct : Int)
    (model : String) :
    (k.IncrementStats now success pt ct model).CooldownUntil = k.CooldownUntil := rfl

theorem wrapInt64_of_inInt64 (n : Int) (h : inInt64 n) : wrapInt64 n = n := by
  unfold inInt64 at h
  unfold wrapInt64
  omega

theorem wrapInt64_add_left (a b : Int) : wrapInt64 (wrapInt64 a + b) = wrapInt64 (a + b) := by
  unfold wrapInt64
  omega

theorem wrapInt64_add_right (a b : Int) : wrapInt64 (a + wrapInt64 b) = wrapInt64 (a + b) := by
  unfold wrapInt64
  omega

theorem Key.IncrementStats_RequestCount (k : Key) (now : Time) (success : Bool) (pt ct : Int)
    (model : String) :
    (k.IncrementStats now success pt ct model).Stats.RequestCount =
      wrapInt64 (k.Stats.RequestCount + 1) := by
  unfold Key.IncrementStats
  cases success <;> by_cases hm : model = "" <;> simp [hm]

theorem Key.IncrementStats_SuccessCount (k : Key) (now : Time) (success : Bool) (pt ct : Int)
    (model : String) :
    (k.IncrementStats now success pt ct model).Stats.SuccessCount =
      if success then wrapInt64 (k.Stats.SuccessCount + 1) else k.Stats.SuccessCount := by
  unfold Key.IncrementStats
  cases success <;> by_cases hm : model = "" <;> simp [hm]

theorem Key.IncrementStats_ErrorCount (k : Key) (now : Time) (success : Bool) (pt ct : Int)
    (model : String) :
    (k.IncrementStats now success pt ct model).Stats.ErrorCount =
      if success then k.Stats.ErrorCount else wrapInt64 (k.Stats.ErrorCount + 1) := by
  unfold Key.IncrementStats
  cases success <;> by_cases hm : model = "" <;> simp [hm]

theorem Key.IncrementStats_PromptTokens (k : Key) (now : Time) (success : Bool) (pt ct : Int)
    (model : String) :
    (k.IncrementStats now success pt ct model).Stats.PromptTokens =
      wrapInt64 (k.Stats.PromptTokens + pt) := by
  unfold Key.IncrementStats
  cases success <;> by_cases hm : model = "" <;> simp [hm]

theorem Key.IncrementStats_CompletionTokens (k : Key) (now : Time) (success : Bool)
    (pt ct : Int) (model : String) :
    (k.IncrementStats now success pt ct model).Stats.CompletionTokens =
      wrapInt64 (k.Stats.CompletionTokens + ct) := by
  unfold Key.IncrementStats
  cases success <;> by_cases hm : model = "" <;> simp [hm]

theorem getElem?_set_self_of_some {α : Type} (l : List α) (i : Nat) (a b : α)
    (h : l[i]? = some a) : (l.set i b)[i]? = some b := by
  have hlt : i < l.length := by
    by_contra hge
    rw [List.getElem?_eq_none (by omega)] at h
    exact absurd h (by simp)
  simp [List.getElem?_set, hlt]

/-- C4, as amended. For every credential `c` of a pool (the key at position `i`) and every
`p`, `q` and model name `m`, `Pool.ReportSuccess(c, p, q, m)` sets the consecutive-failure
counter of `c` to 0, adds one to its request and success counters, `p` to its prompt tokens and
`q` to its completion tokens, each in `int64` arithmetic (the counter increases by exactly
that amount whenever the sum is a value of `int64`, and wraps around otherwise), and leaves
its error counter, status and cooldown deadline unchanged. -/
theorem Pool.ReportSuccess_effect (p : Pool) (now : Time) (i : Nat) (c : Key)
    (promptTokens completionTokens : Int) (model : String) (hc : p.keys[i]? = some c) :
    ∃ c', (p.ReportSuccess now (some i) promptTokens completionTokens model).keys[i]? = some c' ∧
      (p.ReportSuccess now (some i) promptTokens completionTokens model).consecutiveFailures c.ID = 0 ∧
      c'.ID = c.ID ∧
      c'.Stats.RequestCount = wrapInt64 (c.Stats.RequestCount + 1) ∧
      c'.Stats.SuccessCount = wrapInt64 (c.Stats.SuccessCount + 1) ∧
      c'.Stats.PromptTokens = wrapInt64 (c.Stats.PromptTokens + promptTokens) ∧
      c'.Stats.CompletionTokens = wrapInt64 (c.Stats.CompletionTokens + completionTokens) ∧
      (inInt64 (c.Stats.RequestCount + 1) → c'.Stats.RequestCount = c.Stats.RequestCount + 1) ∧
      (inInt64 (c.Stats.SuccessCount + 1) → c'.Stats.SuccessCount = c.Stats.SuccessCount + 1) ∧
      (inInt64 (c.Stats.PromptTokens + promptTokens) →
        c'.Stats.PromptTokens = c.Stats.PromptTokens + promptTokens) ∧
      (inInt64 (c.Stats.CompletionTokens + completionTokens) →
        c'.Stats.CompletionTokens = c.Stats.CompletionTokens + completionTokens) ∧
      c'.Stats.ErrorCount = c.Stats.ErrorCount ∧
      c'.Status = c.Status ∧
      c'.CooldownUntil = c.CooldownUntil := by
  have h1 := Key.IncrementStats_RequestCount c now true promptTokens completionTokens model
  have h2 : (c.IncrementStats now true promptTokens completionTokens model).Stats.SuccessCount =
      wrapInt64 (c.Stats.SuccessCount + 1) := by
    simpa using Key.IncrementStats_SuccessCount c now true promptTokens completionTokens model
  have h3 := Key.IncrementStats_PromptTokens c now true promptTokens completionTokens model
  have h4 := Key.IncrementStats_CompletionTokens c now true promptTokens completionTokens model
  refine ⟨c.IncrementStats now true promptTokens completionTokens model, ?_, ?_, rfl, h1, h2, h3,
    h4, ?_, ?_, ?_, ?_, ?_, rfl, rfl⟩
  · simp only [Pool.ReportSuccess, hc]
    exact getElem?_set_self_of_some _ _ _ _ hc
  · simp [Pool.ReportSuccess, hc, Key.IncrementStats_ID]
  · intro h
    rw [h1, wrapInt64_of_inInt64 _ h]
  · intro h
    rw [h2, wrapInt64_of_inInt64 _ h]
  · intro h
    rw [h3, wrapInt64_of_inInt64 _ h]
  · intro h
    rw [h4, wrapInt64_of_inInt64 _ h]
  · simpa using Key.IncrementStats_ErrorCount c now true promptTokens completionTokens model

/-- C4, witness: a success with 100 prompt and 50 completion tokens on the only key of a
pool. -/
theorem Pool.ReportSuccess_effect_witness :
    ∃ c', (singlePool.ReportSuccess 7 (some 0) 100 50 "test-model").keys[0]? = some c' ∧
      (singlePool.ReportSuccess 7 (some 0) 100 50 "test-model").consecutiveFailures keyA.ID = 0 ∧
      c'.ID = keyA.ID ∧
      c'.Stats.RequestCount = wrapInt64 (keyA.Stats.RequestCount + 1) ∧
      c'.Stats.SuccessCount = wrapInt64 (keyA.Stats.SuccessCount + 1) ∧
      c'.Stats.PromptTokens = wrapInt64 (keyA.Stats.PromptTokens + 100) ∧
      c'.Stats.CompletionTokens = wrapInt64 (keyA.Stats.CompletionTokens + 50) ∧
      (inInt64 (keyA.Stats.RequestCount + 1) →
        c'.Stats.RequestCount = keyA.Stats.RequestCount + 1) ∧
      (inInt64 (keyA.Stats.SuccessCount + 1) →
        c'.Stats.SuccessCount = keyA.Stats.SuccessCount + 1) ∧
      (inInt64 (keyA.Stats.PromptTokens + 100) →
        c'.Stats.PromptTokens = keyA.Stats.PromptTokens + 100) ∧
      (inInt64 (keyA.Stats.CompletionTokens + 50) →
        c'.Stats.CompletionTokens = keyA.Stats.CompletionTokens + 50) ∧
      c'.Stats.ErrorCount = keyA.Stats.ErrorCount ∧
      c'.Status = keyA.Status ∧
      c'.CooldownUntil = keyA.CooldownUntil :=
  Pool.ReportSuccess_effect singlePool 7 0 keyA 100 50 "test-model" rfl

/-- C4, counterexample: the credential `tokenKey`, whose prompt-token counter is 1, and
`ReportSuccess` with 9223372036854775807 prompt tokens (the largest `int`). The counter
becomes -9223372036854775808; it does not increase by the number of tokens reported. -/
theorem Pool.ReportSuccess_tokens_wrap :
    tokenKey.Stats.PromptTokens = 1 ∧
    (tokenPool.ReportSuccess 7 (some 0) 9223372036854775807 0 "test-model").keys.map
      (fun k => k.Stats.PromptTokens) = [-9223372036854775808] ∧
    (-9223372036854775808 : Int) ≠ 1 + 9223372036854775807 := by
  refine ⟨rfl, ?_, by decide⟩
  decide

/-- C3, as amended. For every credential `c` (the key at position `i` of a pool), cooldown
setting `s` (the pool's `cooldownSeconds`) and time `t`, `Pool.ReportFailure` on `c` at time
`t` with an error classified as a rate-limit signal sets the status of `c` to RateLimited
with cooldown deadline `t` plus the `int64` product of `s` and `time.Second`, which is
exactly `t + s` seconds whenever `s` seconds are a value of `time.Duration` (`s` between
-9223372036 and 9223372036); it sets the consecutive-failure counter to 0, whatever its
previous value, and adds one to the request and error counters in `int64` arithmetic. -/
theorem Pool.ReportFailure_rateLimit_effect (p : Pool) (t : Time) (i : Nat) (c : Key)
    (err : GoError) (model : String) (hc : p.keys[i]? = some c)
    (herr : isRateLimitError err = true) :
    ∃ c', (p.ReportFailure t (some i) err model).keys[i]? = some c' ∧
      c'.Status = KeyStatusRateLimited ∧
      c'.CooldownUntil = some (t + wrapInt64 (p.cooldownSeconds * Second)) ∧
      (inInt64 (p.cooldownSeconds * Second) →
        c'.CooldownUntil = some (t + p.cooldownSeconds * Second)) ∧
      (-9223372036 ≤ p.cooldownSeconds → p.cooldownSeconds ≤ 9223372036 →
        inInt64 (p.cooldownSeconds * Second)) ∧
      (p.ReportFailure t (some i) err model).consecutiveFailures c.ID = 0 ∧
      c'.ID = c.ID ∧
      c'.Stats.RequestCount = wrapInt64 (c.Stats.RequestCount + 1) ∧
      c'.Stats.ErrorCount = wrapInt64 (c.Stats.ErrorCount + 1) ∧
      (inInt64 (c.Stats.RequestCount + 1) → c'.Stats.RequestCount = c.Stats.RequestCount + 1) ∧
      (inInt64 (c.Stats.ErrorCount + 1) → c'.Stats.ErrorCount = c.Stats.ErrorCount + 1) := by
  have h1 := Key.IncrementStats_RequestCount c t false 0 0 model
  have h2 : (c.IncrementStats t false 0 0 model).Stats.ErrorCount =
      wrapInt64 (c.Stats.ErrorCount + 1) := by
    simpa using Key.IncrementStats_ErrorCount c t false 0 0 model
  refine ⟨(c.IncrementStats t false 0 0 model).SetRateLimited t p.cooldownSeconds, ?_, rfl, rfl,
    ?_, ?_, ?_, rfl, h1, h2, ?_, ?_⟩
  · simp only [Pool.ReportFailure, hc, herr, if_true]
    exact getElem?_set_self_of_some _ _ _ _ hc
  · intro h
    simp only [Key.SetRateLimited]
    rw [wrapInt64_of_inInt64 _ h]
  · intro hlo hhi
    unfold inInt64 Second
    omega
  · simp [Pool.ReportFailure, hc, herr, Key.SetRateLimited, Key.IncrementStats_ID]
  · intro h
    show (c.IncrementStats t false 0 0 model).Stats.RequestCount = _
    rw [h1, wrapInt64_of_inInt64 _ h]
  · intro h
    show (c.IncrementStats t false 0 0 model).Stats.ErrorCount = _
    rw [h2, wrapInt64_of_inInt64 _ h]

/-- C3, witness: a typed rate-limit error reported at the instant 7 on the only key of a
pool whose cooldown is 30 seconds. -/
theorem Pool.ReportFailure_rateLimit_effect_witness :
    ∃ c', (singlePool.ReportFailure 7 (some 0) ErrAllKeysRateLimited "test-model").keys[0]? =
        some c' ∧
      c'.Status = KeyStatusRateLimited ∧
      c'.CooldownUntil = some (7 + wrapInt64 (singlePool.cooldownSeconds * Second)) ∧
      (inInt64 (singlePool.cooldownSeconds * Second) →
        c'.CooldownUntil = some (7 + singlePool.cooldownSeconds * Second)) ∧
      (-9223372036 ≤ singlePool.cooldownSeconds → singlePool.cooldownSeconds ≤ 9223372036 →
        inInt64 (singlePool.cooldownSeconds * Second)) ∧
      (singlePool.ReportFailure 7 (some 0) ErrAllKeysRateLimited "test-model").consecutiveFailures
        keyA.ID = 0 ∧
      c'.ID = keyA.ID ∧
      c'.Stats.RequestCount = wrapInt64 (keyA.Stats.RequestCount + 1) ∧
      c'.Stats.ErrorCount = wrapInt64 (keyA.Stats.ErrorCount + 1) ∧
      (inInt64 (keyA.Stats.RequestCount + 1) →
        c'.Stats.RequestCount = keyA.Stats.RequestCount + 1) ∧
      (inInt64 (keyA.Stats.ErrorCount + 1) → c'.Stats.ErrorCount = keyA.Stats.ErrorCount + 1) :=
  Pool.ReportFailure_rateLimit_effect singlePool 7 0 keyA ErrAllKeysRateLimited "test-model" rfl
    (by decide)

/-- The witness of C3 in numbers: the deadline is the instant 7 plus 30 seconds. -/
theorem Pool.ReportFailure_rateLimit_deadline_30 :
    (singlePool.ReportFailure 7 (some 0) ErrAllKeysRateLimited "test-model").keys.map
      (fun k => k.CooldownUntil) = [some 30000000007] := by
  decide

/-- C3, counterexample: a pool whose cooldown setting is 9223372037 seconds, and a rate-limit
error reported at the instant 7. The `int64` product with `time.Second` wraps to a negative
duration, and the deadline is earlier than the time of the call, not 9223372037 seconds
after it. -/
theorem Pool.ReportFailure_rateLimit_deadline_wraps :
    longCooldownPool.cooldownSeconds = 9223372037 ∧
    (longCooldownPool.ReportFailure 7 (some 0) ErrAllKeysRateLimited "test-model").keys.map
      (fun k => k.CooldownUntil) = [some (7 - 9223372036709551616)] ∧
    (7 - 9223372036709551616 : Int) < 7 ∧
    (7 - 9223372036709551616 : Int) ≠ 7 + 9223372037 * Second := by
  refine ⟨rfl, ?_, by decide, by decide⟩
  decide

theorem Pool.ReportFailure_below_threshold (p : Pool) (t : Time) (i : Nat) (c : Key)
    (err : GoError) (model : String) (hc : p.keys[i]? = some c)
    (herr : isRateLimitError err = false)
    (hlt : p.consecutiveFailures c.ID + 1 < p.maxConsecutiveFailures) :
    (p.ReportFailure t (some i) err model).keys[i]? = some (c.IncrementStats t false 0 0 model) ∧
      (p.ReportFailure t (some i) err model).consecutiveFailures c.ID =
        p.consecutiveFailures c.ID + 1 ∧
      (p.ReportFailure t (some i) err model).maxConsecutiveFailures = p.maxConsecutiveFailures := by
  have hnot : ¬ p.consecutiveFailures c.ID + 1 ≥ p.maxConsecutiveFailures := not_le.2 hlt
  simp only [Pool.ReportFailure, hc, herr, Key.IncrementStats_ID, Function.update_same,
    Bool.false_eq_true, if_false, hnot, and_true]
  exact getElem?_set_self_of_some _ _ _ _ hc

theorem Pool.ReportFailure_at_threshold (p : Pool) (t : Time) (i : Nat) (c : Key)
    (err : GoError) (model : String) (hc : p.keys[i]? = some c)
    (herr : isRateLimitError err = false)
    (hge : p.consecutiveFailures c.ID + 1 ≥ p.maxConsecutiveFailures) :
    (p.ReportFailure t (some i) err model).keys[i]? =
        some ((c.IncrementStats t false 0 0 model).SetRateLimited t p.cooldownSeconds) ∧
      (p.ReportFailure t (some i) err model).consecutiveFailures c.ID = 0 := by
  have hid : ((c.IncrementStats t false 0 0 model).SetRateLimited t p.cooldownSeconds).ID =
      c.ID := rfl
  simp only [Pool.ReportFailure, hc, herr, Key.IncrementStats_ID, Function.update_same,
    Bool.false_eq_true, if_false, hge, if_true, hid, and_true]
  exact getElem?_set_self_of_some _ _ _ _ hc

theorem Pool.reportFailures_reach_threshold (i : Nat) (calls : List (Time × GoError × String)) :
    ∀ (p : Pool) (c : Key), p.keys[i]? = some c → calls ≠ [] →
      (∀ call ∈ calls, isRateLimitError call.2.1 = false) →
      p.consecutiveFailures c.ID + calls.length = p.maxConsecutiveFailures →
      ∃ c', (p.reportFailures i calls).keys[i]? = some c' ∧ c'.ID = c.ID ∧
        c'.Status = KeyStatusRateLimited ∧
        (p.reportFailures i calls).consecutiveFailures c.ID = 0 := by
  induction calls with
  | nil => intro p c _ h; exact absurd rfl h
  | cons call rest ih =>
    intro p c hc _ herr hcount
    have hcall : isRateLimitError call.2.1 = false := herr call (List.mem_cons_self _ _)
    have hrest : ∀ x ∈ rest, isRateLimitError x.2.1 = false :=
      fun x hx => herr x (List.mem_cons_of_mem _ hx)
    simp only [Pool.reportFailures, List.foldl_cons]
    by_cases hnil : rest = []
    · subst hnil
      simp only [List.length_cons, List.length_nil, Nat.cast_one, zero_add, Nat.cast_zero] at hcount
      have h := Pool.ReportFailure_at_threshold p call.1 i c call.2.1 call.2.2 hc hcall
        (le_of_eq hcount.symm)
      exact ⟨_, h.1, rfl, rfl, h.2⟩
    · have hpos : 0 < rest.length := List.length_pos.2 hnil
      simp only [List.length_cons, Nat.cast_add, Nat.cast_one] at hcount
      have hlt : p.consecutiveFailures c.ID + 1 < p.maxConsecutiveFailures := by
        have : (0 : Int) < (rest.length : Int) := by exact_mod_cast hpos
        omega
      have h := Pool.ReportFailure_below_threshold p call.1 i c call.2.1 call.2.2 hc hcall hlt
      have := ih (p.ReportFailure call.1 (some i) call.2.1 call.2.2)
        (c.IncrementStats call.1 false 0 0 call.2.2) h.1 hnil hrest
        (by rw [Key.IncrementStats_ID, h.2.1, h.2.2]; omega)
      simpa [Pool.reportFailures, Key.IncrementStats_ID] using this

/-- C2. For every threshold `T >= 1` (the pool's `maxConsecutiveFailures`) and every
credential `c` (the key at position `i`) whose consecutive-failure counter is 0, `T`
consecutive `Pool.ReportFailure` calls on `c` with errors that are not rate-limit signals,
nothing else being called in between, leave `c` with status RateLimited and its
consecutive-failure counter reset to 0. -/
theorem Pool.ReportFailure_threshold (p : Pool) (i : Nat) (c : Key)
    (calls : List (Time × GoError × String))
    (hc : p.keys[i]? = some c)
    (hT : 1 ≤ p.maxConsecutiveFailures)
    (hzero : p.consecutiveFailures c.ID = 0)
    (hlen : (calls.length : Int) = p.maxConsecutiveFailures)
    (herr : ∀ call ∈ calls, isRateLimitError call.2.1 = false) :
    ∃ c', (p.reportFailures i calls).keys[i]? = some c' ∧ c'.ID = c.ID ∧
      c'.Status = KeyStatusRateLimited ∧
      (p.reportFailures i calls).consecutiveFailures c.ID = 0 := by
  have hne : calls ≠ [] := by
    rintro rfl
    simp at hlen
    omega
  exact Pool.reportFailures_reach_threshold i calls p c hc hne herr (by rw [hzero]; omega)

/-- C2, witness: threshold 3 and three consecutive generic failures. -/
theorem Pool.ReportFailure_threshold_witness :
    ∃ c', (singlePool.reportFailures 0 threeFailures).keys[0]? = some c' ∧ c'.ID = keyA.ID ∧
      c'.Status = KeyStatusRateLimited ∧
      (singlePool.reportFailures 0 threeFailures).consecutiveFailures keyA.ID = 0 :=
  Pool.ReportFailure_threshold singlePool 0 keyA threeFailures rfl (by decide) rfl (by decide)
    (by decide)

theorem Key.IncrementStats_statsBalanced (k : Key) (now : Time) (success : Bool) (pt ct : Int)
    (model : String) (h : k.statsBalanced) :
    (k.IncrementStats now success pt ct model).statsBalanced := by
  unfold Key.statsBalanced at h ⊢
  rw [Key.IncrementStats_RequestCount, Key.IncrementStats_SuccessCount,
    Key.IncrementStats_ErrorCount, h]
  cases success
  · simp only [Bool.false_eq_true, if_false]
    rw [wrapInt64_add_left, wrapInt64_add_right, add_assoc]
  · simp only [if_true]
    rw [wrapInt64_add_left, wrapInt64_add_left, add_right_comm]

theorem Key.SetRateLimited_statsBalanced (k : Key) (now : Time) (s : Int)
    (h : k.statsBalanced) : (k.SetRateLimited now s).statsBalanced := h

theorem forall_mem_set {α : Type} (P : α → Prop) (l : List α) (i : Nat) (b : α)
    (hl : ∀ a ∈ l, P a) (hb : P b) : ∀ a ∈ l.set i b, P a := by
  intro a ha
  rcases List.mem_or_eq_of_mem_set ha with h | h
  · exact hl a h
  · exact h ▸ hb

theorem Pool.ReportSuccess_statsBalanced (p : Pool) (now : Time) (key : Option Nat)
    (pt ct : Int) (model : String) (h : ∀ k ∈ p.keys, k.statsBalanced) :
    ∀ k ∈ (p.ReportSuccess now key pt ct model).keys, k.statsBalanced := by
  cases key with
  | none => exact h
  | some i =>
    cases hk : p.keys[i]? with
    | none => simpa only [Pool.ReportSuccess, hk] using h
    | some k =>
      have hmem : k ∈ p.keys := List.mem_iff_getElem?.2 ⟨i, hk⟩
      simp only [Pool.ReportSuccess, hk]
      exact forall_mem_set _ _ _ _ h (Key.IncrementStats_statsBalanced _ _ _ _ _ _ (h k hmem))

theorem Pool.ReportFailure_statsBalanced (p : Pool) (now : Time) (key : Option Nat)
    (err : GoError) (model : String) (h : ∀ k ∈ p.keys, k.statsBalanced) :
    ∀ k ∈ (p.ReportFailure now key err model).keys, k.statsBalanced := by
  cases key with
  | none => exact h
  | some i =>
    cases hk : p.keys[i]? with
    | none => simpa only [Pool.ReportFailure, hk] using h
    | some k =>
      have hmem : k ∈ p.keys := List.mem_iff_getElem?.2 ⟨i, hk⟩
      have hb := Key.IncrementStats_statsBalanced k now false 0 0 model (h k hmem)
      simp only [Pool.ReportFailure, hk]
      split
      · exact forall_mem_set _ _ _ _ h (Key.SetRateLimited_statsBalanced _ _ _ hb)
      · split
        · exact forall_mem_set _ _ _ _ h (Key.SetRateLimited_statsBalanced _ _ _ hb)
        · exact forall_mem_set _ _ _ _ h hb

theorem Pool.report_statsBalanced (p : Pool) (call : ReportCall)
    (h : ∀ k ∈ p.keys, k.statsBalanced) : ∀ k ∈ (p.report call).keys, k.statsBalanced := by
  cases call with
  | success now key pt ct model => exact Pool.ReportSuccess_statsBalanced p now key pt ct model h
  | failure now key err model => exact Pool.ReportFailure_statsBalanced p now key err model h

theorem Pool.reports_statsBalanced (calls : List ReportCall) :
    ∀ p : Pool, (∀ k ∈ p.keys, k.statsBalanced) →
      ∀ k ∈ (p.reports calls).keys, k.statsBalanced := by
  induction calls with
  | nil => intro p h; exact h
  | cons call rest ih =>
    intro p h
    exact ih (p.report call) (Pool.report_statsBalanced p call h)

theorem newPoolKeys_statsBalanced (uuid : Nat → String) (now : Time) (configs : List KeyConfig) :
    ∀ i, ∀ k ∈ newPoolKeys uuid now i configs, k.statsBalanced := by
  induction configs with
  | nil => intro i k hk; simp [newPoolKeys] at hk
  | cons cfg rest ih =>
    intro i k hk
    simp only [newPoolKeys, List.mem_cons] at hk
    rcases hk with rfl | hk
    · simp [Key.statsBalanced, newKeyFromConfig, wrapInt64]
    · exact ih (i + 1) k hk

theorem foldl_apply_keys (opts : List PoolOption) :
    ∀ p : Pool, (opts.foldl (fun p opt => opt.apply p) p).keys = p.keys := by
  induction opts with
  | nil => intro p; rfl
  | cons opt rest ih =>
    intro p
    rw [List.foldl_cons, ih]
    cases opt <;> rfl

theorem NewPool_keys (uuid : Nat → String) (now : Time) (configs : List KeyConfig)
    (opts : List PoolOption) : (NewPool uuid now configs opts).keys = newPoolKeys uuid now 0 configs := by
  simp [NewPool, foldl_apply_keys]

/-- C5. The equation requests = successes + errors on a credential's statistics, the sum
being the `int64` sum the program computes, is preserved by every `Pool.ReportSuccess` call
and every `Pool.ReportFailure` call (whatever the key pointer, error and model name), so it
holds for every credential of a pool built by `NewPool` after any sequence of report calls;
whenever the exact sum of successes and errors is a value of `int64`, the request counter is
that exact sum. -/
theorem Pool.statsBalanced_invariant :
    (∀ (p : Pool) (now : Time) (key : Option Nat) (promptTokens completionTokens : Int)
        (model : String), (∀ k ∈ p.keys, k.statsBalanced) →
        ∀ k ∈ (p.ReportSuccess now key promptTokens completionTokens model).keys,
          k.statsBalanced) ∧
    (∀ (p : Pool) (now : Time) (key : Option Nat) (err : GoError) (model : String),
        (∀ k ∈ p.keys, k.statsBalanced) →
        ∀ k ∈ (p.ReportFailure now key err model).keys, k.statsBalanced) ∧
    (∀ (uuid : Nat → String) (now : Time) (configs : List KeyConfig) (opts : List PoolOption)
        (calls : List ReportCall),
        ∀ k ∈ ((NewPool uuid now configs opts).reports calls).keys,
          k.Stats.RequestCount = wrapInt64 (k.Stats.SuccessCount + k.Stats.ErrorCount) ∧
          (inInt64 (k.Stats.SuccessCount + k.Stats.ErrorCount) →
            k.Stats.RequestCount = k.Stats.SuccessCount + k.Stats.ErrorCount)) := by
  refine ⟨Pool.ReportSuccess_statsBalanced, Pool.ReportFailure_statsBalanced, ?_⟩
  intro uuid now configs opts calls k hk
  have hb : k.statsBalanced := by
    revert k
    apply Pool.reports_statsBalanced calls
    rw [NewPool_keys]
    exact newPoolKeys_statsBalanced uuid now configs 0
  refine ⟨hb, fun h => ?_⟩
  rw [← wrapInt64_of_inInt64 _ h]
  exact hb

/-! ## Cooldown boundary -/

/-- C6, at the failing input: a pool whose only credential is enabled and RateLimited with
cooldown deadline 100, and `Pool.GetKey` with every clock reading at the instant 100. The deadline is not strictly
later than the time of the call, the sweep leaves the credential RateLimited with its
deadline, and `GetKey` returns it with no error, its status still RateLimited. -/
theorem Pool.GetKey_returns_rateLimited_at_deadline :
    coolingKey.Status = KeyStatusRateLimited ∧
    coolingKey.CooldownUntil = some 100 ∧
    (coolingPool.resetExpiredCooldowns 100).keys = [coolingKey] ∧
    (coolingPool.GetKey 100 (fun _ => 100) 100).1 = .ok coolingKey ∧
    (coolingPool.GetKey 100 (fun _ => 100) 100).2.keys = [coolingKey] := by
  refine ⟨rfl, rfl, ?_, ?_, ?_⟩
  · decide
  · rfl
  · decide

/-- Away from the boundary `Pool.GetKey`, with one instant for all its clock readings, does
not return a RateLimited credential: a returned credential whose status is RateLimited has
its cooldown deadline exactly at that instant. -/
theorem Pool.GetKey_rateLimited_only_at_deadline (p : Pool) (now : Time) (key : Key)
    (h : (p.GetKey now (fun _ => now) now).1 = .ok key)
    (hs : key.Status = KeyStatusRateLimited) :
    key.CooldownUntil = some now := by
  obtain ⟨hmem, hav⟩ := Pool.GetKey_ok p now key h
  simp only [Pool.resetExpiredCooldowns, List.mem_map] at hmem
  obtain ⟨k, _, rfl⟩ := hmem
  have har : ¬ KeyStatusActive = KeyStatusRateLimited := status_active_ne_rateLimited
  unfold resetExpiredCooldown at hs hav ⊢
  by_cases hr : k.Status = KeyStatusRateLimited
  · cases hc : k.CooldownUntil with
    | none => simp [hr, hc, har] at hs
    | some d =>
      by_cases hlt : d < now
      · simp [hr, hc, hlt, har] at hs
      · simp only [hr, hc, hlt, beq_self_eq_true, if_true, if_false] at hav ⊢
        have hnd : ¬ now < d := by
          intro hnd
          simp [Key.IsAvailable, hr, hc, hnd] at hav
        exact congrArg some (le_antisymm (not_lt.1 hnd) (not_lt.1 hlt))
  · simp [hr] at hs

/-! ## Selection strategies -/

/-- C7. For each of the four strategies (round-robin, random, least-used, weighted, in any
internal state) and every credential slice, `Select` returns nothing exactly when the slice
contains no available credential (non-nil, enabled, status not Disabled, and not RateLimited
with a deadline still in the future); otherwise the returned credential is an element of the
slice and is available, so a credential with enabled=false or in live cooldown is never
selected. -/
theorem Strategy.Select_available (s : Strategy) (now : Time) (keys : List (Option Key)) :
    ((s.Select now keys).1 = none ↔ ¬ ∃ k, some k ∈ keys ∧ k.availableAt now) ∧
    (∀ k, (s.Select now keys).1 = some k → some k ∈ keys ∧ k.availableAt now) ∧
    (∀ k, (s.Select now keys).1 = some k → ¬ (k.Enabled = false) ∧ ¬ k.liveCooldown now) := by
  have hspec := Strategy.Select_spec s now keys
  have hsel : ∀ k, (s.Select now keys).1 = some k → some k ∈ keys ∧ k.availableAt now := by
    intro k hk
    have := (mem_filterAvailable now keys k).1 (hspec.2 k hk)
    exact ⟨this.1, (Key.IsAvailable_iff k now).1 this.2⟩
  refine ⟨?_, hsel, ?_⟩
  · rw [hspec.1, filterAvailable_eq_nil_iff]
    constructor
    · rintro h ⟨k, hk, hav⟩
      have := (Key.IsAvailable_iff k now).2 hav
      rw [h k hk] at this
      exact absurd this (by simp)
    · intro h k hk
      by_contra hav
      have hav2 : k.IsAvailable now = true := by simpa using hav
      exact h ⟨k, hk, (Key.IsAvailable_iff k now).1 hav2⟩
  · intro k hk
    obtain ⟨_, hen, _, hlive⟩ := hsel k hk
    exact ⟨by simp [hen], hlive⟩

theorem leastUsedLoop_first_min (rest : List Key) :
    ∀ (a b : List Key) (minKey : Key),
      (∀ x ∈ a, minKey.Stats.RequestCount < x.Stats.RequestCount) →
      (∀ x ∈ b, minKey.Stats.RequestCount ≤ x.Stats.RequestCount) →
      ∃ l1 l2, a ++ minKey :: b ++ rest =
          l1 ++ leastUsedLoop minKey minKey.Stats.RequestCount rest :: l2 ∧
        (∀ x ∈ l1, (leastUsedLoop minKey minKey.Stats.RequestCount rest).Stats.RequestCount <
          x.Stats.RequestCount) ∧
        (∀ x ∈ l2, (leastUsedLoop minKey minKey.Stats.RequestCount rest).Stats.RequestCount ≤
          x.Stats.RequestCount) := by
  induction rest with
  | nil =>
    intro a b minKey ha hb
    exact ⟨a, b, by simp [leastUsedLoop], by simpa [leastUsedLoop] using ha,
      by simpa [leastUsedLoop] using hb⟩
  | cons key rest ih =>
    intro a b minKey ha hb
    unfold leastUsedLoop
    by_cases hlt : key.Stats.RequestCount < minKey.Stats.RequestCount
    · rw [if_pos hlt]
      have := ih (a ++ minKey :: b) [] key
        (by
          intro x hx
          simp only [List.mem_append, List.mem_cons] at hx
          rcases hx with hx | rfl | hx
          · exact lt_trans hlt (ha x hx)
          · exact hlt
          · exact lt_of_lt_of_le hlt (hb x hx))
        (by simp)
      simpa [List.append_assoc] using this
    · rw [if_neg hlt]
      have := ih a (b ++ [key]) minKey ha
        (by
          intro x hx
          simp only [List.mem_append, List.mem_singleton] at hx
          rcases hx with hx | rfl
          · exact hb x hx
          · exact not_lt.1 hlt)
      simpa [List.append_assoc] using this

theorem filterAvailable_split (now : Time) (keys : List (Option Key)) :
    ∀ (l1 : List Key) (r : Key) (l2 : List Key), filterAvailable now keys = l1 ++ r :: l2 →
      ∃ k1 k2, keys = k1 ++ some r :: k2 ∧ filterAvailable now k1 = l1 ∧
        filterAvailable now k2 = l2 := by
  induction keys with
  | nil => intro l1 r l2 h; simp [filterAvailable] at h
  | cons a t ih =>
    intro l1 r l2 h
    cases a with
    | none =>
      simp only [filterAvailable] at h
      obtain ⟨k1, k2, hk, h1, h2⟩ := ih l1 r l2 h
      exact ⟨none :: k1, k2, by simp [hk], by simpa [filterAvailable] using h1, h2⟩
    | some key =>
      by_cases hav : key.IsAvailable now = true
      · simp only [filterAvailable, hav, if_true] at h
        cases l1 with
        | nil =>
          simp only [List.nil_append, List.cons.injEq] at h
          exact ⟨[], t, by simp [h.1], by simp [filterAvailable], h.2⟩
        | cons x l1 =>
          simp only [List.cons_append, List.cons.injEq] at h
          obtain ⟨k1, k2, hk, h1, h2⟩ := ih l1 r l2 h.2
          exact ⟨some key :: k1, k2, by simp [hk], by simp [filterAvailable, hav, h1, ← h.1], h2⟩
      · have hf : key.IsAvailable now = false := by simpa using hav
        simp only [filterAvailable, hf, Bool.false_eq_true, if_false] at h
        obtain ⟨k1, k2, hk, h1, h2⟩ := ih l1 r l2 h
        exact ⟨some key :: k1, k2, by simp [hk], by simp [filterAvailable, hf, h1], h2⟩

/-- C9. For every credential slice with at least one available credential,
`LeastUsedStrategy.Select` returns an available credential `r` of the slice whose request
count is minimal among the available ones, and among those with the minimal count it returns
the one that occurs first in the slice: every available credential before `r` has a strictly
larger request count, every available credential after it a count at least as large. -/
theorem LeastUsedStrategy.Select_first_minimum (now : Time) (keys : List (Option Key))
    (h : ∃ k, some k ∈ keys ∧ k.availableAt now) :
    ∃ r k1 k2, LeastUsedStrategy.Select now keys = some r ∧
      keys = k1 ++ some r :: k2 ∧
      r.availableAt now ∧
      (∀ x, some x ∈ k1 → x.availableAt now → r.Stats.RequestCount < x.Stats.RequestCount) ∧
      (∀ x, some x ∈ k2 → x.availableAt now → r.Stats.RequestCount ≤ x.Stats.RequestCount) ∧
      (∀ x, some x ∈ keys → x.availableAt now → r.Stats.RequestCount ≤ x.Stats.RequestCount) := by
  obtain ⟨k0, hk0, hav0⟩ := h
  have hmem0 : k0 ∈ filterAvailable now keys :=
    (mem_filterAvailable now keys k0).2 ⟨hk0, (Key.IsAvailable_iff k0 now).2 hav0⟩
  cases hf : filterAvailable now keys with
  | nil => rw [hf] at hmem0; exact absurd hmem0 (List.not_mem_nil _)
  | cons minKey rest =>
    obtain ⟨l1, l2, hsplit, hl1, hl2⟩ := leastUsedLoop_first_min rest [] [] minKey
      (by simp) (by simp)
    simp only [List.nil_append] at hsplit
    obtain ⟨k1, k2, hkeys, h1, h2⟩ := filterAvailable_split now keys l1 _ l2 (hf.trans hsplit)
    have hr : leastUsedLoop minKey minKey.Stats.RequestCount rest ∈ filterAvailable now keys := by
      rw [hf]; exact leastUsedLoop_mem _ _ _
    have hbefore : ∀ x, some x ∈ k1 → x.availableAt now →
        (leastUsedLoop minKey minKey.Stats.RequestCount rest).Stats.RequestCount <
          x.Stats.RequestCount := by
      intro x hx hav
      apply hl1
      rw [← h1]
      exact (mem_filterAvailable now k1 x).2 ⟨hx, (Key.IsAvailable_iff x now).2 hav⟩
    have hafter : ∀ x, some x ∈ k2 → x.availableAt now →
        (leastUsedLoop minKey minKey.Stats.RequestCount rest).Stats.RequestCount ≤
          x.Stats.RequestCount := by
      intro x hx hav
      apply hl2
      rw [← h2]
      exact (mem_filterAvailable now k2 x).2 ⟨hx, (Key.IsAvailable_iff x now).2 hav⟩
    refine ⟨_, k1, k2, by simp [LeastUsedStrategy.Select, hf], hkeys,
      (Key.IsAvailable_iff _ now).1 ((mem_filterAvailable now keys _).1 hr).2, hbefore, hafter, ?_⟩
    intro x hx hav
    rw [hkeys] at hx
    simp only [List.mem_append, List.mem_cons, Option.some.injEq] at hx
    rcases hx with hx | rfl | hx
    · exact le_of_lt (hbefore x hx hav)
    · exact le_refl _
    · exact hafter x hx hav

/-- C9, witness: a used key followed by two unused ones. -/
theorem LeastUsedStrategy.Select_first_minimum_witness :
    ∃ r k1 k2, LeastUsedStrategy.Select 0 [some usedKey, some keyA, some keyB] = some r ∧
      [some usedKey, some keyA, some keyB] = k1 ++ some r :: k2 ∧
      r.availableAt 0 ∧
      (∀ x, some x ∈ k1 → x.availableAt 0 → r.Stats.RequestCount < x.Stats.RequestCount) ∧
      (∀ x, some x ∈ k2 → x.availableAt 0 → r.Stats.RequestCount ≤ x.Stats.RequestCount) ∧
      (∀ x, some x ∈ [some usedKey, some keyA, some keyB] → x.availableAt 0 →
        r.Stats.RequestCount ≤ x.Stats.RequestCount) :=
  LeastUsedStrategy.Select_first_minimum 0 [some usedKey, some keyA, some keyB]
    ⟨keyA, by decide, (Key.IsAvailable_iff keyA 0).1 (by decide)⟩

/-! ## Round-robin -/

theorem filterAvailable_map_some (now : Time) (ks : List Key)
    (h : ∀ k ∈ ks, k.IsAvailable now = true) : filterAvailable now (ks.map some) = ks := by
  induction ks with
  | nil => rfl
  | cons k rest ih =>
    have hk := h k (List.mem_cons_self _ _)
    simp only [List.map_cons, filterAvailable, hk, if_true]
    rw [ih (fun x hx => h x (List.mem_cons_of_mem _ hx))]

theorem uint64_add_one_sub_one (i : Nat) : ((i + 1) % 2 ^ 64 + 2 ^ 64 - 1) % 2 ^ 64 = i % 2 ^ 64 := by
  have h : (2 : Nat) ^ 64 = 18446744073709551616 := by norm_num
  rw [h]
  omega

theorem RoundRobinStrategy.Select_all_available (s : RoundRobinStrategy) (now : Time)
    (ks : List Key) (hne : ks ≠ []) (h : ∀ k ∈ ks, k.IsAvailable now = true) :
    s.Select now (ks.map some) =
      (ks[s.index % 2 ^ 64 % ks.length]?, { index := (s.index + 1) % 2 ^ 64 }) := by
  have hlen : ¬ ks.length = 0 := fun h0 => hne (List.length_eq_zero.1 h0)
  unfold RoundRobinStrategy.Select
  simp only [filterAvailable_map_some now ks h, uint64_add_one_sub_one]
  rw [if_neg hlen]

theorem uint64_add_succ (i j : Nat) : ((i + 1) % 2 ^ 64 + j) % 2 ^ 64 = (i + (j + 1)) % 2 ^ 64 := by
  have h : (2 : Nat) ^ 64 = 18446744073709551616 := by norm_num
  rw [h]
  omega

theorem RoundRobinStrategy.selectN_all_available (ks : List Key) (hne : ks ≠ [])
    (times : List Time) :
    ∀ s : RoundRobinStrategy, (∀ t ∈ times, ∀ k ∈ ks, k.IsAvailable t = true) →
      (s.selectN (ks.map some) times).1 =
        (List.range times.length).map
          (fun j => ks[(s.index + j) % 2 ^ 64 % ks.length]?) := by
  induction times with
  | nil => intro s _; rfl
  | cons now rest ih =>
    intro s hav
    have hnow := hav now (List.mem_cons_self _ _)
    have hrest : ∀ t ∈ rest, ∀ k ∈ ks, k.IsAvailable t = true :=
      fun t ht => hav t (List.mem_cons_of_mem _ ht)
    simp only [RoundRobinStrategy.selectN, RoundRobinStrategy.Select_all_available s now ks hne hnow,
      List.length_cons, List.range_succ_eq_map, List.map_cons, List.map_map, Nat.add_zero]
    rw [ih _ hrest]
    congr 1
    apply List.map_congr_left
    intro j _
    simp only [Function.comp, uint64_add_succ, Nat.succ_eq_add_one]

theorem range_map_getElem? {α : Type} (l : List α) :
    (List.range l.length).map (fun i => l[i]?) = l.map some := by
  apply List.ext_getElem?
  intro i
  by_cases hi : i < l.length
  · simp [List.getElem?_map, List.getElem?_range hi, hi]
  · have hge : l.length ≤ i := Nat.le_of_not_lt hi
    rw [List.getElem?_eq_none (by simpa using hge), List.getElem?_eq_none (by simpa using hge)]

theorem range_map_add_mod_perm (a n : Nat) :
    ((List.range n).map (fun j => (a + j) % n)).Perm (List.range n) := by
  apply List.Subperm.perm_of_length_le
  · apply List.subperm_of_subset
    · apply List.Nodup.map_on _ (List.nodup_range n)
      intro x hx y hy hxy
      rw [List.mem_range] at hx hy
      have h1 : x % n = y % n := Nat.ModEq.add_left_cancel' a hxy
      rwa [Nat.mod_eq_of_lt hx, Nat.mod_eq_of_lt hy] at h1
    · intro x hx
      simp only [List.mem_map, List.mem_range] at hx
      obtain ⟨j, hj, rfl⟩ := hx
      exact List.mem_range.2 (Nat.mod_lt _ (by omega))
  · simp

theorem roundRobin_index_no_wrap (c n j : Nat) (hj : j < n)
    (h : c % 2 ^ 64 + n ≤ 2 ^ 64 ∨ n ∣ 2 ^ 64) :
    (c + j) % 2 ^ 64 % n = (c % 2 ^ 64 + j) % n := by
  rcases h with h | h
  · have h1 : (c + j) % 2 ^ 64 = c % 2 ^ 64 + j := by
      rw [Nat.add_mod, Nat.mod_eq_of_lt (a := j) (by omega)]
      exact Nat.mod_eq_of_lt (by omega)
    rw [h1]
  · rw [Nat.mod_mod_of_dvd _ h, Nat.add_mod c j n, Nat.add_mod (c % 2 ^ 64) j n,
      Nat.mod_mod_of_dvd _ h]

/-- C8, as amended. For every slice of `N >= 1` credentials that are all available at every
call and every value `c` of the round-robin counter such that the `N` calls do not wrap it
(`c + N <= 2 ^ 64`) or `N` divides `2 ^ 64`, `N` consecutive `RoundRobinStrategy.Select`
calls return each of the `N` credentials exactly once (the returned keys are a permutation
of the slice); and starting from a fresh strategy the `j`-th call, for `j < 2 ^ 64`, returns
the credential at index `j mod N`. -/
theorem RoundRobinStrategy.Select_visits_each_once (s : RoundRobinStrategy) (ks : List Key)
    (times : List Time) (hN : ks ≠ [])
    (hav : ∀ t ∈ times, ∀ k ∈ ks, k.IsAvailable t = true) :
    ((s.index % 2 ^ 64 + ks.length ≤ 2 ^ 64 ∨ ks.length ∣ 2 ^ 64) →
      times.length = ks.length →
      (s.selectN (ks.map some) times).1.Perm (ks.map some)) ∧
    (∀ j, j < times.length → j < 2 ^ 64 →
      (NewRoundRobinStrategy.selectN (ks.map some) times).1[j]? = some ks[j % ks.length]?) := by
  constructor
  · intro hwrap hlen
    rw [RoundRobinStrategy.selectN_all_available ks hN times s hav, hlen]
    have hmap : (List.range ks.length).map (fun j => ks[(s.index + j) % 2 ^ 64 % ks.length]?) =
        ((List.range ks.length).map (fun j => (s.index % 2 ^ 64 + j) % ks.length)).map
          (fun i => ks[i]?) := by
      rw [List.map_map]
      apply List.map_congr_left
      intro j hj
      simp only [Function.comp]
      rw [roundRobin_index_no_wrap s.index ks.length j (List.mem_range.1 hj) hwrap]
    rw [hmap, ← range_map_getElem? ks]
    exact (range_map_add_mod_perm _ _).map _
  · intro j hj hj64
    rw [RoundRobinStrategy.selectN_all_available ks hN times _ hav]
    simp only [NewRoundRobinStrategy, Nat.zero_add, List.getElem?_map, List.getElem?_range hj,
      Option.map_some', Nat.mod_eq_of_lt hj64]

/-- C8, witness: three available credentials, three calls, counter 7. -/
theorem RoundRobinStrategy.Select_visits_each_once_witness :
    (({ index := 7 } : RoundRobinStrategy).selectN ([keyA, keyB, keyC].map some) [0, 0, 0]).1.Perm
      ([keyA, keyB, keyC].map some) :=
  (RoundRobinStrategy.Select_visits_each_once { index := 7 } [keyA, keyB, keyC] [0, 0, 0]
    (by decide) (by decide)).1 (Or.inl (by decide)) rfl

/-- C8, counterexample: three credentials that are all available, and three consecutive
calls starting at the counter value `2 ^ 64 - 1`. The calls return the first credential
twice, the second once and the third never, because the counter wraps from `2 ^ 64 - 1`
(index 0 modulo 3) to 0 (index 0 again). -/
theorem RoundRobinStrategy.Select_wrap_repeats :
    (∀ k ∈ [keyA, keyB, keyC], k.IsAvailable 0 = true) ∧
    (({ index := 2 ^ 64 - 1 } : RoundRobinStrategy).selectN
        [some keyA, some keyB, some keyC] [0, 0, 0]).1 = [some keyA, some keyA, some keyB] ∧
    ¬ (({ index := 2 ^ 64 - 1 } : RoundRobinStrategy).selectN
        [some keyA, some keyB, some keyC] [0, 0, 0]).1.Perm [some keyA, some keyB, some keyC] := by
  have hres : (({ index := 2 ^ 64 - 1 } : RoundRobinStrategy).selectN
      [some keyA, some keyB, some keyC] [0, 0, 0]).1 = [some keyA, some keyA, some keyB] := by
    rfl
  refine ⟨by decide, hres, ?_⟩
  rw [hres]
  intro h
  have hmem : some keyC ∈ [some keyA, some keyA, some keyB] := h.symm.subset (by simp)
  revert hmem
  decide

/-! ## Dispatch client -/

/-- C10. In both `Client.ChatCompletion` and `Client.ChatCompletionStream`, on every path
where the upstream call is made and fails (transport error, or an HTTP status other than
200), the call returns an error and the pool receives, after `GetKey`, exactly one
`ReportFailure` for the acquired credential, then exactly one `ReleaseKey` for it, and no
`ReportSuccess`: `ReportFailure` precedes `ReleaseKey`. -/
theorem Client.reportFailure_before_release (u : Upstream) (req : ChatCompletionRequest)
    (key : Key) (geminiReq : GeminiRequest)
    (hkey : u.getKey = .ok key) (hconv : u.convertRequest = .ok geminiReq)
    (hmarshal : u.marshalErr = .nil) (hnew : u.newRequestErr = .nil)
    (hfail : (∃ err, u.response = .error err) ∨
      (∃ resp, u.response = .ok resp ∧ resp.StatusCode ≠ 200)) :
    (∃ e err, Client.ChatCompletion u (some req) =
      (.error e, [.GetKey, .ReportFailure key err req.Model, .ReleaseKey key])) ∧
    (∃ e err, Client.ChatCompletionStream u (some req) =
      (.error e, [.GetKey, .ReportFailure key err req.Model, .ReleaseKey key])) := by
  rcases hfail with ⟨err, hresp⟩ | ⟨resp, hresp, hstatus⟩
  · constructor
    · exact ⟨Client.wrapHTTPError err, Client.wrapHTTPError err, by
        simp [Client.ChatCompletion, Client.chatCompletionBody, Client.doRequest, hkey, hconv,
          hmarshal, hnew, hresp]⟩
    · exact ⟨Client.wrapHTTPError err, err, by
        simp [Client.ChatCompletionStream, hkey, hconv, hmarshal, hnew, hresp]⟩
  · constructor
    · exact ⟨.app (Client.parseErrorResponse resp) .nil, .app (Client.parseErrorResponse resp) .nil,
        by
          simp [Client.ChatCompletion, Client.chatCompletionBody, Client.doRequest, hkey, hconv,
            hmarshal, hnew, hresp, hstatus]⟩
    · exact ⟨.app (Client.parseErrorResponse resp) .nil, .app (Client.parseErrorResponse resp) .nil,
        by simp [Client.ChatCompletionStream, hkey, hconv, hmarshal, hnew, hresp, hstatus]⟩

/-- C10, witness: an upstream answer with HTTP status 429. -/
theorem Client.reportFailure_before_release_witness :
    (∃ e err, Client.ChatCompletion rateLimitedUpstream (some helloRequest) =
      (.error e, [.GetKey, .ReportFailure keyA err "gpt-4", .ReleaseKey keyA])) ∧
    (∃ e err, Client.ChatCompletionStream rateLimitedUpstream (some helloRequest) =
      (.error e, [.GetKey, .ReportFailure keyA err "gpt-4", .ReleaseKey keyA])) :=
  Client.reportFailure_before_release rateLimitedUpstream helloRequest keyA {} rfl rfl rfl rfl
    (Or.inr ⟨_, rfl, by decide⟩)

/-! ## Upstream error mapping -/

/-- C12, at the failing input: an upstream answer with HTTP status 503 whose body parses as
an error envelope with a non-zero code. `Client.parseErrorResponse` takes the envelope path,
`mapGeminiError` has no case for 503, and the result is an upstream error (code 50201, HTTP
502); the status-only path `mapStatusCodeToError` maps the same status to a
service-unavailable error (code 50301, HTTP 503). -/
theorem Client.parseErrorResponse_503_envelope :
    Client.parseErrorResponse overloadedResponse = NewUpstreamError "The model is overloaded." ∧
    (Client.parseErrorResponse overloadedResponse).Code = 50201 ∧
    (Client.parseErrorResponse overloadedResponse).ErrType = "upstream_error" ∧
    Client.mapStatusCodeToError 503 overloadedResponse.body = NewServiceUnavailableError "" ∧
    (Client.mapStatusCodeToError 503 overloadedResponse.body).Code = 50301 := by
  refine ⟨?_, ?_, ?_, ?_, ?_⟩ <;> decide

/-! ## Response conversion -/

theorem MapFinishReason_ne_empty (geminiReason : String) : MapFinishReason geminiReason ≠ "" := by
  unfold MapFinishReason
  split
  · decide
  · split
    · decide
    · split <;> decide

theorem firstText_eq_find (parts : List GeminiPart) :
    firstText parts = ((parts.find? (fun p => decide (p.Text ≠ ""))).map (·.Text)).getD "" := by
  induction parts with
  | nil => rfl
  | cons part rest ih =>
    unfold firstText
    by_cases h : part.Text = ""
    · simp [h, List.find?, ih]
    · simp [h, List.find?]

/-- C18. For every upstream candidate, the translated choice has role "assistant", the
candidate's index, content equal to the candidate's first text part, that is the text of the
first part whose text is not empty (the empty string when the candidate has no content or no
such part), and finish_reason "length" when the candidate's reason is MAX_TOKENS,
"content_filter" when it is SAFETY or RECITATION, and "stop" for every other reason string,
the empty one included. -/
theorem convertCandidate_fields (candidate : GeminiCandidate) :
    (convertCandidate candidate).Message.Role = "assistant" ∧
    (convertCandidate candidate).Index = candidate.Index ∧
    (convertCandidate candidate).Message.Content =
      (match candidate.Content with
       | none => ""
       | some content =>
         ((content.Parts.find? (fun p => decide (p.Text ≠ ""))).map (·.Text)).getD "") ∧
    (candidate.FinishReason = "MAX_TOKENS" →
      (convertCandidate candidate).FinishReason = "length") ∧
    (candidate.FinishReason = "SAFETY" ∨ candidate.FinishReason = "RECITATION" →
      (convertCandidate candidate).FinishReason = "content_filter") ∧
    (candidate.FinishReason ≠ "MAX_TOKENS" ∧ candidate.FinishReason ≠ "SAFETY" ∧
      candidate.FinishReason ≠ "RECITATION" →
      (convertCandidate candidate).FinishReason = "stop") := by
  refine ⟨rfl, rfl, ?_, ?_, ?_, ?_⟩
  · unfold convertCandidate GeminiCandidate.GetTextContent
    cases hc : candidate.Content with
    | none => rfl
    | some content => simp [firstText_eq_find]
  · intro h
    simp [convertCandidate, MapFinishReason, h, GeminiFinishReasonStop,
      GeminiFinishReasonMaxTokens]
  · intro h
    rcases h with h | h <;>
      simp [convertCandidate, MapFinishReason, h, GeminiFinishReasonStop,
        GeminiFinishReasonMaxTokens, GeminiFinishReasonSafety, GeminiFinishReasonRecitation]
  · rintro ⟨h1, h2, h3⟩
    simp only [convertCandidate, MapFinishReason, GeminiFinishReasonStop,
      GeminiFinishReasonMaxTokens, GeminiFinishReasonSafety, GeminiFinishReasonRecitation, h1, h2,
      h3, if_false, or_self, ite_self]

theorem Client.chatCompletionBody_ok_model (u : Upstream) (req : ChatCompletionRequest)
    (key : Key) (r : ChatCompletionResponse)
    (h : (Client.chatCompletionBody u req key).1 = .ok r) : r.Model = req.Model := by
  unfold Client.chatCompletionBody at h
  split at h
  · simp at h
  · split at h
    · simp at h
    · rename_i geminiResp _
      split at h
      · simp at h
      · rename_i openAIResp hconv
        simp only [Except.ok.injEq] at h
        subst h
        unfold ConvertGeminiResponse at hconv
        split at hconv
        · simp at hconv
        · simp only [Except.ok.injEq] at hconv
          rw [← hconv]

/-- C16. For every upstream response and requested model name `m`, `ConvertGeminiResponse`
returns an error if and only if the response has zero candidates, and the error is then the
upstream error (code 50201); otherwise it returns object "chat.completion", model equal to
`m`, and exactly one choice per candidate, in candidate order. The blocking dispatch passes
the requested name `req.Model`, so a response it returns carries the original name. -/
theorem ConvertGeminiResponse_cases (id : String) (created : Int) (resp : GeminiResponse)
    (m : String) :
    ((∃ err, ConvertGeminiResponse id created resp m = .error err) ↔ resp.Candidates = []) ∧
    (resp.Candidates = [] →
      ConvertGeminiResponse id created resp m =
        .error (.app (NewUpstreamError "No candidates in Gemini response") .nil) ∧
      (NewUpstreamError "No candidates in Gemini response").Code = 50201) ∧
    (resp.Candidates ≠ [] →
      ∃ r, ConvertGeminiResponse id created resp m = .ok r ∧
        r.Object = "chat.completion" ∧ r.Model = m ∧
        r.Choices = resp.Candidates.map convertCandidate ∧
        r.Choices.length = resp.Candidates.length) ∧
    (∀ (u : Upstream) (req : ChatCompletionRequest) (r : ChatCompletionResponse),
      (Client.ChatCompletion u (some req)).1 = .ok r → r.Model = req.Model) := by
  have hlen : resp.Candidates.length = 0 ↔ resp.Candidates = [] := List.length_eq_zero
  refine ⟨?_, ?_, ?_, ?_⟩
  · unfold ConvertGeminiResponse
    by_cases h : resp.Candidates = []
    · simp [h]
    · have h0 : ¬ resp.Candidates.length = 0 := fun h0 => h (hlen.1 h0)
      simp [h, h0]
  · intro h
    refine ⟨?_, by decide⟩
    simp [ConvertGeminiResponse, h]
  · intro h
    have h0 : ¬ resp.Candidates.length = 0 := fun h0 => h (hlen.1 h0)
    unfold ConvertGeminiResponse
    rw [if_neg h0]
    exact ⟨_, rfl, rfl, rfl, rfl, by simp⟩
  · intro u req r h
    unfold Client.ChatCompletion at h
    simp only at h
    cases hk : u.getKey with
    | error err => rw [hk] at h; simp at h
    | ok key =>
      rw [hk] at h
      simp only at h
      exact Client.chatCompletionBody_ok_model u req key r h

/-- C17, as amended. For every upstream response that carries usage metadata and is
translated, the translated usage has prompt_tokens = promptTokenCount, completion_tokens =
candidatesTokenCount and total_tokens = totalTokenCount, the total reported upstream; it
equals prompt_tokens + completion_tokens exactly when the upstream total is that sum. -/
theorem ConvertGeminiResponse_usage (id : String) (created : Int) (resp : GeminiResponse)
    (m : String) (usage : GeminiUsageMetadata) (r : ChatCompletionResponse)
    (husage : resp.UsageMetadata = some usage)
    (hr : ConvertGeminiResponse id created resp m = .ok r) :
    r.Usage.PromptTokens = usage.PromptTokenCount ∧
    r.Usage.CompletionTokens = usage.CandidatesTokenCount ∧
    r.Usage.TotalTokens = usage.TotalTokenCount ∧
    (r.Usage.TotalTokens = r.Usage.PromptTokens + r.Usage.CompletionTokens ↔
      usage.TotalTokenCount = usage.PromptTokenCount + usage.CandidatesTokenCount) := by
  unfold ConvertGeminiResponse at hr
  split at hr
  · simp at hr
  · simp only [Except.ok.injEq] at hr
    subst hr
    simp [husage, GeminiUsageMetadata.ToOpenAIUsage]

/-- C17, witness: the response `thinkingResponse` and its translation. -/
theorem ConvertGeminiResponse_usage_witness :
    thinkingTranslation.Usage.PromptTokens = 1 ∧
    thinkingTranslation.Usage.CompletionTokens = 1 ∧
    thinkingTranslation.Usage.TotalTokens = 5 ∧
    (thinkingTranslation.Usage.TotalTokens =
        thinkingTranslation.Usage.PromptTokens + thinkingTranslation.Usage.CompletionTokens ↔
      (5 : Int) = 1 + 1) :=
  ConvertGeminiResponse_usage "chatcmpl-0" 0 thinkingResponse "gpt-4"
    { PromptTokenCount := 1, CandidatesTokenCount := 1, TotalTokenCount := 5 }
    thinkingTranslation rfl rfl

/-- C17, counterexample: an upstream response whose usage metadata reports
promptTokenCount 1, candidatesTokenCount 1 and totalTokenCount 5. The translated usage has
prompt_tokens 1, completion_tokens 1 and total_tokens 5, which is not their sum. -/
theorem ConvertGeminiResponse_total_not_sum :
    ∃ r, ConvertGeminiResponse "chatcmpl-0" 0 thinkingResponse "gpt-4" = .ok r ∧
      r.Usage.PromptTokens = 1 ∧ r.Usage.CompletionTokens = 1 ∧ r.Usage.TotalTokens = 5 ∧
      r.Usage.TotalTokens ≠ r.Usage.PromptTokens + r.Usage.CompletionTokens := by
  refine ⟨_, rfl, ?_, ?_, ?_, ?_⟩ <;> decide

theorem convertStreamCandidate_fields (candidate : GeminiCandidate) :
    (convertStreamCandidate candidate).Index = candidate.Index ∧
    (convertStreamCandidate candidate).Delta.Content = candidate.GetTextContent ∧
    (convertStreamCandidate candidate).Delta.Role = "" ∧
    ((convertStreamCandidate candidate).FinishReason = "" ↔ candidate.FinishReason = "") ∧
    (candidate.FinishReason ≠ "" →
      (convertStreamCandidate candidate).FinishReason =
        MapFinishReason candidate.FinishReason) := by
  refine ⟨rfl, ?_, rfl, ?_, ?_⟩
  · unfold convertStreamCandidate GeminiCandidate.GetTextContent
    cases candidate.Content <;> rfl
  · unfold convertStreamCandidate
    by_cases h : candidate.FinishReason = ""
    · simp [h]
    · simp [h, MapFinishReason_ne_empty]
  · intro h
    simp [convertStreamCandidate, h]

/-- C19. `ConvertGeminiStreamChunk` never returns an error: for a chunk with zero candidates
it returns object "chat.completion.chunk" with exactly one choice whose delta and
finish_reason are empty; for a chunk with candidates it returns one choice per candidate, in
order, whose delta content is the candidate's text and whose finish_reason is empty exactly
when the candidate's finishReason is empty, and is the mapped reason otherwise. -/
theorem ConvertGeminiStreamChunk_cases (id : String) (created : Int) (chunk : GeminiResponse)
    (model : String) (index : Int) :
    ∃ r, ConvertGeminiStreamChunk id created chunk model index = .ok r ∧
      r.Object = "chat.completion.chunk" ∧
      (chunk.Candidates = [] →
        r.Choices = [{ Index := index, Delta := { Role := "", Content := "" },
                       FinishReason := "" }]) ∧
      (chunk.Candidates ≠ [] →
        r.Choices.length = chunk.Candidates.length ∧
        List.Forall₂
          (fun candidate choice =>
            choice.Index = candidate.Index ∧
            choice.Delta.Content = candidate.GetTextContent ∧
            (choice.FinishReason = "" ↔ candidate.FinishReason = "") ∧
            (candidate.FinishReason ≠ "" →
              choice.FinishReason = MapFinishReason candidate.FinishReason))
          chunk.Candidates r.Choices) := by
  unfold ConvertGeminiStreamChunk
  by_cases h : chunk.Candidates = []
  · simp [h]
  · have h0 : ¬ chunk.Candidates.length = 0 := fun h0 => h (List.length_eq_zero.1 h0)
    rw [if_neg h0]
    refine ⟨_, rfl, rfl, fun hc => absurd hc h, fun _ => ⟨by simp, ?_⟩⟩
    simp only
    rw [List.forall₂_map_right_iff]
    apply List.forall₂_same.2
    intro candidate _
    have hf := convertStreamCandidate_fields candidate
    exact ⟨hf.1, hf.2.1, hf.2.2.2.1, hf.2.2.2.2⟩

/-! ## Model settings overlay -/

theorem ApplyModelSettings_some_systemInstruction (r : GeminiRequest)
    (st : ModelSettingsConfig) :
    (ApplyModelSettings r (some st)).SystemInstruction =
      match r.SystemInstruction with
      | some v => some v
      | none =>
        if st.SystemPrompt ≠ "" then some { Parts := [{ Text := st.SystemPrompt }] } else none := by
  simp only [ApplyModelSettings]
  cases hsys : r.SystemInstruction with
  | none => by_cases hp : st.SystemPrompt = "" <;> simp [applySystemPrompt, hsys, hp]
  | some v => simp [applySystemPrompt, hsys]

theorem applySystemPrompt_GenerationConfig (st : ModelSettingsConfig) (r : GeminiRequest) :
    (applySystemPrompt st r).GenerationConfig = r.GenerationConfig := by
  unfold applySystemPrompt
  split <;> rfl

theorem applyTemperature_fields (st : ModelSettingsConfig) (cfg : GeminiGenerationConfig) :
    (applyTemperature st cfg).Temperature =
        (match cfg.Temperature with
         | some v => some v
         | none => st.Temperature) ∧
      (applyTemperature st cfg).TopP = cfg.TopP ∧
      (applyTemperature st cfg).TopK = cfg.TopK ∧
      (applyTemperature st cfg).MaxOutputTokens = cfg.MaxOutputTokens := by
  unfold applyTemperature
  cases h : cfg.Temperature <;> cases h2 : st.Temperature <;> simp [h]

theorem applyTopP_fields (st : ModelSettingsConfig) (cfg : GeminiGenerationConfig) :
    (applyTopP st cfg).Temperature = cfg.Temperature ∧
      (applyTopP st cfg).TopP =
        (match cfg.TopP with
         | some v => some v
         | none => st.TopP) ∧
      (applyTopP st cfg).TopK = cfg.TopK ∧
      (applyTopP st cfg).MaxOutputTokens = cfg.MaxOutputTokens := by
  unfold applyTopP
  cases h : cfg.TopP <;> cases h2 : st.TopP <;> simp [h]

theorem applyTopK_fields (st : ModelSettingsConfig) (cfg : GeminiGenerationConfig) :
    (applyTopK st cfg).Temperature = cfg.Temperature ∧
      (applyTopK st cfg).TopP = cfg.TopP ∧
      (applyTopK st cfg).TopK =
        (match cfg.TopK with
         | some v => some v
         | none => st.TopK) ∧
      (applyTopK st cfg).MaxOutputTokens = cfg.MaxOutputTokens := by
  unfold applyTopK
  cases h : cfg.TopK <;> cases h2 : st.TopK <;> simp [h]

theorem applyMaxOutputTokens_fields (st : ModelSettingsConfig)
    (cfg : GeminiGenerationConfig) :
    (applyMaxOutputTokens st cfg).Temperature = cfg.Temperature ∧
      (applyMaxOutputTokens st cfg).TopP = cfg.TopP ∧
      (applyMaxOutputTokens st cfg).TopK = cfg.TopK ∧
      (applyMaxOutputTokens st cfg).MaxOutputTokens =
        (match cfg.MaxOutputTokens with
         | some v => some v
         | none => st.MaxOutputTokens) := by
  unfold applyMaxOutputTokens
  cases h : cfg.MaxOutputTokens <;> cases h2 : st.MaxOutputTokens <;> simp [h]

theorem applyThinkingLevel_fields (st : ModelSettingsConfig) (cfg : GeminiGenerationConfig) :
    (applyThinkingLevel st cfg).Temperature = cfg.Temperature ∧
      (applyThinkingLevel st cfg).TopP = cfg.TopP ∧
      (applyThinkingLevel st cfg).TopK = cfg.TopK ∧
      (applyThinkingLevel st cfg).MaxOutputTokens = cfg.MaxOutputTokens := by
  unfold applyThinkingLevel
  split
  · split <;> exact ⟨rfl, rfl, rfl, rfl⟩
  · exact ⟨rfl, rfl, rfl, rfl⟩

theorem applyMediaResolution_fields (st : ModelSettingsConfig)
    (cfg : GeminiGenerationConfig) :
    (applyMediaResolution st cfg).Temperature = cfg.Temperature ∧
      (applyMediaResolution st cfg).TopP = cfg.TopP ∧
      (applyMediaResolution st cfg).TopK = cfg.TopK ∧
      (applyMediaResolution st cfg).MaxOutputTokens = cfg.MaxOutputTokens := by
  unfold applyMediaResolution
  split
  · split <;> exact ⟨rfl, rfl, rfl, rfl⟩
  · exact ⟨rfl, rfl, rfl, rfl⟩

theorem ApplyModelSettings_some_temperature (r : GeminiRequest) (st : ModelSettingsConfig) :
    (ApplyModelSettings r (some st)).temperature =
      match r.temperature with
      | some v => some v
      | none => st.Temperature := by
  simp only [GeminiRequest.temperature, ApplyModelSettings, Option.bind,
    applySystemPrompt_GenerationConfig, (applyMediaResolution_fields _ _).1,
    (applyThinkingLevel_fields _ _).1, (applyMaxOutputTokens_fields _ _).1,
    (applyTopK_fields _ _).1, (applyTopP_fields _ _).1, (applyTemperature_fields _ _).1]
  cases r.GenerationConfig <;> rfl

theorem ApplyModelSettings_some_topP (r : GeminiRequest) (st : ModelSettingsConfig) :
    (ApplyModelSettings r (some st)).topP =
      match r.topP with
      | some v => some v
      | none => st.TopP := by
  simp only [GeminiRequest.topP, ApplyModelSettings, Option.bind,
    applySystemPrompt_GenerationConfig, (applyMediaResolution_fields _ _).2.1,
    (applyThinkingLevel_fields _ _).2.1, (applyMaxOutputTokens_fields _ _).2.1,
    (applyTopK_fields _ _).2.1, (applyTopP_fields _ _).2.1, (applyTemperature_fields _ _).2.1]
  cases r.GenerationConfig <;> rfl

theorem ApplyModelSettings_some_topK (r : GeminiRequest) (st : ModelSettingsConfig) :
    (ApplyModelSettings r (some st)).topK =
      match r.topK with
      | some v => some v
      | none => st.TopK := by
  simp only [GeminiRequest.topK, ApplyModelSettings, Option.bind,
    applySystemPrompt_GenerationConfig, (applyMediaResolution_fields _ _).2.2.1,
    (applyThinkingLevel_fields _ _).2.2.1, (applyMaxOutputTokens_fields _ _).2.2.1,
    (applyTopK_fields _ _).2.2.1, (applyTopP_fields _ _).2.2.1,
    (applyTemperature_fields _ _).2.2.1]
  cases r.GenerationConfig <;> rfl

theorem ApplyModelSettings_some_maxOutputTokens (r : GeminiRequest)
    (st : ModelSettingsConfig) :
    (ApplyModelSettings r (some st)).maxOutputTokens =
      match r.maxOutputTokens with
      | some v => some v
      | none => st.MaxOutputTokens := by
  simp only [GeminiRequest.maxOutputTokens, ApplyModelSettings, Option.bind,
    applySystemPrompt_GenerationConfig, (applyMediaResolution_fields _ _).2.2.2,
    (applyThinkingLevel_fields _ _).2.2.2, (applyMaxOutputTokens_fields _ _).2.2.2,
    (applyTopK_fields _ _).2.2.2, (applyTopP_fields _ _).2.2.2,
    (applyTemperature_fields _ _).2.2.2]
  cases r.GenerationConfig <;> rfl

/-- C20. For every upstream request `r` and every overlay `s` (`none` for a nil overlay),
after `ApplyModelSettings(r, s)` each of temperature, topP, topK, maxOutputTokens and
systemInstruction that was set in `r` before the call has the same value as before, and each
of those fields that was not set in `r` but is set in `s` takes the value from `s` (for
systemInstruction: a non-empty system prompt becomes the single text part); in particular a
request that already sets temperature keeps its temperature. -/
theorem ApplyModelSettings_precedence (r : GeminiRequest) (s : Option ModelSettingsConfig) :
    (∀ v, r.temperature = some v → (ApplyModelSettings r s).temperature = some v) ∧
    (∀ v, r.topP = some v → (ApplyModelSettings r s).topP = some v) ∧
    (∀ v, r.topK = some v → (ApplyModelSettings r s).topK = some v) ∧
    (∀ v, r.maxOutputTokens = some v → (ApplyModelSettings r s).maxOutputTokens = some v) ∧
    (∀ v, r.SystemInstruction = some v → (ApplyModelSettings r s).SystemInstruction = some v) ∧
    (∀ st v, s = some st → r.temperature = none → st.Temperature = some v →
      (ApplyModelSettings r s).temperature = some v) ∧
    (∀ st v, s = some st → r.topP = none → st.TopP = some v →
      (ApplyModelSettings r s).topP = some v) ∧
    (∀ st v, s = some st → r.topK = none → st.TopK = some v →
      (ApplyModelSettings r s).topK = some v) ∧
    (∀ st v, s = some st → r.maxOutputTokens = none → st.MaxOutputTokens = some v →
      (ApplyModelSettings r s).maxOutputTokens = some v) ∧
    (∀ st, s = some st → r.SystemInstruction = none → st.SystemPrompt ≠ "" →
      (ApplyModelSettings r s).SystemInstruction =
        some { Parts := [{ Text := st.SystemPrompt }], Role := "" }) := by
  cases s with
  | none =>
    simp [ApplyModelSettings]
  | some st =>
    refine ⟨fun v h => ?_, fun v h => ?_, fun v h => ?_, fun v h => ?_, fun v h => ?_,
      fun st' v hs h hv => ?_, fun st' v hs h hv => ?_, fun st' v hs h hv => ?_,
      fun st' v hs h hv => ?_, fun st' hs h hv => ?_⟩
    · rw [ApplyModelSettings_some_temperature, h]
    · rw [ApplyModelSettings_some_topP, h]
    · rw [ApplyModelSettings_some_topK, h]
    · rw [ApplyModelSettings_some_maxOutputTokens, h]
    · rw [ApplyModelSettings_some_systemInstruction, h]
    · cases hs
      rw [ApplyModelSettings_some_temperature, h, hv]
    · cases hs
      rw [ApplyModelSettings_some_topP, h, hv]
    · cases hs
      rw [ApplyModelSettings_some_topK, h, hv]
    · cases hs
      rw [ApplyModelSettings_some_maxOutputTokens, h, hv]
    · cases hs
      rw [ApplyModelSettings_some_systemInstruction, h]
      simp [hv]

/-! ## Message conversion -/

theorem convertMessagesLoop_ok (dec : ContentDecoder) (parts : Message → List GeminiPart)
    (messages : List Message) :
    ∀ (contents : List GeminiContent) (systemInstruction : Option GeminiContent),
      (∀ m ∈ messages, convertMessageToParts dec m = .ok (parts m)) →
      convertMessagesLoop dec messages contents systemInstruction =
        .ok (contents ++ (messages.filter (fun m => decide (m.Role ≠ "system"))).map
          (fun m => { Parts := parts m, Role := if m.Role = "assistant" then "model" else m.Role }),
          messages.foldl
            (fun acc m => if m.Role = "system" then some { Parts := parts m } else acc)
            systemInstruction) := by
  induction messages with
  | nil =>
    intro contents systemInstruction _
    simp [convertMessagesLoop]
  | cons msg rest ih =>
    intro contents systemInstruction h
    have hmsg := h msg (List.mem_cons_self _ _)
    have hrest : ∀ m ∈ rest, convertMessageToParts dec m = .ok (parts m) :=
      fun m hm => h m (List.mem_cons_of_mem _ hm)
    unfold convertMessagesLoop
    rw [hmsg]
    simp only
    by_cases hsys : msg.Role = "system"
    · rw [if_pos hsys, ih contents (some { Parts := parts msg }) hrest]
      simp [List.filter, hsys]
    · rw [if_neg hsys, ih _ systemInstruction hrest]
      simp [List.filter, hsys]

theorem foldl_system_of_none (parts : Message → List GeminiPart) (messages : List Message)
    (h : ∀ m ∈ messages, m.Role ≠ "system") (init : Option GeminiContent) :
    messages.foldl (fun acc m => if m.Role = "system" then some { Parts := parts m } else acc)
      init = init := by
  induction messages generalizing init with
  | nil => rfl
  | cons msg rest ih =>
    simp only [List.foldl_cons, h msg (List.mem_cons_self _ _), if_false]
    exact ih (fun m hm => h m (List.mem_cons_of_mem _ hm)) init

theorem filter_not_system_of_none (messages : List Message)
    (h : ∀ m ∈ messages, m.Role ≠ "system") :
    messages.filter (fun m => decide (m.Role ≠ "system")) = messages := by
  apply List.filter_eq_self.2
  intro m hm
  simpa using h m hm

theorem user_or_assistant_ne_system (m : Message)
    (h : m.Role = "user" ∨ m.Role = "assistant") : m.Role ≠ "system" := by
  rcases h with h | h <;> rw [h] <;> decide

/-- C14. For every message list that contains exactly one system message, at any position,
and otherwise only user and assistant messages, all with valid content (each message
converts to parts), `ConvertMessages` returns a systemInstruction holding that message's
parts, with no role, and a contents list equal to the translations of the remaining
messages in their original order, so len(contents) = len(messages) - 1. -/
theorem ConvertMessages_single_system (dec : ContentDecoder)
    (parts : Message → List GeminiPart) (pre post : List Message) (sysMsg : Message)
    (hsys : sysMsg.Role = "system")
    (hpre : ∀ m ∈ pre, m.Role = "user" ∨ m.Role = "assistant")
    (hpost : ∀ m ∈ post, m.Role = "user" ∨ m.Role = "assistant")
    (hvalid : ∀ m ∈ pre ++ sysMsg :: post, convertMessageToParts dec m = .ok (parts m)) :
    ∃ contents, ConvertMessages dec (pre ++ sysMsg :: post) =
        .ok (contents, some { Parts := parts sysMsg, Role := "" }) ∧
      contents = (pre ++ post).map
        (fun m => { Parts := parts m, Role := if m.Role = "assistant" then "model" else "user" }) ∧
      contents.length + 1 = (pre ++ sysMsg :: post).length := by
  have hpre' : ∀ m ∈ pre, m.Role ≠ "system" := fun m hm => user_or_assistant_ne_system m (hpre m hm)
  have hpost' : ∀ m ∈ post, m.Role ≠ "system" :=
    fun m hm => user_or_assistant_ne_system m (hpost m hm)
  have hlen : ¬ (pre ++ sysMsg :: post).length = 0 := by simp
  have hrole : ∀ m ∈ pre ++ post,
      (if m.Role = "assistant" then "model" else m.Role) =
        (if m.Role = "assistant" then "model" else "user") := by
    intro m hm
    rcases List.mem_append.1 hm with hm | hm
    · rcases hpre m hm with h | h <;> simp [h]
    · rcases hpost m hm with h | h <;> simp [h]
  refine ⟨_, ?_, rfl, by simp; omega⟩
  unfold ConvertMessages
  rw [if_neg hlen, convertMessagesLoop_ok dec parts _ [] none hvalid]
  simp only [List.nil_append, List.filter_append, List.filter_cons, hsys, List.foldl_append,
    List.foldl_cons, if_true, ne_eq, not_true_eq_false, decide_False, Bool.false_eq_true,
    if_false, filter_not_system_of_none pre hpre', filter_not_system_of_none post hpost',
    foldl_system_of_none parts post hpost']
  congr 2
  apply List.map_congr_left
  intro m hm
  rw [hrole m hm]

/-- C14, witness: a system message between a user and an assistant message. -/
theorem ConvertMessages_single_system_witness :
    ∃ contents, ConvertMessages quotedDecoder ([userHi] ++ systemBrief :: [assistantHello]) =
        .ok (contents, some { Parts := quotedParts systemBrief, Role := "" }) ∧
      contents = ([userHi] ++ [assistantHello]).map
        (fun m => { Parts := quotedParts m,
                    Role := if m.Role = "assistant" then "model" else "user" }) ∧
      contents.length + 1 = ([userHi] ++ systemBrief :: [assistantHello]).length :=
  ConvertMessages_single_system quotedDecoder quotedParts [userHi] [assistantHello] systemBrief
    rfl (by decide) (by decide)
    (by
      intro m hm
      simp only [List.singleton_append, List.mem_cons, List.mem_singleton, List.not_mem_nil,
        or_false] at hm
      rcases hm with rfl | rfl | rfl <;> rfl)

/-- C15, as amended. `ConvertMessages` renames the role assistant to model, keeps the role
user unchanged, and passes every other role except system through unchanged: for every
non-empty message list whose messages all have valid content it returns no error, whatever
the roles, and the contents are the translations of the non-system messages in order. -/
theorem ConvertMessages_roles (dec : ContentDecoder) (parts : Message → List GeminiPart)
    (messages : List Message) (hne : messages ≠ [])
    (hvalid : ∀ m ∈ messages, convertMessageToParts dec m = .ok (parts m)) :
    ∃ contents sys, ConvertMessages dec messages = .ok (contents, sys) ∧
      contents = (messages.filter (fun m => decide (m.Role ≠ "system"))).map
        (fun m => { Parts := parts m, Role := if m.Role = "assistant" then "model" else m.Role }) ∧
      (∀ c ∈ contents, c.Role ≠ "assistant") ∧
      (∀ m ∈ messages, m.Role = "user" →
        ({ Parts := parts m, Role := "user" } : GeminiContent) ∈ contents) ∧
      (∀ m ∈ messages, m.Role = "assistant" →
        ({ Parts := parts m, Role := "model" } : GeminiContent) ∈ contents) := by
  have hlen : ¬ messages.length = 0 := fun h => hne (List.length_eq_zero.1 h)
  refine ⟨(messages.filter (fun m => decide (m.Role ≠ "system"))).map
      (fun m => { Parts := parts m, Role := if m.Role = "assistant" then "model" else m.Role }),
    messages.foldl (fun acc m => if m.Role = "system" then some { Parts := parts m } else acc)
      none, ?_, rfl, ?_, ?_, ?_⟩
  · unfold ConvertMessages
    rw [if_neg hlen, convertMessagesLoop_ok dec parts _ [] none hvalid]
    simp
  · intro c hc
    simp only [List.mem_map, List.mem_filter] at hc
    obtain ⟨m, _, rfl⟩ := hc
    by_cases h : m.Role = "assistant"
    · simp [h]
    · simp [h]
  · intro m hm hr
    simp only [List.mem_map, List.mem_filter]
    exact ⟨m, ⟨hm, by simp [hr]⟩, by simp [hr]⟩
  · intro m hm hr
    simp only [List.mem_map, List.mem_filter]
    exact ⟨m, ⟨hm, by simp [hr]⟩, by simp [hr]⟩

/-- C15, witness: the single message `toolMessage`. -/
theorem ConvertMessages_roles_witness :
    ∃ contents sys, ConvertMessages quotedDecoder [toolMessage] = .ok (contents, sys) ∧
      contents = ([toolMessage].filter (fun m => decide (m.Role ≠ "system"))).map
        (fun m => { Parts := [{ Text := "42" }],
                    Role := if m.Role = "assistant" then "model" else m.Role }) ∧
      (∀ c ∈ contents, c.Role ≠ "assistant") ∧
      (∀ m ∈ [toolMessage], m.Role = "user" →
        ({ Parts := [{ Text := "42" }], Role := "user" } : GeminiContent) ∈ contents) ∧
      (∀ m ∈ [toolMessage], m.Role = "assistant" →
        ({ Parts := [{ Text := "42" }], Role := "model" } : GeminiContent) ∈ contents) :=
  ConvertMessages_roles quotedDecoder (fun _ => [{ Text := "42" }]) [toolMessage] (by decide)
    (by
      intro m hm
      rw [List.mem_singleton] at hm
      subst hm
      rfl)

/-- C15, counterexample: a message list holding one message with the role `tool` and valid
content. `ConvertMessages` returns no error; the message is translated with its role
unchanged. -/
theorem ConvertMessages_accepts_other_role :
    toolMessage.Role ≠ "system" ∧ toolMessage.Role ≠ "user" ∧ toolMessage.Role ≠ "assistant" ∧
    ConvertMessages quotedDecoder [toolMessage] =
      .ok ([{ Parts := [{ Text := "42" }], Role := "tool" }], none) := by
  refine ⟨by decide, by decide, by decide, ?_⟩
  rfl

/-! ## The streaming producer -/

theorem ConvertGeminiStreamChunk_ok (id : String) (created : Int) (chunk : GeminiResponse)
    (model : String) (index : Int) :
    ∃ r, ConvertGeminiStreamChunk id created chunk model index = .ok r := by
  unfold ConvertGeminiStreamChunk
  split_ifs <;> exact ⟨_, rfl⟩

theorem usageAfter_cons (chunk : GeminiResponse) (rest : List GeminiResponse) (p c : Int) :
    usageAfter (chunk :: rest) p c =
      usageAfter rest
        (match chunk.UsageMetadata with
          | some m => m.PromptTokenCount
          | none => p)
        (match chunk.UsageMetadata with
          | some m => m.CandidatesTokenCount
          | none => c) := by
  cases h : chunk.UsageMetadata <;> simp [usageAfter, h]

theorem streamLoop_final (env : StreamEnv) (resp : HTTPResponse) (key : Key) (model : String)
    (fin : GeminiResponse) (post : List GeminiResponse)
    (hctx : ∀ i, env.ctxDone i = false) (hfin : isFinalChunk fin = true)
    (lines : List String) :
    ∀ (pre : List GeminiResponse) (sel chunkIndex : Nat) (p c : Int),
      (lines.filterMap dataPayload).map resp.decodeChunk = (pre ++ fin :: post).map .ok →
      (∀ x ∈ pre, isFinalChunk x = false) →
      ∃ sent : List ChatCompletionChunk,
        translatedChunks env model chunkIndex (pre ++ [fin]) = sent.map .ok ∧
        sent.length = pre.length + 1 ∧
        streamLoop env resp key model lines sel chunkIndex p c =
          sent.map (fun ch => .Send { Chunk := some ch }) ++
            [.Send { Done := true },
             .Pool (.ReportSuccess key (usageAfter (pre ++ [fin]) p c).1
               (usageAfter (pre ++ [fin]) p c).2 model)] := by
  induction lines with
  | nil =>
    intro pre sel idx p c h _
    simp at h
  | cons line rest ih =>
    intro pre sel idx p c h hpre
    rw [streamLoop, hctx sel]
    simp only [Bool.false_eq_true, if_false]
    by_cases h1 : (bytesTrimSpace line).length = 0
    · have hd : dataPayload line = none := by simp [dataPayload, h1]
      rw [List.filterMap_cons_none hd] at h
      rw [if_pos h1]
      exact ih pre (sel + 1) idx p c h hpre
    · rw [if_neg h1]
      by_cases h2 : stringsHasPrefix (bytesTrimSpace line) "data: " = true
      · have hd : dataPayload line =
            some (String.mk ((bytesTrimSpace line).toList.drop 6)) := by
          simp [dataPayload, h1, h2]
        rw [List.filterMap_cons_some hd] at h
        simp only [h2, Bool.not_true, Bool.false_eq_true, if_false]
        cases pre with
        | nil =>
          simp only [List.nil_append, List.map_cons, List.cons.injEq] at h
          obtain ⟨hdec, _⟩ := h
          obtain ⟨r, hr⟩ := ConvertGeminiStreamChunk_ok (env.responseID idx) (env.created idx)
            fin model idx
          refine ⟨[r], ?_, rfl, ?_⟩
          · simp [translatedChunks, hr]
          · rw [hdec]
            simp only [hr, hctx, hfin, Bool.false_eq_true, if_false, if_true, List.nil_append,
              usageAfter_cons, usageAfter, List.map_cons, List.map_nil, List.cons_append]
            cases fin.UsageMetadata <;> rfl
        | cons c0 pre1 =>
          simp only [List.cons_append, List.map_cons, List.cons.injEq] at h
          obtain ⟨hdec, hrest⟩ := h
          obtain ⟨r, hr⟩ := ConvertGeminiStreamChunk_ok (env.responseID idx) (env.created idx)
            c0 model idx
          have hc0 : isFinalChunk c0 = false := hpre c0 (List.mem_cons_self _ _)
          obtain ⟨sent, hs1, hs2, hs3⟩ := ih pre1 (sel + 2) (idx + 1)
            (match c0.UsageMetadata with
              | some m => m.PromptTokenCount
              | none => p)
            (match c0.UsageMetadata with
              | some m => m.CandidatesTokenCount
              | none => c)
            hrest (fun x hx => hpre x (List.mem_cons_of_mem _ hx))
          refine ⟨r :: sent, ?_, by simp [hs2], ?_⟩
          · simp [translatedChunks, hr, hs1]
          · rw [hdec]
            simp only [hr, hctx, hc0, Bool.false_eq_true, if_false, hs3, List.cons_append,
              usageAfter_cons, List.map_cons]
      · have h2f : stringsHasPrefix (bytesTrimSpace line) "data: " = false := by
          simpa using h2
        have hd : dataPayload line = none := by simp [dataPayload, h1, h2f]
        rw [List.filterMap_cons_none hd] at h
        simp only [h2f, Bool.not_false, if_true]
        exact ih pre (sel + 1) idx p c h hpre

/-- C11, as amended. For every upstream stream body whose lines all parse, with no
cancellation, in which the k-th data line (k - 1 = the number of data lines before it) is
the first whose chunk carries a non-empty finish reason on its first candidate (the
producer's test `isFinalChunk`): the producer delivers exactly k chunk events, the
translations of the first k payloads in order (blank lines and lines without the prefix
`data: ` are skipped), then exactly one done-marker event, calls `ReportSuccess` exactly once
with the prompt and completion token counts of the usage metadata seen on those chunks
(0, 0 if none; those of the last such chunk), closes the channel, and releases the
credential after the report. -/
theorem Client.streamResponse_final (env : StreamEnv) (resp : HTTPResponse) (key : Key)
    (model : String) (pre post : List GeminiResponse) (fin : GeminiResponse)
    (hctx : ∀ i, env.ctxDone i = false)
    (hlines : (resp.lines.filterMap dataPayload).map resp.decodeChunk =
      (pre ++ fin :: post).map .ok)
    (hpre : ∀ x ∈ pre, isFinalChunk x = false) (hfin : isFinalChunk fin = true) :
    ∃ sent : List ChatCompletionChunk,
      translatedChunks env model 0 (pre ++ [fin]) = sent.map .ok ∧
      sent.length = pre.length + 1 ∧
      Client.streamResponse env resp key model =
        sent.map (fun ch => .Send { Chunk := some ch }) ++
          [.Send { Done := true },
           .Pool (.ReportSuccess key (usageAfter (pre ++ [fin]) 0 0).1
             (usageAfter (pre ++ [fin]) 0 0).2 model),
           .CloseChannel, .Pool (.ReleaseKey key), .CloseBody] := by
  obtain ⟨sent, h1, h2, h3⟩ :=
    streamLoop_final env resp key model fin post hctx hfin resp.lines pre 0 0 0 0 hlines hpre
  refine ⟨sent, h1, h2, ?_⟩
  unfold Client.streamResponse
  rw [h3]
  simp

/-- C11, witness: the stream `helloStream`, whose third data line is the first whose first
candidate carries a non-empty finish reason. -/
theorem Client.streamResponse_final_witness :
    ∃ sent : List ChatCompletionChunk,
      translatedChunks {} "gpt-4" 0 ([helChunk, loChunk] ++ [bangChunk]) = sent.map .ok ∧
      sent.length = [helChunk, loChunk].length + 1 ∧
      Client.streamResponse {} helloStream keyA "gpt-4" =
        sent.map (fun ch => .Send { Chunk := some ch }) ++
          [.Send { Done := true },
           .Pool (.ReportSuccess keyA (usageAfter ([helChunk, loChunk] ++ [bangChunk]) 0 0).1
             (usageAfter ([helChunk, loChunk] ++ [bangChunk]) 0 0).2 "gpt-4"),
           .CloseChannel, .Pool (.ReleaseKey keyA), .CloseBody] :=
  Client.streamResponse_final {} helloStream keyA "gpt-4" [helChunk, loChunk] [] bangChunk
    (fun _ => rfl) rfl (by decide) rfl

/-- C11, counterexample: the stream `twoCandidateStream` of two data lines with two
candidates each. The chunk of the first data line carries a non-empty finish reason, on its
second candidate only; the producer delivers no done marker after it, but goes on to the
second data line, whose first candidate carries a finish reason, and delivers two chunk
events before the done marker. -/
theorem Client.streamResponse_second_candidate_finished :
    twoCandidateStream.lines.filterMap dataPayload = ["1", "2"] ∧
    twoCandidateStream.decodeChunk "1" = .ok secondFinishedChunk ∧
    (∃ candidate ∈ secondFinishedChunk.Candidates, candidate.FinishReason ≠ "") ∧
    isFinalChunk secondFinishedChunk = false ∧
    (∃ first second, Client.streamResponse {} twoCandidateStream keyA "gpt-4" =
      [.Send { Chunk := some first }, .Send { Chunk := some second }, .Send { Done := true },
       .Pool (.ReportSuccess keyA 0 0 "gpt-4"),
       .CloseChannel, .Pool (.ReleaseKey keyA), .CloseBody]) := by
  refine ⟨by decide, rfl, by decide, rfl, ⟨_, _, rfl⟩⟩

/-- The producer on `helloStream`: three chunks with the deltas `Hel`, `lo`, `!`, the last
with the finish reason `stop`, then the done marker, and a success report with (5, 3). -/
theorem Client.streamResponse_helloStream :
    Client.streamResponse {} helloStream keyA "gpt-4" =
      [.Send { Chunk := some (helloChunk "Hel" "") },
       .Send { Chunk := some (helloChunk "lo" "") },
       .Send { Chunk := some (helloChunk "!" "stop") },
       .Send { Done := true },
       .Pool (.ReportSuccess keyA 5 3 "gpt-4"),
       .CloseChannel, .Pool (.ReleaseKey keyA), .CloseBody] := by
  rfl

/-! ## Conversion failures in a dispatch -/

/-- C13, as amended. In a dispatch that acquired a credential: when translating the request
fails (`ConvertOpenAIRequest`), blocking or streaming, the client makes no report on the pool
and only releases the credential; when translating the upstream response fails
(`ConvertGeminiResponse`, in a blocking dispatch), the client calls `ReportFailure` once with
that error and then releases the credential; `ConvertGeminiStreamChunk` never fails. -/
theorem Client.conversion_failure_trace (dec : ContentDecoder) (u : Upstream)
    (req : ChatCompletionRequest) (key : Key)
    (hkey : u.getKey = .ok key) (hconv : u.convertRequest = ConvertOpenAIRequest dec req) :
    (∀ err, ConvertOpenAIRequest dec req = .error err →
      Client.ChatCompletion u (some req) = (.error err, [.GetKey, .ReleaseKey key]) ∧
      Client.ChatCompletionStream u (some req) = (.error err, [.GetKey, .ReleaseKey key])) ∧
    (∀ g geminiResp err, ConvertOpenAIRequest dec req = .ok g →
      Client.doRequest u = .ok geminiResp →
      ConvertGeminiResponse u.responseID u.created geminiResp req.Model = .error err →
      Client.ChatCompletion u (some req) =
        (.error err, [.GetKey, .ReportFailure key err req.Model, .ReleaseKey key])) ∧
    (∀ id created chunk model index,
      ∃ r, ConvertGeminiStreamChunk id created chunk model index = .ok r) := by
  refine ⟨?_, ?_, ?_⟩
  · intro err herr
    rw [herr] at hconv
    constructor
    · simp [Client.ChatCompletion, Client.chatCompletionBody, hkey, hconv]
    · simp [Client.ChatCompletionStream, hkey, hconv]
  · intro g geminiResp err hg hdo hresp
    rw [hg] at hconv
    simp [Client.ChatCompletion, Client.chatCompletionBody, hkey, hconv, hdo, hresp]
  · intro id created chunk model index
    exact ConvertGeminiStreamChunk_ok id created chunk model index

/-- C13, witness: the dispatch `emptyCandidatesUpstream` of `helloRequest`. -/
theorem Client.conversion_failure_trace_witness :
    (∀ err, ConvertOpenAIRequest quotedDecoder helloRequest = .error err →
      Client.ChatCompletion emptyCandidatesUpstream (some helloRequest) =
        (.error err, [.GetKey, .ReleaseKey keyA]) ∧
      Client.ChatCompletionStream emptyCandidatesUpstream (some helloRequest) =
        (.error err, [.GetKey, .ReleaseKey keyA])) ∧
    (∀ g geminiResp err, ConvertOpenAIRequest quotedDecoder helloRequest = .ok g →
      Client.doRequest emptyCandidatesUpstream = .ok geminiResp →
      ConvertGeminiResponse emptyCandidatesUpstream.responseID emptyCandidatesUpstream.created
        geminiResp helloRequest.Model = .error err →
      Client.ChatCompletion emptyCandidatesUpstream (some helloRequest) =
        (.error err, [.GetKey, .ReportFailure keyA err helloRequest.Model, .ReleaseKey keyA])) ∧
    (∀ id created chunk model index,
      ∃ r, ConvertGeminiStreamChunk id created chunk model index = .ok r) :=
  Client.conversion_failure_trace quotedDecoder emptyCandidatesUpstream helloRequest keyA rfl rfl

/-- C13, counterexample: a blocking dispatch whose request converts, whose upstream call is
answered with HTTP 200 and a body without candidates. `ConvertGeminiResponse` fails, and the
client calls `ReportFailure` on the pool with that error before it releases the credential. -/
theorem Client.ChatCompletion_reports_conversion_failure :
    (∃ g, ConvertOpenAIRequest quotedDecoder helloRequest = .ok g) ∧
    Client.doRequest emptyCandidatesUpstream = .ok { Candidates := [] } ∧
    ConvertGeminiResponse "" 0 { Candidates := [] } "gpt-4" =
      .error (.app (NewUpstreamError "No candidates in Gemini response") .nil) ∧
    Client.ChatCompletion emptyCandidatesUpstream (some helloRequest) =
      (.error (.app (NewUpstreamError "No candidates in Gemini response") .nil),
        [.GetKey,
         .ReportFailure keyA (.app (NewUpstreamError "No candidates in Gemini response") .nil)
           "gpt-4",
         .ReleaseKey keyA]) := by
  refine ⟨⟨_, rfl⟩, rfl, rfl, rfl⟩

/-! ## Request validation -/

theorem validateMessagesLoop_cases (messages : List Message) :
    ∀ i : Nat,
      (validateMessagesLoop i messages = .nil ↔
        ∀ m ∈ messages, m.Role = "system" ∨ m.Role = "user" ∨ m.Role = "assistant") ∧
      (validateMessagesLoop i messages ≠ .nil →
        ∃ e, validateMessagesLoop i messages = .app e .nil ∧
          e.ErrType = "invalid_request_error" ∧ e.HTTPStatus = 400) := by
  induction messages with
  | nil =>
    intro i
    simp [validateMessagesLoop]
  | cons msg rest ih =>
    intro i
    unfold validateMessagesLoop
    by_cases h0 : msg.Role = ""
    · rw [if_pos h0]
      refine ⟨?_, fun _ => ⟨_, rfl, rfl, rfl⟩⟩
      constructor
      · intro h
        cases h
      · intro h
        have hrole := h msg (List.mem_cons_self _ _)
        rw [h0] at hrole
        rcases hrole with h | h | h <;> exact absurd h (by decide)
    · rw [if_neg h0]
      by_cases h1 : msg.Role ≠ "system" ∧ msg.Role ≠ "user" ∧ msg.Role ≠ "assistant"
      · rw [if_pos h1]
        refine ⟨?_, fun _ => ⟨_, rfl, rfl, rfl⟩⟩
        constructor
        · intro h
          cases h
        · intro h
          rcases h msg (List.mem_cons_self _ _) with h | h | h
          · exact absurd h h1.1
          · exact absurd h h1.2.1
          · exact absurd h h1.2.2
      · rw [if_neg h1]
        have hrole : msg.Role = "system" ∨ msg.Role = "user" ∨ msg.Role = "assistant" := by
          by_contra hc
          push_neg at hc
          exact h1 hc
        refine ⟨?_, (ih (i + 1)).2⟩
        rw [(ih (i + 1)).1]
        constructor
        · intro h m hm
          rcases List.mem_cons.1 hm with rfl | hm
          · exact hrole
          · exact h m hm
        · intro h m hm
          exact h m (List.mem_cons_of_mem _ hm)

/-- C24. For every chat-completion request, `validateChatRequest` returns an error if and only
if the model is empty, or the message list is empty, or some message has a role other than
system, user or assistant; the error then has the type invalid_request_error and the HTTP
status 400; otherwise it returns no error. -/
theorem OpenAIHandler.validateChatRequest_cases (req : ChatCompletionRequest) :
    (OpenAIHandler.validateChatRequest req ≠ .nil ↔
      (req.Model = "" ∨ req.Messages = [] ∨
        ∃ m ∈ req.Messages, m.Role ≠ "system" ∧ m.Role ≠ "user" ∧ m.Role ≠ "assistant")) ∧
    (OpenAIHandler.validateChatRequest req ≠ .nil →
      ∃ e, OpenAIHandler.validateChatRequest req = .app e .nil ∧
        e.ErrType = "invalid_request_error" ∧ e.HTTPStatus = 400) := by
  unfold OpenAIHandler.validateChatRequest
  by_cases hm : req.Model = ""
  · rw [if_pos hm]
    refine ⟨⟨fun _ => Or.inl hm, fun _ => by decide⟩, fun _ => ⟨_, rfl, rfl, rfl⟩⟩
  · rw [if_neg hm]
    by_cases hl : req.Messages.length = 0
    · rw [if_pos hl]
      have hnil : req.Messages = [] := List.length_eq_zero.1 hl
      refine ⟨⟨fun _ => Or.inr (Or.inl hnil), fun _ h => by cases h⟩,
        fun _ => ⟨_, rfl, rfl, rfl⟩⟩
    · rw [if_neg hl]
      have hne : req.Messages ≠ [] := fun h => hl (List.length_eq_zero.2 h)
      have hloop := validateMessagesLoop_cases req.Messages 0
      refine ⟨?_, hloop.2⟩
      rw [Ne, hloop.1]
      constructor
      · intro h
        push_neg at h
        obtain ⟨m, hmem, h1, h2, h3⟩ := h
        exact Or.inr (Or.inr ⟨m, hmem, h1, h2, h3⟩)
      · intro h hall
        rcases h with h | h | ⟨m, hmem, h1, h2, h3⟩
        · exact hm h
        · exact hne h
        · rcases hall m hmem with h | h | h
          · exact h1 h
          · exact h2 h
          · exact h3 h

/-- A request with a `tool` message is rejected with the error code 40003. -/
theorem OpenAIHandler.validateChatRequest_toolRequest :
    OpenAIHandler.validateChatRequest toolRequest =
      .app (NewInvalidMessagesError "Invalid role: tool") .nil ∧
    OpenAIHandler.validateChatRequest helloRequest = .nil := by
  constructor <;> rfl

/-! ## Snapshots and dynamic key management -/

/-- C27. `Pool.GetStats` returns exactly one entry per pool credential, in pool order, whose
secret `APIKey` field is empty and whose id, masked key, name, status, enabled flag,
statistics and cooldown deadline equal the credential's; hence two pools whose credentials
differ only in the secret key material return equal snapshots, and replacing the secrets of a
pool does not change its snapshot. -/
theorem Pool.GetStats_snapshot (p : Pool) :
    p.GetStats.length = p.keys.length ∧
    (∀ (i : Nat) (k : Key), p.keys[i]? = some k →
      ∃ s, p.GetStats[i]? = some s ∧ s.APIKey = "" ∧ s.ID = k.ID ∧ s.MaskedKey = k.MaskedKey ∧
        s.Name = k.Name ∧ s.Status = k.Status ∧ s.Enabled = k.Enabled ∧ s.Stats = k.Stats ∧
        s.CooldownUntil = k.CooldownUntil) ∧
    (∀ q : Pool,
      List.Forall₂ (fun a b : Key => { a with APIKey := "" } = { b with APIKey := "" })
        p.keys q.keys →
      p.GetStats = q.GetStats) ∧
    (∀ secret : Key → String,
      Pool.GetStats { p with keys := p.keys.map (fun k => { k with APIKey := secret k }) } =
        p.GetStats) := by
  refine ⟨by simp [Pool.GetStats], ?_, ?_, ?_⟩
  · intro i k hk
    simp [Pool.GetStats, hk]
  · intro q h
    unfold Pool.GetStats
    generalize p.keys = ks at h
    generalize q.keys = ls at h
    induction h with
    | nil => rfl
    | cons hab _ ih =>
      simp only [List.map_cons, ih, List.cons.injEq, and_true]
      have h1 := congrArg Key.ID hab
      have h2 := congrArg Key.MaskedKey hab
      have h3 := congrArg Key.Name hab
      have h4 := congrArg Key.Status hab
      have h5 := congrArg Key.Enabled hab
      have h6 := congrArg Key.Tags hab
      have h7 := congrArg Key.Stats hab
      have h8 := congrArg Key.CooldownUntil hab
      have h9 := congrArg Key.CreatedAt hab
      have h10 := congrArg Key.UpdatedAt hab
      simp only at h1 h2 h3 h4 h5 h6 h7 h8 h9 h10
      rw [h1, h2, h3, h4, h5, h6, h7, h8, h9, h10]
  · intro secret
    simp [Pool.GetStats, List.map_map, Function.comp_def]

/-- C28. `Pool.AddKey` returns an error and leaves the pool's credential sequence unchanged
when the key is nil, when a credential with the same secret is already in the pool, or when
the configured storage fails to create the key (the storage has then received the `CreateKey`
call: persistence is attempted before the in-memory insert); otherwise it returns no error
and the new sequence is the old one with the key, completed, appended at the end. -/
theorem Pool.AddKey_cases (p : Pool) (now : Time) (uuid : String) :
    p.AddKey now uuid none = (.error (.plain "key cannot be nil"), p) ∧
    (∀ key : Key, (∃ k ∈ p.keys, k.APIKey = key.APIKey) →
      p.AddKey now uuid (some key) = (.error (.plain "key already exists"), p)) ∧
    (∀ (key : Key) (st : KeyStorage), (∀ k ∈ p.keys, k.APIKey ≠ key.APIKey) →
      p.storage = some st → st.failing (.CreateKey (completeKey now uuid key)) = true →
      (p.AddKey now uuid (some key)).1 = .error st.failure ∧
      (p.AddKey now uuid (some key)).2.keys = p.keys ∧
      ((p.AddKey now uuid (some key)).2.storage.map (·.calls)) =
        some (st.calls ++ [.CreateKey (completeKey now uuid key)])) ∧
    (∀ key : Key, (∀ k ∈ p.keys, k.APIKey ≠ key.APIKey) →
      (p.storage = none ∨
        ∃ st, p.storage = some st ∧
          st.failing (.CreateKey (completeKey now uuid key)) = false) →
      (p.AddKey now uuid (some key)).1 = .ok () ∧
      (p.AddKey now uuid (some key)).2.keys = p.keys ++ [completeKey now uuid key]) ∧
    (∀ key : Key, (completeKey now uuid key).APIKey = key.APIKey ∧
      (completeKey now uuid key).Name = key.Name ∧
      (key.ID ≠ "" → (completeKey now uuid key).ID = key.ID) ∧
      (key.ID = "" → (completeKey now uuid key).ID = uuid)) := by
  refine ⟨rfl, ?_, ?_, ?_, ?_⟩
  · intro key ⟨k, hk, heq⟩
    have hany : p.keys.any (fun k => k.APIKey == key.APIKey) = true := by
      rw [List.any_eq_true]
      exact ⟨k, hk, by simp [heq]⟩
    simp [Pool.AddKey, hany]
  · intro key st hnew hst hfail
    have hany : p.keys.any (fun k => k.APIKey == key.APIKey) = false := by
      rw [List.any_eq_false]
      intro k hk
      simpa using hnew k hk
    simp [Pool.AddKey, hany, hst, KeyStorage.CreateKey, hfail]
  · intro key hnew hstore
    have hany : p.keys.any (fun k => k.APIKey == key.APIKey) = false := by
      rw [List.any_eq_false]
      intro k hk
      simpa using hnew k hk
    rcases hstore with hnone | ⟨st, hst, hfail⟩
    · simp [Pool.AddKey, hany, hnone]
    · simp [Pool.AddKey, hany, hst, KeyStorage.CreateKey, hfail]
  · intro key
    unfold completeKey
    dsimp only
    refine ⟨?_, ?_, ?_, ?_⟩
    · split_ifs <;> rfl
    · split_ifs <;> rfl
    · intro h
      rw [if_neg h]
      split_ifs <;> rfl
    · intro h
      rw [if_pos h]
      split_ifs <;> rfl

/-- Adding `keyB` to `storedPool` stores it after `keyA` and records one `CreateKey` call;
adding `keyA` again is refused. -/
theorem Pool.AddKey_storedPool :
    (storedPool.AddKey 7 "id-1" (some keyB)).1 = .ok () ∧
    (storedPool.AddKey 7 "id-1" (some keyB)).2.keys.map (·.APIKey) =
      ["AIzaSyKeyA", "AIzaSyKeyB"] ∧
    ((storedPool.AddKey 7 "id-1" (some keyB)).2.storage.map (·.calls.length)) = some 1 ∧
    (storedPool.AddKey 7 "id-1" (some keyA)).1 = .error (.plain "key already exists") ∧
    (storedPool.AddKey 7 "id-1" (some keyA)).2.keys = [keyA] := by
  refine ⟨rfl, rfl, rfl, rfl, rfl⟩

/-! ## Stop sequences -/

/-- C23. For every string `x` with JSON string encoding `enc` (what `json.Marshal` returns
for `x`, which `json.Unmarshal` decodes back to `x`), `StopSequence.UnmarshalJSON` applied to
`enc` yields the one-element list `[x]`, and `StopSequence.MarshalJSON` applied to `[x]` yields
`enc`, so a single-string stop value round-trips in both directions. -/
theorem StopSequence.single_roundTrip (codec : JSONCodec) (x enc : String)
    (henc : codec.marshalString x = .ok enc) (hdec : codec.unmarshalString enc = .ok x) :
    StopSequence.UnmarshalJSON codec enc = .ok [x] ∧
    StopSequence.MarshalJSON codec [x] = .ok enc ∧
    (∀ s, StopSequence.UnmarshalJSON codec enc = .ok s →
      StopSequence.MarshalJSON codec s = .ok enc) ∧
    (∀ data, StopSequence.MarshalJSON codec [x] = .ok data →
      StopSequence.UnmarshalJSON codec data = .ok [x]) := by
  have hu : StopSequence.UnmarshalJSON codec enc = .ok [x] := by
    simp [StopSequence.UnmarshalJSON, hdec]
  have hm : StopSequence.MarshalJSON codec [x] = .ok enc := by
    simp [StopSequence.MarshalJSON, henc]
  refine ⟨hu, hm, ?_, ?_⟩
  · intro s hs
    rw [hu] at hs
    cases hs
    exact hm
  · intro data hd
    rw [hm] at hd
    cases hd
    exact hu

/-- C23, witness: the stop value `END` with the codec `quotedCodec`. -/
theorem StopSequence.single_roundTrip_witness :
    StopSequence.UnmarshalJSON quotedCodec "\"END\"" = .ok ["END"] ∧
    StopSequence.MarshalJSON quotedCodec ["END"] = .ok "\"END\"" ∧
    (∀ s, StopSequence.UnmarshalJSON quotedCodec "\"END\"" = .ok s →
      StopSequence.MarshalJSON quotedCodec s = .ok "\"END\"") ∧
    (∀ data, StopSequence.MarshalJSON quotedCodec ["END"] = .ok data →
      StopSequence.UnmarshalJSON quotedCodec data = .ok ["END"]) :=
  StopSequence.single_roundTrip quotedCodec "END" "\"END\"" rfl rfl

theorem convertGenerationConfig_stop (req : ChatCompletionRequest) (hstop : req.Stop ≠ []) :
    ∃ cfg, convertGenerationConfig req = some cfg ∧ cfg.StopSequences = req.Stop := by
  have hlen : req.Stop.length > 0 := List.length_pos.2 hstop
  unfold convertGenerationConfig
  cases req.Temperature <;> cases req.TopP <;> cases req.MaxTokens <;> cases req.N <;>
    simp [hlen]

/-- C30. `StopSequence.UnmarshalJSON` applied to the JSON literal `null`, which
`json.Unmarshal` stores in a string without an error and without changing it, returns no
error and yields the one-element list containing the empty string, not an empty list; so a
request whose stop list was decoded from `null` has a non-empty stop list and
`convertGenerationConfig` emits a generation config with stopSequences = [""]. -/
theorem StopSequence.UnmarshalJSON_null (codec : JSONCodec)
    (hnull : codec.unmarshalString "null" = .ok "") :
    StopSequence.UnmarshalJSON codec "null" = .ok [""] ∧
    (∀ req : ChatCompletionRequest,
      StopSequence.UnmarshalJSON codec "null" = .ok req.Stop →
      req.Stop ≠ [] ∧
      ∃ cfg, convertGenerationConfig req = some cfg ∧ cfg.StopSequences = [""]) := by
  have hu : StopSequence.UnmarshalJSON codec "null" = .ok [""] := by
    simp [StopSequence.UnmarshalJSON, hnull]
  refine ⟨hu, ?_⟩
  intro req hreq
  rw [hu] at hreq
  have hstop : req.Stop = [""] := (Except.ok.inj hreq).symm
  have hne : req.Stop ≠ [] := by
    rw [hstop]
    decide
  obtain ⟨cfg, hcfg, hs⟩ := convertGenerationConfig_stop req hne
  exact ⟨hne, cfg, hcfg, by rw [hs, hstop]⟩

/-- C30, witness: the codec `quotedCodec`. -/
theorem StopSequence.UnmarshalJSON_null_witness :
    StopSequence.UnmarshalJSON quotedCodec "null" = .ok [""] ∧
    (∀ req : ChatCompletionRequest,
      StopSequence.UnmarshalJSON quotedCodec "null" = .ok req.Stop →
      req.Stop ≠ [] ∧
      ∃ cfg, convertGenerationConfig req = some cfg ∧ cfg.StopSequences = [""]) :=
  StopSequence.UnmarshalJSON_null quotedCodec rfl

/-! ## Several system messages -/

theorem exists_last_system (messages : List Message)
    (h : ∃ m ∈ messages, m.Role = "system") :
    ∃ pre sysMsg post, messages = pre ++ sysMsg :: post ∧ sysMsg.Role = "system" ∧
      ∀ m ∈ post, m.Role ≠ "system" := by
  induction messages with
  | nil =>
    obtain ⟨m, hm, _⟩ := h
    cases hm
  | cons msg rest ih =>
    by_cases hrest : ∃ m ∈ rest, m.Role = "system"
    · obtain ⟨pre, sysMsg, post, heq, hsys, hpost⟩ := ih hrest
      exact ⟨msg :: pre, sysMsg, post, by rw [heq]; rfl, hsys, hpost⟩
    · have hmsg : msg.Role = "system" := by
        obtain ⟨m, hm, hr⟩ := h
        rcases List.mem_cons.1 hm with rfl | hm
        · exact hr
        · exact absurd ⟨m, hm, hr⟩ hrest
      exact ⟨[], msg, rest, rfl, hmsg, fun m hm hr => hrest ⟨m, hm, hr⟩⟩

/-- C29, as amended. For every message list containing two or more system messages whose
messages all have valid content, `ConvertMessages` succeeds, returns as systemInstruction the
parts of the last system message only, with no role, and drops every earlier system message
from both systemInstruction and contents: contents holds exactly the translations of the
non-system messages, in order. -/
theorem ConvertMessages_last_system (dec : ContentDecoder)
    (parts : Message → List GeminiPart) (messages : List Message)
    (hcount : 2 ≤ (messages.filter (fun m => decide (m.Role = "system"))).length)
    (hvalid : ∀ m ∈ messages, convertMessageToParts dec m = .ok (parts m)) :
    ∃ pre sysMsg post, messages = pre ++ sysMsg :: post ∧ sysMsg.Role = "system" ∧
      (∀ m ∈ post, m.Role ≠ "system") ∧ (∃ m ∈ pre, m.Role = "system") ∧
      ConvertMessages dec messages =
        .ok ((messages.filter (fun m => decide (m.Role ≠ "system"))).map
            (fun m => { Parts := parts m,
                        Role := if m.Role = "assistant" then "model" else m.Role }),
          some { Parts := parts sysMsg, Role := "" }) := by
  have hex : ∃ m ∈ messages, m.Role = "system" := by
    cases hf : messages.filter (fun m => decide (m.Role = "system")) with
    | nil =>
      rw [hf] at hcount
      simp at hcount
    | cons m _ =>
      have hm : m ∈ messages.filter (fun m => decide (m.Role = "system")) := by
        rw [hf]
        exact List.mem_cons_self _ _
      rw [List.mem_filter] at hm
      exact ⟨m, hm.1, by simpa using hm.2⟩
  obtain ⟨pre, sysMsg, post, heq, hsys, hpost⟩ := exists_last_system messages hex
  have hpostf : post.filter (fun m => decide (m.Role = "system")) = [] := by
    rw [List.filter_eq_nil_iff]
    intro m hm
    simpa using hpost m hm
  have hpre : ∃ m ∈ pre, m.Role = "system" := by
    rw [heq, List.filter_append, List.filter_cons] at hcount
    simp only [hsys, decide_True, if_true, hpostf, List.length_append, List.length_cons,
      List.length_nil] at hcount
    cases hf : pre.filter (fun m => decide (m.Role = "system")) with
    | nil =>
      rw [hf] at hcount
      simp at hcount
    | cons m _ =>
      have hm : m ∈ pre.filter (fun m => decide (m.Role = "system")) := by
        rw [hf]
        exact List.mem_cons_self _ _
      rw [List.mem_filter] at hm
      exact ⟨m, hm.1, by simpa using hm.2⟩
  refine ⟨pre, sysMsg, post, heq, hsys, hpost, hpre, ?_⟩
  have hlen : ¬ messages.length = 0 := by
    rw [heq]
    simp
  unfold ConvertMessages
  rw [if_neg hlen, convertMessagesLoop_ok dec parts _ [] none hvalid]
  simp only [List.nil_append]
  congr 2
  rw [heq, List.foldl_append, List.foldl_cons, if_pos hsys,
    foldl_system_of_none parts post hpost]

/-- C29, witness: two system messages around a user message, before an assistant message. -/
theorem ConvertMessages_last_system_witness :
    ∃ pre sysMsg post,
      [systemBrief, userHi, systemPolite, assistantHello] = pre ++ sysMsg :: post ∧
      sysMsg.Role = "system" ∧
      (∀ m ∈ post, m.Role ≠ "system") ∧ (∃ m ∈ pre, m.Role = "system") ∧
      ConvertMessages quotedDecoder [systemBrief, userHi, systemPolite, assistantHello] =
        .ok (([systemBrief, userHi, systemPolite, assistantHello].filter
            (fun m => decide (m.Role ≠ "system"))).map
            (fun m => { Parts := quotedParts m,
                        Role := if m.Role = "assistant" then "model" else m.Role }),
          some { Parts := quotedParts sysMsg, Role := "" }) :=
  ConvertMessages_last_system quotedDecoder quotedParts
    [systemBrief, userHi, systemPolite, assistantHello] (by decide)
    (by
      intro m hm
      simp only [List.mem_cons, List.mem_singleton, List.not_mem_nil, or_false] at hm
      rcases hm with rfl | rfl | rfl | rfl <;> rfl)

/-- C29, counterexample: a list of two system messages, the second with a content that is
neither a JSON string nor a list of parts. `ConvertMessages` returns an error. -/
theorem ConvertMessages_two_system_fails :
    systemBrief.Role = "system" ∧ systemNumber.Role = "system" ∧
    ConvertMessages quotedDecoder [systemBrief, systemNumber] =
      .error (.app (NewInvalidMessagesError "Failed to parse message content") .nil) := by
  refine ⟨rfl, rfl, rfl⟩

/-- With valid contents, the instruction of the last of two system messages wins and the
first is dropped. -/
theorem ConvertMessages_two_system :
    ConvertMessages quotedDecoder [systemBrief, userHi, systemPolite] =
      .ok ([{ Parts := [{ Text := "Hi" }], Role := "user" }],
        some { Parts := [{ Text := "Be polite." }], Role := "" }) := by
  rfl

/-! ## Storage writes of the report methods -/

theorem Pool.ReportFailure_rateLimit_storage (p : Pool) (now : Time) (key : Option Nat)
    (err : GoError) (model : String) (h : isRateLimitError err = true) :
    (p.ReportFailure now key err model).storage = p.storage := by
  unfold Pool.ReportFailure
  cases key with
  | none => rfl
  | some i =>
    simp only
    cases p.keys[i]? with
    | none => rfl
    | some k => simp [h]

/-- C26, at the failing input: a pool with a storage backend, and `ReportFailure` on its
credential with a rate-limit error (the typed error with code 42901). The credential is
updated in memory (one more error, status RateLimited) and the storage receives no call; the
same report with an error that is not a rate-limit signal, and `ReportSuccess`, each write
the updated credential once. -/
theorem Pool.ReportFailure_rateLimit_skips_storage :
    isRateLimitError ErrAllKeysRateLimited = true ∧
    (storedPool.ReportFailure 10 (some 0) ErrAllKeysRateLimited "gpt-4").keys.map
      (fun k => (k.Status, k.Stats.ErrorCount)) = [(KeyStatusRateLimited, 1)] ∧
    (storedPool.ReportFailure 10 (some 0) ErrAllKeysRateLimited "gpt-4").storage.map (·.calls) =
      some [] ∧
    (storedPool.ReportFailure 10 (some 0) (.plain "connection reset") "gpt-4").storage.map
      (·.calls) = some [.UpdateKey (keyA.IncrementStats 10 false 0 0 "gpt-4")] ∧
    (storedPool.ReportSuccess 10 (some 0) 5 3 "gpt-4").storage.map (·.calls) =
      some [.UpdateKey (keyA.IncrementStats 10 true 5 3 "gpt-4")] := by
  refine ⟨by decide, ?_, ?_, ?_, ?_⟩ <;> rfl

/-! ## Rate-limit signals -/

theorem ofNat_toNat_small (n : Nat) (h1 : 65 ≤ n) (h2 : n ≤ 90) :
    (Char.ofNat (n + 32)).toNat = n + 32 := by
  interval_cases n <;> rfl

theorem foldASCII_eq_toLower (c : Char) : foldASCII c = c.toLower.toNat := by
  unfold foldASCII Char.toLower
  have hA : 'A'.toNat = 65 := rfl
  have hZ : 'Z'.toNat = 90 := rfl
  rw [hA, hZ]
  by_cases h : 65 ≤ c.toNat ∧ c.toNat ≤ 90
  · simp only [h, and_self, if_true, ge_iff_le]
    exact (ofNat_toNat_small c.toNat h.1 h.2).symm
  · simp only [ge_iff_le, h, if_false]

theorem char_toNat_injective (a b : Char) (h : a.toNat = b.toNat) : a = b := by
  apply Char.ext
  apply UInt32.ext
  exact h

theorem foldASCII_eq_iff (a b : Char) : foldASCII a = foldASCII b ↔ a.toLower = b.toLower := by
  rw [foldASCII_eq_toLower, foldASCII_eq_toLower]
  exact ⟨char_toNat_injective _ _, fun h => by rw [h]⟩

theorem equalFoldSubstring_iff (s1 : List Char) :
    ∀ s2 : List Char, s1.length = s2.length →
      (equalFoldSubstring s1 s2 = true ↔ s1.map Char.toLower = s2.map Char.toLower) := by
  induction s1 with
  | nil =>
    intro s2 h
    cases s2 with
    | nil => simp [equalFoldSubstring]
    | cons _ _ => simp at h
  | cons c1 r1 ih =>
    intro s2 h
    cases s2 with
    | nil => simp at h
    | cons c2 r2 =>
      have hlen : r1.length = r2.length := by simpa using h
      unfold equalFoldSubstring
      by_cases hc : foldASCII c1 = foldASCII c2
      · simp only [ne_eq, hc, not_true_eq_false, if_false, List.map_cons, List.cons.injEq]
        rw [ih r2 hlen]
        have := (foldASCII_eq_iff c1 c2).1 hc
        simp [this]
      · simp only [ne_eq, hc, not_false_eq_true, if_true, List.map_cons, List.cons.injEq]
        have : ¬ c1.toLower = c2.toLower := fun h => hc ((foldASCII_eq_iff c1 c2).2 h)
        simp [this]

theorem contains_iff (s substr : String) : contains s substr = true ↔ containsFold s substr := by
  unfold contains containsFold searchSubstring
  have hsl : s.length = s.toList.length := rfl
  have hbl : substr.length = substr.toList.length := rfl
  rw [hsl, hbl]
  generalize s.toList = l
  generalize substr.toList = b
  simp only [Bool.and_eq_true, decide_eq_true_eq, List.any_eq_true, List.mem_range]
  constructor
  · rintro ⟨hge, i, hi, heq⟩
    have hib : i + b.length ≤ l.length := by omega
    have hwl : ((l.drop i).take b.length).length = b.length := by
      simp only [List.length_take, List.length_drop]
      omega
    refine ⟨l.take i, (l.drop i).take b.length, (l.drop i).drop b.length, ?_, ?_⟩
    · rw [List.append_assoc, List.take_append_drop, List.take_append_drop]
    · exact (equalFoldSubstring_iff _ b hwl).1 heq
  · rintro ⟨pre, w, post, hl, hw⟩
    have hwl : w.length = b.length := by
      have := congrArg List.length hw
      simpa using this
    subst hl
    refine ⟨by simp; omega, pre.length, by simp; omega, ?_⟩
    have hwin : ((pre ++ w ++ post).drop pre.length).take b.length = w := by
      rw [List.append_assoc, List.drop_left, ← hwl, List.take_left]
    rw [hwin]
    exact (equalFoldSubstring_iff w b hwl).2 hw

/-- C25. `isRateLimitError` is false for a nil error; for an error that is, or wraps, a typed
`AppError` (the first one on its unwrap chain) it is true exactly when that `AppError` has
code 42901 or HTTP status 429; and for every other error it is true exactly when the error
message contains, compared ASCII case-insensitively, at least one of the substrings `429`,
`rate limit`, `quota exceeded` or `too many requests`. -/
theorem isRateLimitError_cases :
    isRateLimitError .nil = false ∧
    (∀ (err : GoError) (e : AppErrorData), err.asAppError = some e →
      (isRateLimitError err = true ↔ e.Code = 42901 ∨ e.HTTPStatus = 429)) ∧
    (∀ err : GoError, err ≠ .nil → err.asAppError = none →
      (isRateLimitError err = true ↔
        containsFold err.Error "429" ∨ containsFold err.Error "rate limit" ∨
        containsFold err.Error "quota exceeded" ∨
        containsFold err.Error "too many requests")) := by
  refine ⟨rfl, ?_, ?_⟩
  · intro err e h
    have hne : err ≠ .nil := by
      intro hnil
      rw [hnil] at h
      simp [GoError.asAppError] at h
    unfold isRateLimitError
    rw [if_neg hne, h]
    simp [ErrCodeRateLimit]
  · intro err hne h
    unfold isRateLimitError
    rw [if_neg hne, h]
    simp only [Bool.or_eq_true, contains_iff, or_assoc]

/-- An untyped error whose message mentions a quota in capitals is a rate-limit signal; a
typed error that is not a rate-limit error is none, whatever its message says. -/
theorem isRateLimitError_examples :
    isRateLimitError (.plain "Quota Exceeded for project") = true ∧
    isRateLimitError (.plain "connection reset") = false ∧
    isRateLimitError (.app (NewUpstreamError "upstream said 429") .nil) = false ∧
    isRateLimitError (.wrap "request failed" ErrAllKeysRateLimited) = true := by
  refine ⟨?_, ?_, ?_, ?_⟩ <;> decide

/-! ## Image parts -/

theorem toList_append (a b : String) : (a ++ b).toList = a.toList ++ b.toList :=
  String.data_append a b

theorem indexFrom_comma (a b : List Char) (ha : ',' ∉ a) :
    ∀ i : Nat, indexFrom (a ++ ',' :: b) [','] i = ((i + a.length : Nat) : Int) := by
  induction a with
  | nil =>
    intro i
    unfold indexFrom
    simp [List.isPrefixOf]
  | cons c a ih =>
    intro i
    have hbeq : (',' == c) = false := by
      rw [beq_eq_false_iff_ne]
      exact fun h => ha (List.mem_cons.2 (Or.inl h))
    have ha2 : ',' ∉ a := fun h => ha (List.mem_cons_of_mem _ h)
    unfold indexFrom
    simp only [List.cons_append, List.isPrefixOf, hbeq, Bool.false_and,
      Bool.false_eq_true, if_false]
    rw [ih ha2 (i + 1)]
    simp only [List.length_cons]
    congr 1
    omega

theorem indexFrom_no_comma (a : List Char) (ha : ',' ∉ a) :
    ∀ i : Nat, indexFrom a [','] i = -1 := by
  induction a with
  | nil =>
    intro i
    unfold indexFrom
    simp [List.isPrefixOf]
  | cons c a ih =>
    intro i
    have hbeq : (',' == c) = false := by
      rw [beq_eq_false_iff_ne]
      exact fun h => ha (List.mem_cons.2 (Or.inl h))
    have ha2 : ',' ∉ a := fun h => ha (List.mem_cons_of_mem _ h)
    unfold indexFrom
    simp only [List.isPrefixOf, hbeq, Bool.false_and, Bool.false_eq_true, if_false]
    exact ih ha2 (i + 1)

theorem stringsTrimSuffix_append (m0 suffix : String) :
    stringsTrimSuffix (m0 ++ suffix) suffix = m0 := by
  unfold stringsTrimSuffix stringsHasSuffix
  have h : suffix.toList.isSuffixOf (m0 ++ suffix).toList = true := by
    rw [List.isSuffixOf_iff_suffix, toList_append]
    exact ⟨m0.toList, rfl⟩
  rw [if_pos h]
  have hl : (m0 ++ suffix).length - suffix.length = m0.toList.length := by
    show (m0 ++ suffix).toList.length - suffix.toList.length = m0.toList.length
    rw [toList_append, List.length_append]
    omega
  rw [hl, toList_append, List.take_left]
  rfl

theorem parseBase64DataURI_data (m d : String) (hm : ',' ∉ m.toList) :
    parseBase64DataURI ("data:" ++ m ++ "," ++ d) =
      .ok { InlineData := some ⟨(if stringsTrimSuffix m ";base64" = "" then
        "application/octet-stream" else stringsTrimSuffix m ";base64"), d⟩ } := by
  have hl : ("data:" ++ m ++ "," ++ d).toList =
      "data:".toList ++ (m.toList ++ ',' :: d.toList) := by
    rw [toList_append, toList_append, toList_append, List.append_assoc, List.append_assoc]
    rfl
  have hrest : stringsTrimPrefix ("data:" ++ m ++ "," ++ d) "data:" =
      String.mk (m.toList ++ ',' :: d.toList) := by
    unfold stringsTrimPrefix stringsHasPrefix
    have hp : "data:".toList.isPrefixOf ("data:" ++ m ++ "," ++ d).toList = true := by
      rw [List.isPrefixOf_iff_prefix, hl]
      exact List.prefix_append _ _
    rw [if_pos hp, hl]
    show String.mk (("data:".toList ++ (m.toList ++ ',' :: d.toList)).drop "data:".toList.length) = _
    rw [List.drop_left]
  have hidx : stringsIndex (String.mk (m.toList ++ ',' :: d.toList)) "," =
      ((m.toList.length : Nat) : Int) := by
    unfold stringsIndex
    have h := indexFrom_comma m.toList d.toList hm 0
    rw [Nat.zero_add] at h
    exact h
  unfold parseBase64DataURI
  simp only [hrest, hidx]
  have hne : ¬ (((m.toList.length : Nat) : Int) = -1) := by omega
  rw [if_neg hne]
  simp only [Int.toNat_ofNat]
  have h1 : (String.mk (m.toList ++ ',' :: d.toList)).toList = m.toList ++ ',' :: d.toList := rfl
  rw [h1, List.take_left]
  have h2 : (m.toList ++ ',' :: d.toList).drop (m.toList.length + 1) = d.toList := by
    rw [← List.drop_drop, List.drop_left]
    rfl
  rw [h2]
  rfl

theorem mem_of_mem_drop_toList (url : String) (n : Nat) (c : Char)
    (h : c ∈ url.toList.drop n) : c ∈ url.toList :=
  List.mem_of_mem_drop h

/-- C21, as amended. For every image URL of the form "data:" + m + "," + d where m contains no
comma, the translated part is inline data whose payload is exactly d, everything after the
first comma, and whose mime type is m with a trailing ";base64" removed, or
application/octet-stream when nothing remains of m; a "data:" URL that contains no comma is
rejected with an error of the type invalid_request_error (code 40003, HTTP status 400). -/
theorem convertImageURL_dataURI (m d detail : String) (hm : ',' ∉ m.toList) :
    (∃ mime, convertImageURL { URL := "data:" ++ m ++ "," ++ d, Detail := detail } =
        .ok { InlineData := some { MimeType := mime, Data := d } } ∧
      (stringsTrimSuffix m ";base64" ≠ "" → mime = stringsTrimSuffix m ";base64") ∧
      (stringsTrimSuffix m ";base64" = "" → mime = "application/octet-stream")) ∧
    (∀ m0, m = m0 ++ ";base64" → stringsTrimSuffix m ";base64" = m0) ∧
    (stringsHasSuffix m ";base64" = false → stringsTrimSuffix m ";base64" = m) ∧
    (∀ url : String, stringsHasPrefix url "data:" = true → ',' ∉ url.toList →
      convertImageURL { URL := url, Detail := detail } =
        .error (.app (NewInvalidMessagesError "Invalid data URI format") .nil)) ∧
    (NewInvalidMessagesError "Invalid data URI format").ErrType = "invalid_request_error" ∧
    (NewInvalidMessagesError "Invalid data URI format").Code = 40003 ∧
    (NewInvalidMessagesError "Invalid data URI format").HTTPStatus = 400 := by
  refine ⟨?_, ?_, ?_, ?_, rfl, rfl, rfl⟩
  · have hp : stringsHasPrefix ("data:" ++ m ++ "," ++ d) "data:" = true := by
      unfold stringsHasPrefix
      rw [List.isPrefixOf_iff_prefix, toList_append, toList_append, toList_append,
        List.append_assoc, List.append_assoc]
      exact List.prefix_append _ _
    refine ⟨(if stringsTrimSuffix m ";base64" = "" then "application/octet-stream"
      else stringsTrimSuffix m ";base64"), ?_, ?_, ?_⟩
    · unfold convertImageURL
      simp only [hp, if_true]
      exact parseBase64DataURI_data m d hm
    · intro h
      rw [if_neg h]
    · intro h
      rw [if_pos h]
  · intro m0 h
    rw [h]
    exact stringsTrimSuffix_append m0 ";base64"
  · intro h
    unfold stringsTrimSuffix
    rw [h]
    rfl
  · intro url hp hc
    unfold convertImageURL
    simp only [hp, if_true]
    unfold parseBase64DataURI stringsTrimPrefix
    simp only [hp, if_true]
    have hidx : stringsIndex (String.mk (url.toList.drop "data:".length)) "," = -1 := by
      unfold stringsIndex
      exact indexFrom_no_comma _ (fun h => hc (mem_of_mem_drop_toList url _ _ h)) 0
    simp only [hidx, if_true]

/-- C21, witness: a PNG image as a base64 data URI. -/
theorem convertImageURL_dataURI_witness :
    (∃ mime, convertImageURL
        { URL := "data:" ++ "image/png;base64" ++ "," ++ "iVBORw0KGgo=", Detail := "" } =
        .ok { InlineData := some { MimeType := mime, Data := "iVBORw0KGgo=" } } ∧
      (stringsTrimSuffix "image/png;base64" ";base64" ≠ "" →
        mime = stringsTrimSuffix "image/png;base64" ";base64") ∧
      (stringsTrimSuffix "image/png;base64" ";base64" = "" →
        mime = "application/octet-stream")) ∧
    (∀ m0, "image/png;base64" = m0 ++ ";base64" →
      stringsTrimSuffix "image/png;base64" ";base64" = m0) ∧
    (stringsHasSuffix "image/png;base64" ";base64" = false →
      stringsTrimSuffix "image/png;base64" ";base64" = "image/png;base64") ∧
    (∀ url : String, stringsHasPrefix url "data:" = true → ',' ∉ url.toList →
      convertImageURL { URL := url, Detail := "" } =
        .error (.app (NewInvalidMessagesError "Invalid data URI format") .nil)) ∧
    (NewInvalidMessagesError "Invalid data URI format").ErrType = "invalid_request_error" ∧
    (NewInvalidMessagesError "Invalid data URI format").Code = 40003 ∧
    (NewInvalidMessagesError "Invalid data URI format").HTTPStatus = 400 :=
  convertImageURL_dataURI "image/png;base64" "iVBORw0KGgo=" "" (by decide)

/-- C21, counterexample: the image URL `data:;base64,AAAA`, of the form "data:" + m + "," + d
with m = ";base64" and d = "AAAA". Removing the trailing ";base64" from m leaves the empty
string, and the translated part has the mime type application/octet-stream. -/
theorem convertImageURL_empty_mediaType :
    "data:;base64,AAAA" = "data:" ++ ";base64" ++ "," ++ "AAAA" ∧
    stringsTrimSuffix ";base64" ";base64" = "" ∧
    convertImageURL { URL := "data:;base64,AAAA" } =
      .ok { InlineData := some { MimeType := "application/octet-stream", Data := "AAAA" } } := by
  refine ⟨by decide, by decide, rfl⟩

theorem isSuffixOf_exclusive (a b l : List Char) (ha : a.isSuffixOf l = true)
    (hb : b.isSuffixOf l = true) : a.isSuffixOf b = true ∨ b.isSuffixOf a = true := by
  rw [List.isSuffixOf_iff_suffix] at ha hb
  rw [List.isSuffixOf_iff_suffix, List.isSuffixOf_iff_suffix]
  rcases le_total a.length b.length with h | h
  · exact Or.inl (List.suffix_of_suffix_length_le ha hb h)
  · exact Or.inr (List.suffix_of_suffix_length_le hb ha h)

theorem stringsHasSuffix_exclusive (s a b : String)
    (hab : a.toList.isSuffixOf b.toList = false) (hba : b.toList.isSuffixOf a.toList = false) :
    ¬ (stringsHasSuffix s a = true ∧ stringsHasSuffix s b = true) := by
  rintro ⟨ha, hb⟩
  rcases isSuffixOf_exclusive _ _ _ ha hb with h | h
  · rw [hab] at h
    cases h
  · rw [hba] at h
    cases h

/-- What `convertImageURL` computes for an image URL that does not start with `data:`: a file
reference carrying the URL unchanged, with a mime type read off the end of the whole URL
string, lower-cased: image/png when it ends with .png, image/gif for .gif, image/webp for
.webp, and image/jpeg in every other case, which includes .jpg and .jpeg. -/
theorem convertImageURL_fileURI (img : ImageURL)
    (hurl : stringsHasPrefix img.URL "data:" = false) :
    ∃ mime, convertImageURL img =
        .ok { FileData := some { MimeType := mime, FileURI := img.URL } } ∧
      (mime = "image/png" ↔ stringsHasSuffix (stringsToLower img.URL) ".png" = true) ∧
      (mime = "image/gif" ↔ stringsHasSuffix (stringsToLower img.URL) ".gif" = true) ∧
      (mime = "image/webp" ↔ stringsHasSuffix (stringsToLower img.URL) ".webp" = true) ∧
      (mime = "image/jpeg" ↔
        stringsHasSuffix (stringsToLower img.URL) ".png" = false ∧
        stringsHasSuffix (stringsToLower img.URL) ".gif" = false ∧
        stringsHasSuffix (stringsToLower img.URL) ".webp" = false) ∧
      (stringsHasSuffix (stringsToLower img.URL) ".jpg" = true ∨
        stringsHasSuffix (stringsToLower img.URL) ".jpeg" = true → mime = "image/jpeg") := by
  refine ⟨inferMimeTypeFromURL img.URL, ?_, ?_⟩
  · unfold convertImageURL
    simp [hurl]
  · have e1 := stringsHasSuffix_exclusive (stringsToLower img.URL) ".jpg" ".png"
      (by decide) (by decide)
    have e2 := stringsHasSuffix_exclusive (stringsToLower img.URL) ".jpg" ".gif"
      (by decide) (by decide)
    have e3 := stringsHasSuffix_exclusive (stringsToLower img.URL) ".jpg" ".webp"
      (by decide) (by decide)
    have e4 := stringsHasSuffix_exclusive (stringsToLower img.URL) ".jpeg" ".png"
      (by decide) (by decide)
    have e5 := stringsHasSuffix_exclusive (stringsToLower img.URL) ".jpeg" ".gif"
      (by decide) (by decide)
    have e6 := stringsHasSuffix_exclusive (stringsToLower img.URL) ".jpeg" ".webp"
      (by decide) (by decide)
    have e7 := stringsHasSuffix_exclusive (stringsToLower img.URL) ".png" ".gif"
      (by decide) (by decide)
    have e8 := stringsHasSuffix_exclusive (stringsToLower img.URL) ".png" ".webp"
      (by decide) (by decide)
    have e9 := stringsHasSuffix_exclusive (stringsToLower img.URL) ".gif" ".webp"
      (by decide) (by decide)
    unfold inferMimeTypeFromURL
    simp only
    generalize stringsHasSuffix (stringsToLower img.URL) ".jpg" = j1 at *
    generalize stringsHasSuffix (stringsToLower img.URL) ".jpeg" = j2 at *
    generalize stringsHasSuffix (stringsToLower img.URL) ".png" = p at *
    generalize stringsHasSuffix (stringsToLower img.URL) ".gif" = g at *
    generalize stringsHasSuffix (stringsToLower img.URL) ".webp" = w at *
    cases j1 <;> cases j2 <;> cases p <;> cases g <;> cases w <;> simp_all

/-- A PNG image by URL, with the suffix in capitals. -/
theorem convertImageURL_fileURI_witness :
    ∃ mime, convertImageURL { URL := "https://example.com/cat.PNG" } =
        .ok { FileData := some { MimeType := mime, FileURI := "https://example.com/cat.PNG" } } ∧
      (mime = "image/png" ↔
        stringsHasSuffix (stringsToLower "https://example.com/cat.PNG") ".png" = true) ∧
      (mime = "image/gif" ↔
        stringsHasSuffix (stringsToLower "https://example.com/cat.PNG") ".gif" = true) ∧
      (mime = "image/webp" ↔
        stringsHasSuffix (stringsToLower "https://example.com/cat.PNG") ".webp" = true) ∧
      (mime = "image/jpeg" ↔
        stringsHasSuffix (stringsToLower "https://example.com/cat.PNG") ".png" = false ∧
        stringsHasSuffix (stringsToLower "https://example.com/cat.PNG") ".gif" = false ∧
        stringsHasSuffix (stringsToLower "https://example.com/cat.PNG") ".webp" = false) ∧
      (stringsHasSuffix (stringsToLower "https://example.com/cat.PNG") ".jpg" = true ∨
        stringsHasSuffix (stringsToLower "https://example.com/cat.PNG") ".jpeg" = true →
        mime = "image/jpeg") :=
  convertImageURL_fileURI { URL := "https://example.com/cat.PNG" } (by decide)

/-- C22, at the failing input: the image URL `https://example.com/cat.png?size=large`, whose
path `/cat.png` has the extension .png and is followed by a query. `inferMimeTypeFromURL`
tests the end of the whole URL string, which is not .png, and the translated part has the
default mime type image/jpeg instead of image/png. -/
theorem convertImageURL_query_after_path :
    "https://example.com/cat.png?size=large" = "https://example.com/cat.png" ++ "?size=large" ∧
    stringsHasSuffix "https://example.com/cat.png" ".png" = true ∧
    stringsHasPrefix "https://example.com/cat.png?size=large" "data:" = false ∧
    convertImageURL { URL := "https://example.com/cat.png?size=large" } =
      .ok { FileData := some { MimeType := "image/jpeg",
                               FileURI := "https://example.com/cat.png?size=large" } } := by
  refine ⟨by decide, by decide, by decide, rfl⟩

end MuxueTools
